import Mathlib

/-! # LoopBlocking: a shallow embedding of the loop-blocking pass

The pass of `pass/lib/LoopBlocking.cpp` edits an LLVM function in place.  The
embedding keeps the three structures the pass edits as explicit state:

* `Function`      : the control-flow graph (blocks, terminators, instructions);
* `LoopInfo`      : the loop forest;
* `DominatorTree` : the dominance relation;

together with the `STATISTIC` counters.  The functions of the pass
(`dominantBound`, `checkBoundaryValuesDominance`, `transform`,
`createBlockingLoop`, ...) are translated statement by statement.  An `assert`
of the source that fails, a `cast<>` that fails and a null pointer that is
dereferenced end the run without a result (`none`).  The build is the release
build: the `#ifndef NDEBUG` verification blocks of `transform` are compiled
out, and so are the assertions inside the LLVM library calls (they are stated
as separate predicates where a claim needs them).

The LLVM library calls the pass makes (`Loop::getLoopLatch`,
`replaceSuccessorWith`, `LoopInfo::addTopLevelLoop`, ...) are embedded after
the LLVM sources of the release the pass is written against (the one with
`llvm::Optional`).  The scalar-evolution analysis is an oracle
(`ScalarEvolution`): it answers `getBounds` and `getInductionVariable`.  The
loop-nest analysis is an oracle too (`LoopNestAnalysis`): it answers
`getPerfectLoops`.

The driver (`collectCandidates`, `execute`) follows the pass.  The runs of the
rewritten loops are read by an evaluator of the emitted instructions on
integers of a fixed width (`evalValue`, `runLoop`, `runTiles`); natural loops
are read as reachability in the graph (`InNaturalLoop`).
-/

namespace LoopBlocking

/-! ## Values, instructions, blocks -/

abbrev BlockId := Nat
abbrev InstId := Nat
abbrev LoopId := Nat

/-- The integer comparison predicates of `CmpInst::Predicate`. -/
inductive Predicate where
  | ICMP_EQ | ICMP_NE
  | ICMP_UGT | ICMP_UGE | ICMP_ULT | ICMP_ULE
  | ICMP_SGT | ICMP_SGE | ICMP_SLT | ICMP_SLE
  deriving DecidableEq, Repr

/-- The step direction of `Loop::LoopBounds::Direction`. -/
inductive Direction where
  | Increasing | Decreasing | Unknown
  deriving DecidableEq, Repr

/-- The two binary opcodes the pass emits. -/
inductive BinaryOps where
  | Add | Sub
  deriving DecidableEq, Repr

/-- The two intrinsics the pass calls. -/
inductive IntrinsicID where
  | smin | umin
  deriving DecidableEq, Repr

/-- An LLVM value, by kind.  A `ConstantInt` is the bit pattern `val` of an
integer of `bits` bits; `Other` stands for every kind the pass does not
recognise (a global, a block address, ...). -/
inductive Value where
  | ConstantInt (bits : Nat) (val : Nat)
  | ConstantFP (n : Nat)
  | Argument (n : Nat)
  | Instruction (id : InstId)
  | Other (n : Nat)
  deriving DecidableEq, Repr

/-- The non-terminator instructions.  `bits` is the width of the integer type of
the result. -/
inductive Inst where
  | PHINode (bits : Nat) (incoming : List (Value × BlockId))
  | BinaryOperator (op : BinaryOps) (bits : Nat) (lhs rhs : Value)
  | ICmpInst (pred : Predicate) (lhs rhs : Value)
  | CallInst (callee : IntrinsicID) (bits : Nat) (args : List Value)
  | Other (bits : Nat)
  deriving DecidableEq, Repr

/-- The terminator of a block: a `BranchInst` (unconditional or conditional,
successor 0 is the true successor) or any other terminator with its successors. -/
inductive Terminator where
  | Br (dest : BlockId)
  | CondBr (cond : Value) (ifTrue ifFalse : BlockId)
  | Other (succs : List BlockId)
  deriving DecidableEq, Repr

/-- A function body.  `blockOrder` is the block list of the function; `insts b`
lists the non-terminator instructions of `b` in order, `term b` is its
terminator (if it has one), `inst i` is instruction `i`.  `nextBlock` and
`nextInst` are the next fresh identities. -/
structure Function where
  blockOrder : List BlockId
  insts : BlockId → List InstId
  term : BlockId → Option Terminator
  inst : InstId → Option Inst
  nextBlock : Nat
  nextInst : Nat

/-- A loop of the forest (`LoopBase`): parent, sub-loops and block list, the
header first. -/
structure Loop where
  ParentLoop : Option LoopId
  SubLoops : List LoopId
  Blocks : List BlockId
  deriving DecidableEq, Repr

/-- The loop forest (`LoopInfo`). -/
structure LoopInfo where
  loop : LoopId → Loop
  TopLevelLoops : List LoopId
  nextLoop : Nat

/-- The dominator tree: the blocks that have a node and the table of the
immediate dominators (the first entry of a block counts; the root has none). -/
structure DominatorTree where
  nodes : List BlockId
  idoms : List (BlockId × BlockId)
  deriving DecidableEq, Repr

/-- The `STATISTIC` counters of the pass. -/
structure Statistics where
  CandidateLoops : Nat
  TransformedLoops : Nat
  InvalidLoops : Nat
  FoundRotated : Nat
  BoundsNotDominant : Nat
  deriving DecidableEq, Repr

/-- Everything the pass reads and writes. -/
structure State where
  F : Function
  LI : LoopInfo
  DT : DominatorTree
  Stats : Statistics

/-- The bounds of a loop as `Loop::getBounds` reports them (`Loop::LoopBounds`).
The direction is the sign of the step that scalar evolution finds. -/
structure LoopBounds where
  L : LoopId
  InitialIVValue : Value
  StepInst : InstId
  FinalIVValue : Value
  Direction : Direction
  deriving DecidableEq, Repr

/-- The scalar-evolution oracle: the two queries the pass makes. -/
structure ScalarEvolution where
  getBounds : Function → LoopInfo → LoopId → Option LoopBounds
  getInductionVariable : Function → LoopInfo → LoopId → Option InstId

/-- The `BlockingInfo` of the header: it carries the blocking factor. -/
structure BlockingInfo where
  BlockingFactor : Nat
  deriving DecidableEq, Repr

/-- The `BlockingNest` of the header: the loops of a nest, outermost first. -/
structure BlockingNest where
  Nest : List LoopId
  deriving DecidableEq, Repr

/-- The three command-line options of the pass. -/
structure Options where
  BlockingFactor : Nat
  MaxPerfectNestDepth : Nat
  FirstLoopDepth : Nat
  deriving DecidableEq, Repr

/-- The defaults of the options: `cl::init(16)`, `cl::init(3)`, `cl::init(0)`. -/
def Options.default : Options :=
  { BlockingFactor := 16, MaxPerfectNestDepth := 3, FirstLoopDepth := 0 }

/-! ## The LLVM calls on the control-flow graph -/

/-- The successors of a terminator, in operand order. -/
def Terminator.successors : Terminator → List BlockId
  | .Br d => [d]
  | .CondBr _ t f => [t, f]
  | .Other ss => ss

/-- `successors(BB)`. -/
def Function.successors (F : Function) (b : BlockId) : List BlockId :=
  match F.term b with
  | some t => t.successors
  | none => []

/-- `predecessors(BB)`: one entry for every edge into `b`. -/
def Function.predecessors (F : Function) (b : BlockId) : List BlockId :=
  F.blockOrder.flatMap (fun p => (F.successors p).filterMap (fun s => if s = b then some p else none))

/-- `Instruction::replaceSuccessorWith(Old, New)`. -/
def Terminator.replaceSuccessorWith (t : Terminator) (Old New : BlockId) : Terminator :=
  match t with
  | .Br d => .Br (if d = Old then New else d)
  | .CondBr c a b => .CondBr c (if a = Old then New else a) (if b = Old then New else b)
  | .Other ss => .Other (ss.map (fun s => if s = Old then New else s))

/-- Insert `x` in a list just before the first `y`, at the end when there is none. -/
def insertBefore (x : Nat) (y : Nat) : List Nat → List Nat
  | [] => [x]
  | z :: zs => if z = y then x :: z :: zs else z :: insertBefore x y zs

/-- `BasicBlock::Create(Context, Name, &ParentFunc, InsertBefore)`: a new empty
block, put in the block list before `InsertBefore`. -/
def Function.createBlock (F : Function) (InsertBefore : BlockId) : BlockId × Function :=
  (F.nextBlock,
   { F with
     blockOrder := insertBefore F.nextBlock InsertBefore F.blockOrder
     insts := fun b => if b = F.nextBlock then [] else F.insts b
     term := fun b => if b = F.nextBlock then none else F.term b
     nextBlock := F.nextBlock + 1 })

/-- Set the terminator of a block. -/
def Function.setTerm (F : Function) (b : BlockId) (t : Terminator) : Function :=
  { F with term := fun x => if x = b then some t else F.term x }

/-- Create an instruction in block `b`, after the instructions the block has and
before its terminator.  This is what `Create(..., InsertAtEnd)` does in a block
that has no terminator yet and what `Create(..., InsertBefore)` does when
`InsertBefore` is the terminator of `b`. -/
def Function.createInst (F : Function) (b : BlockId) (i : Inst) : InstId × Function :=
  (F.nextInst,
   { F with
     insts := fun x => if x = b then F.insts b ++ [F.nextInst] else F.insts x
     inst := fun x => if x = F.nextInst then some i else F.inst x
     nextInst := F.nextInst + 1 })

/-- Overwrite instruction `id`. -/
def Function.setInst (F : Function) (id : InstId) (i : Inst) : Function :=
  { F with inst := fun x => if x = id then some i else F.inst x }

/-- `PHINode::replaceIncomingBlockWith(Old, New)` on one instruction (anything
but a phi is left alone). -/
def Inst.replaceIncomingBlockWith (i : Inst) (Old New : BlockId) : Inst :=
  match i with
  | .PHINode w inc => .PHINode w (inc.map (fun p => (p.1, if p.2 = Old then New else p.2)))
  | other => other

/-- `BasicBlock::replacePhiUsesWith(Old, New)`: in every phi of block `b` the
incoming block `Old` becomes `New`. -/
def Function.replacePhiUsesWith (F : Function) (b : BlockId) (Old New : BlockId) : Function :=
  { F with
    inst := fun x =>
      if x ∈ F.insts b then (F.inst x).map (fun i => i.replaceIncomingBlockWith Old New)
      else F.inst x }

/-- `PHINode::setIncomingValueForBlock(BB, V)` on one instruction. -/
def Inst.setIncomingValueForBlock (i : Inst) (BB : BlockId) (V : Value) : Inst :=
  match i with
  | .PHINode w inc => .PHINode w (inc.map (fun p => (if p.2 = BB then V else p.1, p.2)))
  | other => other

/-- `PHINode::addIncoming(V, BB)` on one instruction. -/
def Inst.addIncoming (i : Inst) (V : Value) (BB : BlockId) : Inst :=
  match i with
  | .PHINode w inc => .PHINode w (inc ++ [(V, BB)])
  | other => other

/-- Apply a change to instruction `id`, if there is one. -/
def Function.updateInst (F : Function) (id : InstId) (f : Inst → Inst) : Function :=
  { F with inst := fun x => if x = id then (F.inst id).map f else F.inst x }

/-- `Instruction::eraseFromParent()`. -/
def Function.eraseFromParent (F : Function) (id : InstId) : Function :=
  { F with
    insts := fun b => (F.insts b).filter (fun x => x ≠ id)
    inst := fun x => if x = id then none else F.inst x }

/-- `Instruction::getParent()`: the block that lists the instruction. -/
def Function.getParent (F : Function) (id : InstId) : Option BlockId :=
  F.blockOrder.find? (fun b => decide (id ∈ F.insts b))

/-- The width of the type of an instruction. -/
def Inst.bits : Inst → Nat
  | .PHINode w _ => w
  | .BinaryOperator _ w _ _ => w
  | .ICmpInst _ _ _ => 1
  | .CallInst _ w _ => w
  | .Other w => w

/-! ## The LLVM calls on loops -/

/-- `Loop::contains(BB)`. -/
def LoopInfo.contains (LI : LoopInfo) (L : LoopId) (b : BlockId) : Bool :=
  decide (b ∈ (LI.loop L).Blocks)

/-- `Loop::getHeader()`: the first block of the block list. -/
def getHeader (LI : LoopInfo) (L : LoopId) : Option BlockId :=
  (LI.loop L).Blocks.head?

/-- `Loop::getParentLoop()`. -/
def getParentLoop (LI : LoopInfo) (L : LoopId) : Option LoopId :=
  (LI.loop L).ParentLoop

/-- `Loop::getLoopLatch()`: the predecessor of the header inside the loop, when
exactly one edge enters the header from inside. -/
def getLoopLatch (F : Function) (LI : LoopInfo) (L : LoopId) : Option BlockId :=
  match getHeader LI L with
  | none => none
  | some h =>
    match (F.predecessors h).filter (fun p => LI.contains L p) with
    | [p] => some p
    | _ => none

/-- `Loop::getLoopPredecessor()`: the block outside the loop from which every
outside edge into the header comes. -/
def getLoopPredecessor (F : Function) (LI : LoopInfo) (L : LoopId) : Option BlockId :=
  match getHeader LI L with
  | none => none
  | some h =>
    match (F.predecessors h).filter (fun p => !(LI.contains L p)) with
    | [] => none
    | p :: ps => if ps.all (fun q => decide (q = p)) then some p else none

/-- `Loop::getLoopPreheader()`: the loop predecessor, when the header is its only
successor. -/
def getLoopPreheader (F : Function) (LI : LoopInfo) (L : LoopId) : Option BlockId :=
  match getLoopPredecessor F LI L with
  | none => none
  | some Out => if (F.successors Out).length = 1 then some Out else none

/-- `Loop::isLoopExiting(BB)`: some successor of `BB` is outside the loop. -/
def isLoopExiting (F : Function) (LI : LoopInfo) (L : LoopId) (b : BlockId) : Bool :=
  (F.successors b).any (fun s => !(LI.contains L s))

/-- `Loop::getExitingBlocks`: the blocks of the loop with a successor outside. -/
def getExitingBlocks (F : Function) (LI : LoopInfo) (L : LoopId) : List BlockId :=
  (LI.loop L).Blocks.filter (fun b => isLoopExiting F LI L b)

/-- `Loop::getExitingBlock()`. -/
def getExitingBlock (F : Function) (LI : LoopInfo) (L : LoopId) : Option BlockId :=
  match getExitingBlocks F LI L with
  | [b] => some b
  | _ => none

/-- `Loop::getExitBlocks`: the target of every edge that leaves the loop. -/
def getExitBlocks (F : Function) (LI : LoopInfo) (L : LoopId) : List BlockId :=
  (LI.loop L).Blocks.flatMap (fun b => (F.successors b).filter (fun s => !(LI.contains L s)))

/-- `Loop::getExitBlock()`. -/
def getExitBlock (F : Function) (LI : LoopInfo) (L : LoopId) : Option BlockId :=
  match getExitBlocks F LI L with
  | [b] => some b
  | _ => none

/-- `Loop::hasDedicatedExits()`: every predecessor of every exit block is in the
loop. -/
def hasDedicatedExits (F : Function) (LI : LoopInfo) (L : LoopId) : Bool :=
  (getExitBlocks F LI L).all (fun e => (F.predecessors e).all (fun p => LI.contains L p))

/-- `Loop::isLoopSimplifyForm()`. -/
def isLoopSimplifyForm (F : Function) (LI : LoopInfo) (L : LoopId) : Bool :=
  (getLoopPreheader F LI L).isSome && (getLoopLatch F LI L).isSome && hasDedicatedExits F LI L

/-- `Loop::isRotatedForm()`: the latch is an exiting block. -/
def isRotatedForm (F : Function) (LI : LoopInfo) (L : LoopId) : Bool :=
  match getLoopLatch F LI L with
  | some Latch => isLoopExiting F LI L Latch
  | none => false

/-- `Loop::getLatchCmpInst()`: the `ICmpInst` that is the condition of the
conditional branch of the latch. -/
def getLatchCmpInst (F : Function) (LI : LoopInfo) (L : LoopId) : Option InstId :=
  match getLoopLatch F LI L with
  | none => none
  | some Latch =>
    match F.term Latch with
    | some (.CondBr (.Instruction c) _ _) =>
      match F.inst c with
      | some (.ICmpInst _ _ _) => some c
      | _ => none
    | _ => none

/-- `CmpInst::isSigned()`. -/
def Predicate.isSigned : Predicate → Bool
  | .ICMP_SGT | .ICMP_SGE | .ICMP_SLT | .ICMP_SLE => true
  | _ => false

/-- `CmpInst::getInversePredicate`. -/
def Predicate.getInversePredicate : Predicate → Predicate
  | .ICMP_EQ => .ICMP_NE | .ICMP_NE => .ICMP_EQ
  | .ICMP_UGT => .ICMP_ULE | .ICMP_UGE => .ICMP_ULT
  | .ICMP_ULT => .ICMP_UGE | .ICMP_ULE => .ICMP_UGT
  | .ICMP_SGT => .ICMP_SLE | .ICMP_SGE => .ICMP_SLT
  | .ICMP_SLT => .ICMP_SGE | .ICMP_SLE => .ICMP_SGT

/-- `CmpInst::getSwappedPredicate`. -/
def Predicate.getSwappedPredicate : Predicate → Predicate
  | .ICMP_EQ => .ICMP_EQ | .ICMP_NE => .ICMP_NE
  | .ICMP_UGT => .ICMP_ULT | .ICMP_UGE => .ICMP_ULE
  | .ICMP_ULT => .ICMP_UGT | .ICMP_ULE => .ICMP_UGE
  | .ICMP_SGT => .ICMP_SLT | .ICMP_SGE => .ICMP_SLE
  | .ICMP_SLT => .ICMP_SGT | .ICMP_SLE => .ICMP_SGE

/-- `CmpInst::getFlippedStrictnessPredicate` (not defined on EQ and NE, which
are returned as they are). -/
def Predicate.getFlippedStrictnessPredicate : Predicate → Predicate
  | .ICMP_EQ => .ICMP_EQ | .ICMP_NE => .ICMP_NE
  | .ICMP_UGT => .ICMP_UGE | .ICMP_UGE => .ICMP_UGT
  | .ICMP_ULT => .ICMP_ULE | .ICMP_ULE => .ICMP_ULT
  | .ICMP_SGT => .ICMP_SGE | .ICMP_SGE => .ICMP_SGT
  | .ICMP_SLT => .ICMP_SLE | .ICMP_SLE => .ICMP_SLT

/-- `Loop::LoopBounds::getCanonicalPredicate()`: the predicate of the latch
comparison, read so that the loop goes on when `StepInst pred FinalIVValue`
holds: inverted when the header is not successor 0 of the latch branch, swapped
when the final value is operand 0, with flipped strictness when the comparison
is on the induction variable and not on `StepInst`.  No result where LLVM asserts
or answers `BAD_ICMP_PREDICATE`. -/
def getCanonicalPredicate (F : Function) (LI : LoopInfo) (B : LoopBounds) : Option Predicate :=
  match getLoopLatch F LI B.L, getHeader LI B.L with
  | some Latch, some Header =>
    match F.term Latch with
    | some (.CondBr (.Instruction c) s0 _) =>
      match F.inst c with
      | some (.ICmpInst p op0 op1) =>
        let Pred := if s0 = Header then p else p.getInversePredicate
        let Pred := if op0 = B.FinalIVValue then Pred.getSwappedPredicate else Pred
        if op0 = .Instruction B.StepInst ∨ op1 = .Instruction B.StepInst then some Pred
        else if Pred ≠ .ICMP_NE ∧ Pred ≠ .ICMP_EQ then some Pred.getFlippedStrictnessPredicate
        else match B.Direction with
          | .Increasing => some .ICMP_SLT
          | .Decreasing => some .ICMP_SGT
          | .Unknown => none
      | _ => none
    | _ => none
  | _, _ => none

/-- `LoopInfo::AllocateLoop()`: a fresh loop with no parent, no child and no
block. -/
def LoopInfo.AllocateLoop (LI : LoopInfo) : LoopId × LoopInfo :=
  (LI.nextLoop,
   { LI with
     loop := fun l => if l = LI.nextLoop then { ParentLoop := none, SubLoops := [], Blocks := [] }
                      else LI.loop l
     nextLoop := LI.nextLoop + 1 })

/-- `Loop::addBlockEntry(BB)`. -/
def LoopInfo.addBlockEntry (LI : LoopInfo) (L : LoopId) (b : BlockId) : LoopInfo :=
  { LI with
    loop := fun l => if l = L then { LI.loop L with Blocks := (LI.loop L).Blocks ++ [b] }
                     else LI.loop l }

/-- `LoopInfo::addTopLevelLoop(New)`: `TopLevelLoops.push_back(New)`.  (LLVM
asserts that `New` has no parent; the assertion is `addTopLevelLoop_assert`.) -/
def LoopInfo.addTopLevelLoop (LI : LoopInfo) (New : LoopId) : LoopInfo :=
  { LI with TopLevelLoops := LI.TopLevelLoops ++ [New] }

/-- `LoopInfo::removeLoop(I)` for the iterator `I` at the first occurrence of `L`
in the top-level list: that entry is erased.  (LLVM asserts that `L` has no
parent.) -/
def LoopInfo.removeLoop (LI : LoopInfo) (L : LoopId) : LoopInfo :=
  { LI with TopLevelLoops := LI.TopLevelLoops.erase L }

/-- `Loop::addChildLoop(NewChild)`: `NewChild->ParentLoop = this;
SubLoops.push_back(NewChild)`.  (LLVM asserts that `NewChild` has no parent; the
assertion is `addChildLoop_assert`.) -/
def LoopInfo.addChildLoop (LI : LoopInfo) (L : LoopId) (NewChild : LoopId) : LoopInfo :=
  let LI1 : LoopInfo :=
    { LI with
      loop := fun l => if l = NewChild then { LI.loop NewChild with ParentLoop := some L }
                       else LI.loop l }
  { LI1 with
    loop := fun l =>
      if l = L then { LI1.loop L with SubLoops := (LI1.loop L).SubLoops ++ [NewChild] }
      else LI1.loop l }

/-- The assertion inside `Loop::addChildLoop`: "NewChild already has a parent!". -/
def addChildLoop_assert (LI : LoopInfo) (NewChild : LoopId) : Bool :=
  (LI.loop NewChild).ParentLoop.isNone

/-- The assertion inside `LoopInfo::addTopLevelLoop`: "Loop already in subloop!". -/
def addTopLevelLoop_assert (LI : LoopInfo) (New : LoopId) : Bool :=
  (LI.loop New).ParentLoop.isNone

/-! ## The LLVM calls on the dominator tree -/

/-- `DomTreeNode::getIDom()`. -/
def DominatorTree.IDom (DT : DominatorTree) (b : BlockId) : Option BlockId :=
  DT.idoms.lookup b

/-- The chain `b, idom b, idom (idom b), ...` up to the root. -/
def DominatorTree.chain (DT : DominatorTree) : Nat → BlockId → List BlockId
  | 0, b => [b]
  | n + 1, b =>
    match DT.IDom b with
    | none => [b]
    | some p => b :: DT.chain n p

/-- The chain of `b` with enough fuel for a tree on `nodes`. -/
def DominatorTree.ancestors (DT : DominatorTree) (b : BlockId) : List BlockId :=
  DT.chain DT.nodes.length b

/-- `DomTreeNode::getLevel()`. -/
def DominatorTree.level (DT : DominatorTree) (b : BlockId) : Nat :=
  (DT.ancestors b).length - 1

/-- `DominatorTree::isReachableFromEntry(BB)`: the block has a node. -/
def DominatorTree.isReachableFromEntry (DT : DominatorTree) (b : BlockId) : Bool :=
  decide (b ∈ DT.nodes)

/-- `DominatorTreeBase::dominates(A, B)` on blocks: a block dominates itself, an
unreachable block is dominated by anything and dominates nothing. -/
def DominatorTree.dominatesBlock (DT : DominatorTree) (A B : BlockId) : Bool :=
  if A = B then true
  else if !(DT.isReachableFromEntry B) then true
  else if !(DT.isReachableFromEntry A) then false
  else decide (A ∈ DT.ancestors B)

/-- `DominatorTree::dominates(const Instruction *Def, const BasicBlock *BB)`: an
unreachable use is dominated, an unreachable definition dominates nothing, a
definition does not dominate its own block, and otherwise the block of the
definition must dominate `BB`. -/
def DominatorTree.dominates (DT : DominatorTree) (F : Function) (Def : InstId) (UseBB : BlockId) :
    Bool :=
  if !(DT.isReachableFromEntry UseBB) then true
  else
    match F.getParent Def with
    | none => false
    | some DefBB =>
      if !(DT.isReachableFromEntry DefBB) then false
      else if DefBB = UseBB then false
      else DT.dominatesBlock DefBB UseBB

/-- `DominatorTree::addNewBlock(BB, DomBB)`: a new node under `DomBB`. -/
def DominatorTree.addNewBlock (DT : DominatorTree) (BB DomBB : BlockId) : DominatorTree :=
  { nodes := DT.nodes ++ [BB]
    idoms := (BB, DomBB) :: DT.idoms }

/-- `findNearestCommonDominator(A, B)`. -/
def DominatorTree.findNearestCommonDominator (DT : DominatorTree) (A B : BlockId) : Option BlockId :=
  (DT.ancestors A).find? (fun x => decide (x ∈ DT.ancestors B))

/-- Depth-first search: the blocks reached from the work list through `succ`,
never entering a block for which `ok` is false. -/
def reach (succ : BlockId → List BlockId) (ok : BlockId → Bool) :
    Nat → List BlockId → List BlockId → List BlockId
  | 0, _, seen => seen
  | _ + 1, [], seen => seen
  | n + 1, b :: work, seen =>
    if b ∈ seen ∨ ok b = false then reach succ ok n work seen
    else reach succ ok n (succ b ++ work) (b :: seen)

/-- Fuel that lets `reach` finish on the graph of `F`. -/
def Function.searchFuel (F : Function) : Nat :=
  (F.blockOrder.map (fun b => (F.successors b).length + 1)).sum + F.blockOrder.length + 1

/-- The blocks reachable from `root` in the graph of `F` through blocks for which
`ok` holds. -/
def Function.reachable (F : Function) (ok : BlockId → Bool) (root : BlockId) : List BlockId :=
  reach F.successors ok F.searchFuel [root] []

/-- Dominance computed from the graph: `d` dominates `n` below `root` when `n` is
`d` or cannot be reached from `root` without passing `d` (only blocks with
`ok` are entered). -/
def Function.dominatesFrom (F : Function) (ok : BlockId → Bool) (root d n : BlockId) : Bool :=
  decide (d = n) || !(decide (n ∈ F.reachable (fun b => ok b && !(decide (b = d))) root))

/-- The immediate dominator of `n` below `root` computed from the graph: the
strict dominator of `n` that every strict dominator of `n` dominates. -/
def Function.idomFrom (F : Function) (ok : BlockId → Bool) (root n : BlockId) : Option BlockId :=
  let region := F.reachable ok root
  let strict := region.filter (fun d => !(decide (d = n)) && F.dominatesFrom ok root d n)
  strict.find? (fun d => strict.all (fun e => F.dominatesFrom ok root e d))

/-- `CalculateFromScratch`: the tree of the graph of `F`, from the entry block
(the first block of the function). -/
def DominatorTree.recalculate (F : Function) : DominatorTree :=
  match F.blockOrder.head? with
  | none => { nodes := [], idoms := [] }
  | some entry =>
    let region := (F.reachable (fun _ => true) entry).reverse
    { nodes := region
      idoms := region.filterMap (fun b => (F.idomFrom (fun _ => true) entry b).map (fun d => (b, d))) }

/-- The effect of `InsertReachable(From, To)`: with `NCD` the nearest common
dominator of the two ends, nothing changes when `level NCD + 1 >= level To`;
otherwise every affected node gets `NCD` as immediate dominator, a node `v`
being affected when `level NCD + 1 < level v` and `v` is reached from `To`
through nodes whose level is at least `level v`. -/
def DominatorTree.insertReachable (DT : DominatorTree) (F : Function) (From To : BlockId) :
    DominatorTree :=
  match DT.findNearestCommonDominator From To with
  | none => DT
  | some NCD =>
    if DT.level NCD + 1 ≥ DT.level To then DT
    else
      let affected := DT.nodes.filter (fun v =>
        decide (DT.level NCD + 1 < DT.level v) &&
        decide (v ∈ F.reachable (fun w => decide (w ∈ DT.nodes) && decide (DT.level v ≤ DT.level w)) To))
      { DT with idoms := affected.map (fun v => (v, NCD)) ++ DT.idoms }

/-- `DominatorTree::insertEdge(From, To)`: an edge from a block without a node is
ignored; an edge to a block without a node attaches the blocks that become
reachable (here by recalculation); otherwise `InsertReachable`. -/
def DominatorTree.insertEdge (DT : DominatorTree) (F : Function) (From To : BlockId) :
    DominatorTree :=
  if !(DT.isReachableFromEntry From) then DT
  else if !(DT.isReachableFromEntry To) then DominatorTree.recalculate F
  else DT.insertReachable F From To

/-- The effect of `DeleteReachable(From, To)`: the subtree under the nearest
common dominator `T` of the two ends is rebuilt from the graph (a depth-first
search from `T` that only descends into nodes deeper than `T`, then Semi-NCA);
when `T` is the root the whole tree is recalculated. -/
def DominatorTree.deleteReachable (DT : DominatorTree) (F : Function) (From To : BlockId) :
    DominatorTree :=
  match DT.findNearestCommonDominator From To with
  | none => DT
  | some T =>
    match DT.IDom T with
    | none => DominatorTree.recalculate F
    | some _ =>
      let ok : BlockId → Bool := fun b => decide (b = T) || decide (DT.level T < DT.level b)
      let region := (F.reachable ok T).filter (fun b => !(decide (b = T)))
      { DT with
        idoms := region.filterMap (fun b => (F.idomFrom ok T b).map (fun d => (b, d))) ++ DT.idoms }

/-- `HasProperSupport(To)`: some predecessor of `To` with a node is not dominated
by `To`. -/
def DominatorTree.hasProperSupport (DT : DominatorTree) (F : Function) (To : BlockId) : Bool :=
  (F.predecessors To).any (fun Pred =>
    DT.isReachableFromEntry Pred && decide (DT.findNearestCommonDominator To Pred ≠ some To))

/-- `DominatorTree::deleteEdge(From, To)`: nothing to do when an end has no node
or when `To` dominates `From`; `DeleteReachable` when `To` stays reachable;
otherwise the tree is rebuilt without the blocks that are no longer reachable
(here by recalculation). -/
def DominatorTree.deleteEdge (DT : DominatorTree) (F : Function) (From To : BlockId) :
    DominatorTree :=
  if !(DT.isReachableFromEntry From) then DT
  else if !(DT.isReachableFromEntry To) then DT
  else if DT.findNearestCommonDominator From To = some To then DT
  else if DT.IDom To ≠ some From ∨ DT.hasProperSupport F To then DT.deleteReachable F From To
  else DominatorTree.recalculate F

/-! ## The pass -/

/-- `LoopBlocking::dominantBound` (LoopBlocking.cpp, lines 379-401). -/
def dominantBound (DT : DominatorTree) (F : Function) (Bound : Value) (BB : BlockId) : Bool :=
  match Bound with
  | .ConstantInt _ _ => true
  | .ConstantFP _ => true
  | .Instruction i => if DT.dominates F i BB then true else false
  | .Argument _ => true
  | .Other _ => false

/-- `LoopBlocking::checkBoundaryValuesDominance` (lines 340-351). -/
def checkBoundaryValuesDominance (F : Function) (Bounds : LoopBounds) (BB : BlockId)
    (DT : DominatorTree) : Bool :=
  if !(dominantBound DT F Bounds.FinalIVValue BB) then false
  else if !(dominantBound DT F Bounds.InitialIVValue BB) then false
  else true

/-- `BlockingNest::size()`. -/
def BlockingNest.size (BN : BlockingNest) : Nat := BN.Nest.length

/-- `BlockingNest::topLoop()`: the front of the nest. -/
def BlockingNest.topLoop (BN : BlockingNest) : Option LoopId := BN.Nest.head?

/-- `BlockingNest::areAllLoopsSimplified()`. -/
def BlockingNest.areAllLoopsSimplified (BN : BlockingNest) (F : Function) (LI : LoopInfo) : Bool :=
  BN.Nest.all (fun L => isLoopSimplifyForm F LI L)

/-- `BlockingNest::areAllLoopsRotated()`. -/
def BlockingNest.areAllLoopsRotated (BN : BlockingNest) (F : Function) (LI : LoopInfo) : Bool :=
  BN.Nest.all (fun L => isRotatedForm F LI L)

/-- An `assert(cond)` of the pass. -/
def assert (cond : Bool) : Option Unit := if cond then some () else none

/-- The blocks and the induction variable that `createBlockingLoop` looks up
first (lines 194-212); `TargetIvType` is the width of `TargetIv->getType()`. -/
structure LoopParts where
  OuterHeader : BlockId
  OuterPreheader : BlockId
  OuterLatch : BlockId
  OuterExit : BlockId
  TargetLatch : BlockId
  TargetPreheader : BlockId
  OuterExiting : BlockId
  TargetIv : InstId
  TargetIvType : Nat
  deriving DecidableEq, Repr

/-- What lines 214-220 create: the new loop and its three blocks. -/
structure NewBlocks where
  NL : LoopId
  NewHeader : BlockId
  NewLatch : BlockId
  NewOuterPreheader : BlockId
  deriving DecidableEq, Repr

/-- What lines 262-281 create: the new induction variable, the constant of the
blocking factor, the update and the exit comparison of the new header; with
the predicate that `TargetBounds.getCanonicalPredicate()` returns at line 278. -/
structure NewValues where
  NewIV : InstId
  BlockingFactor : Value
  UpdateIVInst : InstId
  CanonicalPredicate : Predicate
  NewHeaderExitCond : InstId
  deriving DecidableEq, Repr

/-- What lines 294-333 create: the bound of a tile, its minimum with the final
value and the new comparison of the latch of the target; with the opcode and
the intrinsic chosen at lines 295 and 312, the old comparison that line 336
erases, its operand 0 and the predicate that
`TargetBounds.getCanonicalPredicate()` returns at line 330. -/
structure TileValues where
  BoundOp : BinaryOps
  BoundValue : InstId
  IntrFuncMinID : IntrinsicID
  MinIntrCall : InstId
  OldLatchCompInst : InstId
  OldOperand0 : Value
  CanonicalPredicate : Predicate
  BlockBoundCond : InstId
  deriving DecidableEq, Repr

/-- The local variables of a run of `createBlockingLoop`. -/
structure Locals where
  parts : LoopParts
  blocks : NewBlocks
  values : NewValues
  tile : TileValues
  deriving DecidableEq, Repr

/-- Lines 190-212 of `createBlockingLoop`: the assertions on the target and the
look-up of the blocks of the two loops.  `OuterExit` is used without an
assertion (line 201 asserts the preheader a second time); a null exit block has
no place in the graph and ends the run. -/
def lookupLoopParts (SE : ScalarEvolution) (st : State) (Target Outer : LoopId) :
    Option LoopParts := do
  -- lines 192-193
  assert (isRotatedForm st.F st.LI Target)
  assert (isLoopSimplifyForm st.F st.LI Target)
  -- lines 194-201
  let OuterHeader ← getHeader st.LI Outer
  let OuterPreheader ← getLoopPreheader st.F st.LI Outer
  let OuterLatch ← getLoopLatch st.F st.LI Outer
  let OuterExit ← getExitBlock st.F st.LI Outer
  -- lines 203-206
  let TargetLatch ← getLoopLatch st.F st.LI Target
  let TargetPreheader ← getLoopPreheader st.F st.LI Target
  -- lines 208-209
  let OuterExiting ← getExitingBlock st.F st.LI Outer
  -- lines 211-212
  let TargetIv ← SE.getInductionVariable st.F st.LI Target
  let TargetIvInst ← st.F.inst TargetIv
  return { OuterHeader := OuterHeader, OuterPreheader := OuterPreheader, OuterLatch := OuterLatch,
           OuterExit := OuterExit, TargetLatch := TargetLatch, TargetPreheader := TargetPreheader,
           OuterExiting := OuterExiting, TargetIv := TargetIv, TargetIvType := TargetIvInst.bits }

/-- Lines 214-226 of `createBlockingLoop`: the new loop is allocated, the three
blocks are created and entered in the block list of the new loop. -/
def allocateBlockingLoop (st : State) (c : LoopParts) : NewBlocks × State :=
  -- line 214
  let NL := st.LI.AllocateLoop
  -- lines 218-220
  let NewHeader := st.F.createBlock c.OuterHeader
  let NewLatch := NewHeader.2.createBlock c.OuterExit
  let NewOuterPreheader := NewLatch.2.createBlock NewHeader.1
  -- lines 221-225
  let LI := NL.2.addBlockEntry NL.1 NewHeader.1
  let LI := LI.addBlockEntry NL.1 NewLatch.1
  let LI := LI.addBlockEntry NL.1 NewOuterPreheader.1
  ({ NL := NL.1, NewHeader := NewHeader.1, NewLatch := NewLatch.1,
     NewOuterPreheader := NewOuterPreheader.1 },
   { st with F := NewOuterPreheader.2, LI := LI })

/-- Lines 230-259 of `createBlockingLoop`: the control edges are rewired. -/
def rewireEdges (st : State) (c : LoopParts) (n : NewBlocks) : Option State := do
  -- lines 230-232: the terminator of the old preheader is an unconditional branch
  let OldParentPreheaderTerminator ← st.F.term c.OuterPreheader
  assert (match OldParentPreheaderTerminator with | .Br _ => true | _ => false)
  let F := st.F.setTerm c.OuterPreheader
    (OldParentPreheaderTerminator.replaceSuccessorWith c.OuterHeader n.NewHeader)
  -- line 233
  let DT := st.DT.addNewBlock n.NewHeader c.OuterPreheader
  -- line 239
  let F := F.setTerm n.NewOuterPreheader (.Br c.OuterHeader)
  -- line 242
  let F := F.replacePhiUsesWith c.OuterHeader c.OuterPreheader n.NewOuterPreheader
  -- line 250
  let OuterExitingTerminator ← F.term c.OuterExiting
  let F := F.setTerm c.OuterExiting
    (OuterExitingTerminator.replaceSuccessorWith c.OuterExit n.NewLatch)
  -- line 252
  let DT := DT.addNewBlock n.NewLatch c.OuterExiting
  -- line 259
  let F := F.setTerm n.NewLatch (.Br n.NewHeader)
  return { st with F := F, DT := DT }

/-- Lines 262-289 of `createBlockingLoop`: the induction variable of the new
loop, its update in the new latch, the exit test of the new header and the
update of the dominator tree. -/
def buildBlockingHeader (st : State) (c : LoopParts) (n : NewBlocks)
    (TargetBounds : LoopBounds) (Info : BlockingInfo) : Option (NewValues × State) := do
  -- line 262
  let NewIV := st.F.createInst n.NewHeader (.PHINode c.TargetIvType [])
  -- line 264
  let F := NewIV.2.updateInst c.TargetIv
    (fun i => i.setIncomingValueForBlock c.TargetPreheader (.Instruction NewIV.1))
  -- lines 267-268: `APInt(width, factor)` keeps the low `width` bits
  let BlockingFactor : Value :=
    .ConstantInt c.TargetIvType (Info.BlockingFactor % 2 ^ c.TargetIvType)
  -- line 269: inserted before the terminator of the new latch
  let UpdateIVInst := F.createInst n.NewLatch
    (.BinaryOperator .Add c.TargetIvType (.Instruction NewIV.1) BlockingFactor)
  -- lines 272-273
  let F := UpdateIVInst.2.updateInst NewIV.1
    (fun i => i.addIncoming TargetBounds.InitialIVValue c.OuterPreheader)
  let F := F.updateInst NewIV.1 (fun i => i.addIncoming (.Instruction UpdateIVInst.1) n.NewLatch)
  -- lines 277-281
  let CanonicalPredicate ← getCanonicalPredicate F st.LI TargetBounds
  let NewHeaderExitCond := F.createInst n.NewHeader
    (.ICmpInst CanonicalPredicate (.Instruction NewIV.1) TargetBounds.FinalIVValue)
  -- line 284
  let F := NewHeaderExitCond.2.setTerm n.NewHeader
    (.CondBr (.Instruction NewHeaderExitCond.1) n.NewOuterPreheader c.OuterExit)
  -- lines 285-289
  let DT := st.DT.addNewBlock n.NewOuterPreheader n.NewHeader
  let DT := DT.insertEdge F n.NewOuterPreheader c.OuterHeader
  let DT := DT.insertEdge F n.NewHeader c.OuterExit
  let DT := DT.deleteEdge F c.OuterExiting c.OuterExit
  let DT := DT.deleteEdge F c.OuterPreheader c.OuterHeader
  return ({ NewIV := NewIV.1, BlockingFactor := BlockingFactor, UpdateIVInst := UpdateIVInst.1,
            CanonicalPredicate := CanonicalPredicate, NewHeaderExitCond := NewHeaderExitCond.1 },
          { st with F := F, DT := DT })

/-- Lines 294-305 of `createBlockingLoop`: the opcode of the bound of a tile. -/
def boundOp : Direction → Option BinaryOps
  | .Increasing => some .Add
  | .Decreasing => some .Sub
  | .Unknown => none

/-- The predicate of a comparison instruction. -/
def Function.cmpPredicate (F : Function) (i : InstId) : Option Predicate :=
  match F.inst i with
  | some (.ICmpInst p _ _) => some p
  | _ => none

/-- The operand 0 of a comparison instruction (`getOperand(0)`). -/
def Function.cmpOperand0 (F : Function) (i : InstId) : Option Value :=
  match F.inst i with
  | some (.ICmpInst _ op0 _) => some op0
  | _ => none

/-- `BranchInst::setCondition(C)`, on a conditional branch. -/
def Terminator.setCondition (t : Terminator) (C : Value) : Option Terminator :=
  match t with
  | .CondBr _ a b => some (.CondBr C a b)
  | _ => none

/-- Lines 291-336 of `createBlockingLoop`: the bound of a tile in the preheader
of the target, its minimum with the final value, and the new test of the latch
of the target. -/
def buildTileBound (st : State) (c : LoopParts) (v : NewValues) (Target : LoopId)
    (TargetBounds : LoopBounds) : Option (TileValues × State) := do
  -- lines 294-305
  let BoundOp ← boundOp TargetBounds.Direction
  -- lines 306-309: inserted before the terminator of the preheader of the target
  let _ ← st.F.term c.TargetPreheader
  let BoundValue := st.F.createInst c.TargetPreheader
    (.BinaryOperator BoundOp c.TargetIvType (.Instruction v.NewIV) v.BlockingFactor)
  let F := BoundValue.2
  -- lines 311-315
  let LatchCmp ← getLatchCmpInst F st.LI Target
  let LatchCmpPred ← F.cmpPredicate LatchCmp
  let IntrFuncMinID := if LatchCmpPred.isSigned then IntrinsicID.smin else IntrinsicID.umin
  -- lines 317-322: inserted before the terminator of the latch of the target
  let _ ← F.term c.TargetLatch
  let MinIntrCall := F.createInst c.TargetLatch
    (.CallInst IntrFuncMinID c.TargetIvType [.Instruction BoundValue.1, TargetBounds.FinalIVValue])
  let F := MinIntrCall.2
  -- lines 328-333
  let OldLatchCompInst ← getLatchCmpInst F st.LI Target
  let OldOperand0 ← F.cmpOperand0 OldLatchCompInst
  let CanonicalPredicate ← getCanonicalPredicate F st.LI TargetBounds
  let BlockBoundCond := F.createInst c.TargetLatch
    (.ICmpInst CanonicalPredicate OldOperand0 (.Instruction MinIntrCall.1))
  let F := BlockBoundCond.2
  -- line 335
  let TargetLatchTerminator ← F.term c.TargetLatch
  let NewTerminator ← TargetLatchTerminator.setCondition (.Instruction BlockBoundCond.1)
  let F := F.setTerm c.TargetLatch NewTerminator
  -- line 336
  let F := F.eraseFromParent OldLatchCompInst
  return ({ BoundOp := BoundOp, BoundValue := BoundValue.1, IntrFuncMinID := IntrFuncMinID,
            MinIntrCall := MinIntrCall.1, OldLatchCompInst := OldLatchCompInst,
            OldOperand0 := OldOperand0, CanonicalPredicate := CanonicalPredicate,
            BlockBoundCond := BlockBoundCond.1 },
          { st with F := F })

/-- The body of `LoopBlocking::createBlockingLoop` (lines 188-338), the parts in
the order of the source.  The result is the local variables of the run and the
state after the edit. -/
def createBlockingLoopLocals (SE : ScalarEvolution) (st : State) (Target Outer : LoopId)
    (TargetBounds : LoopBounds) (Info : BlockingInfo) : Option (Locals × State) :=
  match lookupLoopParts SE st Target Outer with
  | none => none
  | some c =>
    match rewireEdges (allocateBlockingLoop st c).2 c (allocateBlockingLoop st c).1 with
    | none => none
    | some st1 =>
      match buildBlockingHeader st1 c (allocateBlockingLoop st c).1 TargetBounds Info with
      | none => none
      | some r =>
        match buildTileBound r.2 c r.1 Target TargetBounds with
        | none => none
        | some t =>
          some ({ parts := c, blocks := (allocateBlockingLoop st c).1, values := r.1, tile := t.1 },
                t.2)

/-- `LoopBlocking::createBlockingLoop`: it returns the new loop `NL` (line 337). -/
def createBlockingLoop (SE : ScalarEvolution) (st : State) (Target Outer : LoopId)
    (TargetBounds : LoopBounds) (Info : BlockingInfo) : Option (LoopId × State) :=
  (createBlockingLoopLocals SE st Target Outer TargetBounds Info).map
    (fun r => (r.1.blocks.NL, r.2))

/-- The place where `transform` returns false (lines 91-125). -/
inductive Reject where
  | FirstDepthOutOfRange
  | NotSimplified
  | NotRotated
  | NoBounds (L : LoopId)
  | BoundsNotDominant (L : LoopId)
  | DirectionUnknown (L : LoopId)
  deriving DecidableEq, Repr

/-- The outcome of the loop of lines 109-125 on the loops of `Inner`: a run that
ends (an empty loop has no header), a `return false` with the state at that
point, or the map of the bounds (the entry of a loop is the first with its key). -/
inductive BoundsCheck where
  | Abort
  | ReturnFalse (why : Reject) (st : State)
  | Continue (BoundsMap : List (LoopId × LoopBounds))

/-- `BoundsNotDominant++`. -/
def State.incBoundsNotDominant (st : State) : State :=
  { st with Stats := { st.Stats with BoundsNotDominant := st.Stats.BoundsNotDominant + 1 } }

/-- The loop of lines 109-125: for every loop of `Inner`, in order, its bounds
must be computable, dominate the header that is passed (`L->getHeader()`) and
have a known direction. -/
def checkInnerBounds (SE : ScalarEvolution) (st : State) :
    List LoopId → List (LoopId × LoopBounds) → BoundsCheck
  | [], BoundsMap => .Continue BoundsMap
  | L :: rest, BoundsMap =>
    match SE.getBounds st.F st.LI L with
    | none => .ReturnFalse (.NoBounds L) st
    | some Bounds =>
      match getHeader st.LI L with
      | none => .Abort
      | some Header =>
        if !(checkBoundaryValuesDominance st.F Bounds Header st.DT) then
          .ReturnFalse (.BoundsNotDominant L) st.incBoundsNotDominant
        else if Bounds.Direction = Direction.Unknown then
          .ReturnFalse (.DirectionUnknown L) st
        else checkInnerBounds SE st rest ((L, Bounds) :: BoundsMap)

/-- The body of the loop of lines 134-158 for one loop `L` of `Inner`, with
`TopLoop` the loop that is wrapped: the edit of the graph and the update of the
loop forest.  The result is the new loop and the state. -/
def blockOneLevel (opts : Options) (SE : ScalarEvolution) (st : State) (L TopLoop : LoopId)
    (BoundsMap : List (LoopId × LoopBounds)) : Option (LoopId × State) := do
  -- line 136
  let info : BlockingInfo := { BlockingFactor := opts.BlockingFactor }
  -- line 138
  let Bounds ← BoundsMap.lookup L
  let (BlockingLoop, st) ← createBlockingLoop SE st L TopLoop Bounds info
  let LI := st.LI
  -- lines 140-141
  let LI := if (getParentLoop LI TopLoop).isNone then LI.addTopLevelLoop BlockingLoop else LI
  -- lines 143-148
  let LI := if TopLoop ∈ LI.TopLevelLoops then LI.removeLoop TopLoop else LI
  -- lines 149-150
  let LI := (LI.loop TopLoop).Blocks.foldl (fun LI BB => LI.addBlockEntry BlockingLoop BB) LI
  -- line 152
  let LI := LI.addChildLoop BlockingLoop TopLoop
  -- line 153: `SE.forgetLoop` drops cached results; the oracle keeps none
  return (BlockingLoop, { st with LI := LI })

/-- The loop of lines 134-158 over the loops of `Inner`, innermost first; the
new loop of a level is the `TopLoop` of the next. -/
def blockLevels (opts : Options) (SE : ScalarEvolution) (BoundsMap : List (LoopId × LoopBounds)) :
    State → List LoopId → LoopId → Option State
  | st, [], _ => some st
  | st, L :: rest, TopLoop =>
    match blockOneLevel opts SE st L TopLoop BoundsMap with
    | none => none
    | some (BlockingLoop, st1) => blockLevels opts SE BoundsMap st1 rest BlockingLoop

/-- `LoopBlocking::transform` (lines 80-167) with the place of its return: the
place of the `return false`, or none for the `return true` of line 166.
`blockingAnalysis` (line 127) only reads. -/
def transformAt (opts : Options) (SE : ScalarEvolution) (st : State) (BN : BlockingNest) :
    Option (Option Reject × State) :=
  -- lines 91-94 (`FirstLoopDepth` is unsigned)
  if opts.FirstLoopDepth ≥ BN.size then some (some .FirstDepthOutOfRange, st)
  -- lines 96-99
  else if !(BN.areAllLoopsSimplified st.F st.LI) then some (some .NotSimplified, st)
  -- lines 101-104
  else if !(BN.areAllLoopsRotated st.F st.LI) then some (some .NotRotated, st)
  else
    -- line 106
    let Inner := BN.Nest.drop opts.FirstLoopDepth
    -- lines 107-125
    match checkInnerBounds SE st Inner [] with
    | .Abort => none
    | .ReturnFalse why st1 => some (some why, st1)
    | .Continue BoundsMap =>
      -- line 129
      match BN.topLoop with
      | none => none
      | some TopLoop =>
        -- lines 134-158
        match blockLevels opts SE BoundsMap st Inner.reverse TopLoop with
        | none => none
        | some st1 => some (none, st1)

/-- `LoopBlocking::transform`: the boolean it returns and the state it leaves. -/
def transform (opts : Options) (SE : ScalarEvolution) (st : State) (BN : BlockingNest) :
    Option (Bool × State) :=
  (transformAt opts SE st BN).map (fun r => (r.1.isNone, r.2))

/-! ## The value of the emitted instructions

All integers of a nest have the type of its induction variable, of width `w`;
a value is the bit pattern, a natural number below `2 ^ w`. -/

/-- The signed reading of a bit pattern of width `w`. -/
def toSigned (w : Nat) (x : Nat) : Int :=
  if 2 * (x % 2 ^ w) < 2 ^ w then ((x % 2 ^ w : Nat) : Int) else ((x % 2 ^ w : Nat) : Int) - 2 ^ w

/-- The value of `icmp pred a, b` on integers of width `w`. -/
def Predicate.eval (p : Predicate) (w : Nat) (a b : Nat) : Bool :=
  match p with
  | .ICMP_EQ => decide (a % 2 ^ w = b % 2 ^ w)
  | .ICMP_NE => decide (a % 2 ^ w ≠ b % 2 ^ w)
  | .ICMP_UGT => decide (a % 2 ^ w > b % 2 ^ w)
  | .ICMP_UGE => decide (a % 2 ^ w ≥ b % 2 ^ w)
  | .ICMP_ULT => decide (a % 2 ^ w < b % 2 ^ w)
  | .ICMP_ULE => decide (a % 2 ^ w ≤ b % 2 ^ w)
  | .ICMP_SGT => decide (toSigned w a > toSigned w b)
  | .ICMP_SGE => decide (toSigned w a ≥ toSigned w b)
  | .ICMP_SLT => decide (toSigned w a < toSigned w b)
  | .ICMP_SLE => decide (toSigned w a ≤ toSigned w b)

/-- The value of `add` and `sub` on integers of width `w`. -/
def BinaryOps.eval (op : BinaryOps) (w : Nat) (a b : Nat) : Nat :=
  match op with
  | .Add => (a + b) % 2 ^ w
  | .Sub => (a % 2 ^ w + (2 ^ w - b % 2 ^ w)) % 2 ^ w

/-- The value of `llvm.smin` and `llvm.umin` on integers of width `w`. -/
def IntrinsicID.eval (f : IntrinsicID) (w : Nat) (a b : Nat) : Nat :=
  match f with
  | .smin => if toSigned w a ≤ toSigned w b then a % 2 ^ w else b % 2 ^ w
  | .umin => if a % 2 ^ w ≤ b % 2 ^ w then a % 2 ^ w else b % 2 ^ w

/-- The values that an evaluation takes as given: the arguments of the function
and the current value of every phi (and of every instruction the embedding
does not interpret). -/
structure Env where
  arg : Nat → Nat
  reg : InstId → Nat

/-- Give register `i` the value `x`. -/
def Env.set (env : Env) (i : InstId) (x : Nat) : Env :=
  { env with reg := fun j => if j = i then x else env.reg j }

/-- The value of a value of the function `F` at width `w`: constants, arguments,
phis at their current value, and `add`, `sub`, `icmp`, `smin`, `umin` computed
from their operands.  The first argument bounds the depth of the expression. -/
def evalValue (F : Function) (w : Nat) (env : Env) : Nat → Value → Option Nat
  | _, .ConstantInt _ v => some (v % 2 ^ w)
  | _, .Argument n => some (env.arg n % 2 ^ w)
  | _, .ConstantFP _ => none
  | _, .Other _ => none
  | 0, .Instruction _ => none
  | d + 1, .Instruction i =>
    match F.inst i with
    | none => none
    | some (.PHINode _ _) => some (env.reg i % 2 ^ w)
    | some (.Other _) => some (env.reg i % 2 ^ w)
    | some (.BinaryOperator op _ a b) =>
      match evalValue F w env d a, evalValue F w env d b with
      | some x, some y => some (op.eval w x y)
      | _, _ => none
    | some (.ICmpInst p a b) =>
      match evalValue F w env d a, evalValue F w env d b with
      | some x, some y => some (if p.eval w x y then 1 else 0)
      | _, _ => none
    | some (.CallInst f _ [a, b]) =>
      match evalValue F w env d a, evalValue F w env d b with
      | some x, some y => some (f.eval w x y)
      | _, _ => none
    | some (.CallInst _ _ _) => none

/-- The depth allowed to the expressions of a nest. -/
def evalDepth : Nat := 8

/-- The value that phi `phi` takes on the edge from block `from_`:
`getIncomingValueForBlock`. -/
def Function.incomingValue (F : Function) (phi : InstId) (from_ : BlockId) : Option Value :=
  match F.inst phi with
  | some (.PHINode _ inc) => (inc.find? (fun p => decide (p.2 = from_))).map (fun p => p.1)
  | _ => none

/-- The successor that the terminator of block `b` takes under `env`. -/
def Function.branchTarget (F : Function) (w : Nat) (env : Env) (b : BlockId) : Option BlockId :=
  match F.term b with
  | some (.Br d) => some d
  | some (.CondBr c t f) =>
    match evalValue F w env evalDepth c with
    | some x => some (if x ≠ 0 then t else f)
    | none => none
  | _ => none

/-- One entry of the rotated loop with header `Header`, latch `Latch` and
induction phi `Iv`: the values of the induction variable with which the body
runs, in order, from the value `x` on.  The body runs, then the latch branch is
taken: back to the header with the value of the phi on the latch edge, or out.
The first argument bounds the number of iterations (none when it is used up). -/
def runLoop (F : Function) (w : Nat) (env : Env) (Header Latch : BlockId) (Iv : InstId) :
    Nat → Nat → Option (List Nat)
  | 0, _ => none
  | n + 1, x =>
    match F.branchTarget w (env.set Iv x) Latch with
    | none => none
    | some next =>
      if next = Header then
        match F.incomingValue Iv Latch with
        | none => none
        | some v =>
          match evalValue F w (env.set Iv x) evalDepth v with
          | none => none
          | some y => (runLoop F w env Header Latch Iv n y).map (fun t => x :: t)
      else some [x]

/-- The loop of the blocks that a tiled nest names: the header and latch of the
blocking loop `B` with its induction phi, the block by which `B` is left, and
the preheader, header, latch and induction phi of the target `T`. -/
structure TiledNest where
  BHeader : BlockId
  BLatch : BlockId
  BExit : BlockId
  BIv : InstId
  TPreheader : BlockId
  THeader : BlockId
  TLatch : BlockId
  TIv : InstId
  deriving DecidableEq, Repr

/-- The tiles of the blocking loop from the value `x` of its induction variable
on: the header test is taken first; when it does not leave the loop, the nest is
entered, the target runs once from the value its phi takes on the preheader
edge (`runLoop`), and the latch of `B` gives the next value.  One list for every
tile.  The first argument bounds the number of tiles and of iterations of a
tile. -/
def runTiles (F : Function) (w : Nat) (env : Env) (N : TiledNest) :
    Nat → Nat → Option (List (List Nat))
  | 0, _ => none
  | n + 1, x =>
    match F.branchTarget w (env.set N.BIv x) N.BHeader with
    | none => none
    | some next =>
      if next = N.BExit then some []
      else
        match F.incomingValue N.TIv N.TPreheader, F.incomingValue N.BIv N.BLatch with
        | some v0, some v1 =>
          match evalValue F w (env.set N.BIv x) evalDepth v0,
                evalValue F w (env.set N.BIv x) evalDepth v1 with
          | some x0, some y =>
            match runLoop F w (env.set N.BIv x) N.THeader N.TLatch N.TIv (n + 1) x0,
                  runTiles F w env N n y with
            | some tile, some rest => some (tile :: rest)
            | _, _ => none
          | _, _ => none
        | _, _ => none

/-- The run of the blocking loop from its start: the value of its induction phi
on the edge from its preheader. -/
def runTiledNest (F : Function) (w : Nat) (env : Env) (N : TiledNest) (BPreheader : BlockId)
    (fuel : Nat) : Option (List (List Nat)) :=
  match F.incomingValue N.BIv BPreheader with
  | none => none
  | some v =>
    match evalValue F w env evalDepth v with
    | none => none
    | some x => runTiles F w env N fuel x

/-- The run of a rotated loop from its start: the value of its induction phi on
the edge from its preheader. -/
def runLoopFromPreheader (F : Function) (w : Nat) (env : Env) (Preheader Header Latch : BlockId)
    (Iv : InstId) (fuel : Nat) : Option (List Nat) :=
  match F.incomingValue Iv Preheader with
  | none => none
  | some v =>
    match evalValue F w env evalDepth v with
    | none => none
    | some x => runLoop F w env Header Latch Iv fuel x

/-! ## The reading of the legality checks -/

/-- The first check that fails on one loop of the inner part, in the order
bounds, dominance, direction; none when the loop passes the three. -/
def loopFailure (SE : ScalarEvolution) (st : State) (L : LoopId) : Option Reject :=
  match SE.getBounds st.F st.LI L with
  | none => some (.NoBounds L)
  | some Bounds =>
    if (getHeader st.LI L).any (fun Header => checkBoundaryValuesDominance st.F Bounds Header st.DT)
        = false then
      some (.BoundsNotDominant L)
    else if Bounds.Direction = Direction.Unknown then some (.DirectionUnknown L)
    else none

/-- The first check that fails on a nest, in the order: first depth in range,
every loop simplified, every loop rotated, then the loops from the first depth
inward, outermost first, each by `loopFailure`. -/
def firstFailure (opts : Options) (SE : ScalarEvolution) (st : State) (BN : BlockingNest) :
    Option Reject :=
  if ¬ (opts.FirstLoopDepth < BN.Nest.length) then some .FirstDepthOutOfRange
  else if ¬ (∀ L ∈ BN.Nest, isLoopSimplifyForm st.F st.LI L = true) then some .NotSimplified
  else if ¬ (∀ L ∈ BN.Nest, isRotatedForm st.F st.LI L = true) then some .NotRotated
  else (BN.Nest.drop opts.FirstLoopDepth).findSome? (loopFailure SE st)

/-- A nest is legal when the first depth is smaller than its length, every loop
of the nest is simplified, every loop of the nest is rotated, and every loop from
the first depth inward has bounds that are computable, pass the dominance check
and have a direction that is not unknown. -/
def Legal (opts : Options) (SE : ScalarEvolution) (st : State) (BN : BlockingNest) : Prop :=
  opts.FirstLoopDepth < BN.Nest.length ∧
  (∀ L ∈ BN.Nest, isLoopSimplifyForm st.F st.LI L = true) ∧
  (∀ L ∈ BN.Nest, isRotatedForm st.F st.LI L = true) ∧
  ∀ L ∈ BN.Nest.drop opts.FirstLoopDepth,
    ∃ Bounds, SE.getBounds st.F st.LI L = some Bounds ∧
      (∃ Header, getHeader st.LI L = some Header ∧
        checkBoundaryValuesDominance st.F Bounds Header st.DT = true) ∧
      Bounds.Direction ≠ Direction.Unknown

/-! ## Example nests

A two-level nest `O { T }` in rotated and simplified form,

    0 entry -> 1 preheader of O -> 2 header of O -> 3 preheader of T
    -> 4 header and latch of T -> 5 exit of T, latch of O -> 6 exit of O

whose inner loop is given by an `InnerShape`, and the oracle that answers on
such counting loops as `Loop::getInductionVariable` and `Loop::getBounds` do. -/

/-- The inner loop of an example nest: the width of its induction variable, its
initial and final value, the operation and constant of its step, the predicate
of the comparison of its latch as written, whether the header is successor 0 of
the latch branch, and whether the updated induction value is operand 0 of the
comparison. -/
structure InnerShape where
  bits : Nat
  lo : Value
  final : Value
  stepOp : BinaryOps
  step : Nat
  pred : Predicate
  headerFirst : Bool
  ivFirst : Bool
  deriving DecidableEq, Repr

/-- The graph of the two-level example nest.  Instruction 0 is the induction phi
of `O`, 1 that of `T`, 2 the step of `T`, 3 the comparison of the latch of `T`,
4 and 5 the step and comparison of `O`, and 6 a value computed in the header of
`O` (a load, say). -/
def nest2F (sh : InnerShape) : Function :=
  { blockOrder := [0, 1, 2, 3, 4, 5, 6]
    insts := fun b =>
      match b with
      | 2 => [0, 6]
      | 4 => [1, 2, 3]
      | 5 => [4, 5]
      | _ => []
    term := fun b =>
      match b with
      | 0 => some (.Br 1)
      | 1 => some (.Br 2)
      | 2 => some (.Br 3)
      | 3 => some (.Br 4)
      | 4 => some (if sh.headerFirst then .CondBr (.Instruction 3) 4 5
                   else .CondBr (.Instruction 3) 5 4)
      | 5 => some (.CondBr (.Instruction 5) 2 6)
      | 6 => some (.Other [])
      | _ => none
    inst := fun i =>
      match i with
      | 0 => some (.PHINode sh.bits [(.ConstantInt sh.bits 0, 1), (.Instruction 4, 5)])
      | 1 => some (.PHINode sh.bits [(sh.lo, 3), (.Instruction 2, 4)])
      | 2 => some (.BinaryOperator sh.stepOp sh.bits (.Instruction 1)
                    (.ConstantInt sh.bits sh.step))
      | 3 => some (if sh.ivFirst then .ICmpInst sh.pred (.Instruction 2) sh.final
                   else .ICmpInst sh.pred sh.final (.Instruction 2))
      | 4 => some (.BinaryOperator .Add sh.bits (.Instruction 0) (.ConstantInt sh.bits 1))
      | 5 => some (.ICmpInst .ICMP_SLT (.Instruction 4) (.ConstantInt sh.bits 1))
      | 6 => some (.Other sh.bits)
      | _ => none
    nextBlock := 7
    nextInst := 7 }

/-- The loop forest of the two-level example nest: loop 0 is `O`, loop 1 is `T`. -/
def nest2LI : LoopInfo :=
  { loop := fun l =>
      match l with
      | 0 => { ParentLoop := none, SubLoops := [1], Blocks := [2, 3, 4, 5] }
      | 1 => { ParentLoop := some 0, SubLoops := [], Blocks := [4] }
      | _ => { ParentLoop := none, SubLoops := [], Blocks := [] }
    TopLevelLoops := [0]
    nextLoop := 2 }

/-- The counters at the start of a run. -/
def Statistics.zero : Statistics :=
  { CandidateLoops := 0, TransformedLoops := 0, InvalidLoops := 0, FoundRotated := 0,
    BoundsNotDominant := 0 }

/-- The two-level example nest with its dominator tree (a chain). -/
def nest2 (sh : InnerShape) : State :=
  { F := nest2F sh
    LI := nest2LI
    DT := { nodes := [0, 1, 2, 3, 4, 5, 6]
            idoms := [(1, 0), (2, 1), (3, 2), (4, 3), (5, 4), (6, 5)] }
    Stats := Statistics.zero }

/-- The induction phi of a counting loop, found as `Loop::getInductionVariable`
finds it: a phi of the header whose value on the latch edge is `phi op constant`,
the comparison of the latch being on that step or on the phi. -/
def simpleInductionVariable (F : Function) (LI : LoopInfo) (L : LoopId) : Option InstId :=
  match getHeader LI L, getLoopLatch F LI L, getLatchCmpInst F LI L with
  | some Header, some Latch, some Cmp =>
    (F.insts Header).find? (fun phi =>
      match F.incomingValue phi Latch, F.inst Cmp with
      | some (.Instruction s), some (.ICmpInst _ op0 op1) =>
        (match F.inst s with
         | some (.BinaryOperator _ _ (.Instruction p) (.ConstantInt _ _)) => decide (p = phi)
         | _ => false) &&
        (decide (op0 = .Instruction s) || decide (op1 = .Instruction s) ||
         decide (op0 = .Instruction phi) || decide (op1 = .Instruction phi))
      | _, _ => false)
  | _, _, _ => none

/-- The bounds of a counting loop, found as `Loop::getBounds` finds them: the
initial value is the value of the induction phi on the preheader edge, the step
instruction its value on the latch edge, the final value the other operand of
the comparison of the latch, the direction the sign of the step. -/
def simpleBounds (F : Function) (LI : LoopInfo) (L : LoopId) : Option LoopBounds :=
  match simpleInductionVariable F LI L, getLoopLatch F LI L, getLoopPreheader F LI L,
        getLatchCmpInst F LI L with
  | some Iv, some Latch, some Preheader, some Cmp =>
    match F.incomingValue Iv Preheader, F.incomingValue Iv Latch, F.inst Cmp with
    | some Initial, some (.Instruction s), some (.ICmpInst _ op0 op1) =>
      match F.inst s with
      | some (.BinaryOperator op w _ (.ConstantInt _ c)) =>
        let Final : Option Value :=
          if op0 = .Instruction Iv ∨ op0 = .Instruction s then some op1
          else if op1 = .Instruction Iv ∨ op1 = .Instruction s then some op0
          else none
        let positive := decide (0 < toSigned w c)
        let negative := decide (toSigned w c < 0)
        let dir : Direction :=
          match op with
          | .Add => if positive then .Increasing else if negative then .Decreasing else .Unknown
          | .Sub => if positive then .Decreasing else if negative then .Increasing else .Unknown
        Final.map (fun fin =>
          { L := L, InitialIVValue := Initial, StepInst := s, FinalIVValue := fin,
            Direction := dir })
      | _ => none
    | _, _, _ => none
  | _, _, _, _ => none

/-- The oracle of the examples. -/
def simpleSE : ScalarEvolution :=
  { getBounds := simpleBounds, getInductionVariable := simpleInductionVariable }

/-- An environment in which every argument and register is 0. -/
def Env.zero : Env := { arg := fun _ => 0, reg := fun _ => 0 }

/-- The inner loop `for (j = 0; j < 10; j += 1)` on 8 bits, latch comparison
`icmp slt j.next, 10` with the header as true successor. -/
def shapeUp : InnerShape :=
  { bits := 8, lo := .ConstantInt 8 0, final := .ConstantInt 8 10, stepOp := .Add, step := 1,
    pred := .ICMP_SLT, headerFirst := true, ivFirst := true }

/-- As `shapeUp`, with the final value computed in the header of the outer loop
(instruction 6): it dominates the header of the inner loop and not the header
of the outer loop. -/
def shapeBoundInOuterBody : InnerShape :=
  { shapeUp with final := .Instruction 6 }

/-- As `shapeUp`, with the final value computed in the latch of the outer loop
(instruction 4), after the inner loop: it does not dominate the header of the
inner loop. -/
def shapeBoundAfterLoop : InnerShape :=
  { shapeUp with final := .Instruction 4 }

/-- The graph of a three-level example nest `L0 { L1 { L2 } }`:

    0 entry -> 1 preheader of L0 -> 2 header of L0 -> 3 preheader of L1
    -> 4 header of L1 -> 5 preheader of L2 -> 6 header and latch of L2
    -> 7 latch of L1 -> 8 latch of L0 -> 9 exit

Instructions 0, 1, 2 are the induction phis of L0, L1, L2; each loop counts
from 0 while the next value is below 10.  Instruction 9 is other work in the
header of L0. -/
def nest3F : Function :=
  { blockOrder := [0, 1, 2, 3, 4, 5, 6, 7, 8, 9]
    insts := fun b =>
      match b with
      | 2 => [0, 9]
      | 4 => [1]
      | 6 => [2, 3, 4]
      | 7 => [5, 6]
      | 8 => [7, 8]
      | _ => []
    term := fun b =>
      match b with
      | 0 => some (.Br 1)
      | 1 => some (.Br 2)
      | 2 => some (.Br 3)
      | 3 => some (.Br 4)
      | 4 => some (.Br 5)
      | 5 => some (.Br 6)
      | 6 => some (.CondBr (.Instruction 4) 6 7)
      | 7 => some (.CondBr (.Instruction 6) 4 8)
      | 8 => some (.CondBr (.Instruction 8) 2 9)
      | 9 => some (.Other [])
      | _ => none
    inst := fun i =>
      match i with
      | 0 => some (.PHINode 8 [(.ConstantInt 8 0, 1), (.Instruction 7, 8)])
      | 1 => some (.PHINode 8 [(.ConstantInt 8 0, 3), (.Instruction 5, 7)])
      | 2 => some (.PHINode 8 [(.ConstantInt 8 0, 5), (.Instruction 3, 6)])
      | 3 => some (.BinaryOperator .Add 8 (.Instruction 2) (.ConstantInt 8 1))
      | 4 => some (.ICmpInst .ICMP_SLT (.Instruction 3) (.ConstantInt 8 10))
      | 5 => some (.BinaryOperator .Add 8 (.Instruction 1) (.ConstantInt 8 1))
      | 6 => some (.ICmpInst .ICMP_SLT (.Instruction 5) (.ConstantInt 8 10))
      | 7 => some (.BinaryOperator .Add 8 (.Instruction 0) (.ConstantInt 8 1))
      | 8 => some (.ICmpInst .ICMP_SLT (.Instruction 7) (.ConstantInt 8 10))
      | 9 => some (.Other 8)
      | _ => none
    nextBlock := 10
    nextInst := 10 }

/-- The loop forest of the three-level example nest. -/
def nest3LI : LoopInfo :=
  { loop := fun l =>
      match l with
      | 0 => { ParentLoop := none, SubLoops := [1], Blocks := [2, 3, 4, 5, 6, 7, 8] }
      | 1 => { ParentLoop := some 0, SubLoops := [2], Blocks := [4, 5, 6, 7] }
      | 2 => { ParentLoop := some 1, SubLoops := [], Blocks := [6] }
      | _ => { ParentLoop := none, SubLoops := [], Blocks := [] }
    TopLevelLoops := [0]
    nextLoop := 3 }

/-- The three-level example nest with its dominator tree (a chain). -/
def nest3 : State :=
  { F := nest3F
    LI := nest3LI
    DT := { nodes := [0, 1, 2, 3, 4, 5, 6, 7, 8, 9]
            idoms := [(1, 0), (2, 1), (3, 2), (4, 3), (5, 4), (6, 5), (7, 6), (8, 7), (9, 8)] }
    Stats := Statistics.zero }

/-- The inner loop `for (j = 10; j > 0; j -= 1)` on 8 bits, latch comparison
`icmp sgt j.next, 0` with the header as true successor. -/
def shapeDown : InnerShape :=
  { bits := 8, lo := .ConstantInt 8 10, final := .ConstantInt 8 0, stepOp := .Sub, step := 1,
    pred := .ICMP_SGT, headerFirst := true, ivFirst := true }

/-- The loop of `shapeUp` with the latch test written as an exit test:
`br (icmp sge j.next, 10), exit, header`. -/
def shapeExitFirst : InnerShape :=
  { shapeUp with pred := .ICMP_SGE, headerFirst := false }

/-- The loop of `shapeUp` with the operands of the comparison swapped:
`br (icmp sgt 10, j.next), header, exit`. -/
def shapeBoundFirst : InnerShape :=
  { shapeUp with pred := .ICMP_SGT, ivFirst := false }

/-- The run of `createBlockingLoop` on the two-level example nest: target loop
1, outer loop 0, the bounds the oracle reports for the target, and the blocking
factor `f`. -/
def blockNest2 (sh : InnerShape) (f : Nat) : Option (Locals × State) :=
  match simpleSE.getBounds (nest2 sh).F (nest2 sh).LI 1 with
  | none => none
  | some Bounds => createBlockingLoopLocals simpleSE (nest2 sh) 1 0 Bounds { BlockingFactor := f }

/-- The bounds that the oracle reports for the inner loop of `nest2 shapeUp`. -/
def boundsUp : LoopBounds :=
  { L := 1, InitialIVValue := .ConstantInt 8 0, StepInst := 2, FinalIVValue := .ConstantInt 8 10,
    Direction := .Increasing }

/-- The identities in use are below the next fresh ones: the loops that have
blocks, the blocks of the loops, the successors of the blocks, the conditions
of the branches and the instructions of the function. -/
structure WellFormed (st : State) : Prop where
  loops : ∀ L, (st.LI.loop L).Blocks ≠ [] → L < st.LI.nextLoop
  loopBlocks : ∀ L, ∀ b ∈ (st.LI.loop L).Blocks, b < st.F.nextBlock
  succs : ∀ b, ∀ s ∈ st.F.successors b, s < st.F.nextBlock
  conds : ∀ b i t f, st.F.term b = some (.CondBr (.Instruction i) t f) → i < st.F.nextInst
  insts : ∀ i, st.F.inst i ≠ none → i < st.F.nextInst

/-- The loop `for (j = 0; j != 100; j += 1)` on 8 bits, latch comparison
`icmp ne j.next, 100` with the header as true successor. -/
def shapeNe : InnerShape :=
  { bits := 8, lo := .ConstantInt 8 0, final := .ConstantInt 8 100, stepOp := .Add, step := 1,
    pred := .ICMP_NE, headerFirst := true, ivFirst := true }

/-- The induction value `x` has reached or passed the final value `hi` in the
direction of the loop, in the signed or in the unsigned reading of the bit
patterns of width `w`. -/
def reachedOrPassed (dir : Direction) (signed : Bool) (w x hi : Nat) : Bool :=
  match dir, signed with
  | .Increasing, true => decide (toSigned w hi ≤ toSigned w x)
  | .Increasing, false => decide (hi % 2 ^ w ≤ x % 2 ^ w)
  | .Decreasing, true => decide (toSigned w x ≤ toSigned w hi)
  | .Decreasing, false => decide (x % 2 ^ w ≤ hi % 2 ^ w)
  | .Unknown, _ => false

/-- The strict ordering predicates of a direction: `slt` and `ult` when the
loop counts up, `sgt` and `ugt` when it counts down. -/
def Predicate.strictFor (p : Predicate) (dir : Direction) : Bool :=
  match dir, p with
  | .Increasing, .ICMP_SLT => true
  | .Increasing, .ICMP_ULT => true
  | .Decreasing, .ICMP_SGT => true
  | .Decreasing, .ICMP_UGT => true
  | _, _ => false

/-- What the header of the blocking loop does, in the state `st'` after a run of
`createBlockingLoop` with local variables `loc`, when the induction variable
holds `env.reg NewIV` and the final bound has the value `hi`: the header ends
in `br (icmp pred NewIV, final), new preheader of O, old exit of O` with `pred`
the canonical predicate; the branch enters `O` when `tileStart pred hi` holds
and leaves to the old exit otherwise; and when `pred` is the strict ordering of
the direction of the bounds `B`, it leaves exactly when the induction value has
reached or passed `hi`. -/
def HeaderTest (st' : State) (loc : Locals) (B : LoopBounds) (w : Nat) (env : Env) (hi : Nat) :
    Prop :=
  st'.F.inst loc.values.NewHeaderExitCond =
    some (.ICmpInst loc.values.CanonicalPredicate (.Instruction loc.values.NewIV)
      B.FinalIVValue) ∧
  st'.F.term loc.blocks.NewHeader =
    some (.CondBr (.Instruction loc.values.NewHeaderExitCond) loc.blocks.NewOuterPreheader
      loc.parts.OuterExit) ∧
  loc.blocks.NewOuterPreheader ≠ loc.parts.OuterExit ∧
  st'.F.branchTarget w env loc.blocks.NewHeader =
    some (if loc.values.CanonicalPredicate.eval w (env.reg loc.values.NewIV % 2 ^ w) hi
          then loc.blocks.NewOuterPreheader else loc.parts.OuterExit) ∧
  (loc.values.CanonicalPredicate.strictFor B.Direction = true →
    (st'.F.branchTarget w env loc.blocks.NewHeader = some loc.parts.OuterExit ↔
      reachedOrPassed B.Direction loc.values.CanonicalPredicate.isSigned w
        (env.reg loc.values.NewIV % 2 ^ w) hi = true))

/-- The bounds that the oracle reports for the inner loop of `nest2 shapeNe`. -/
def boundsNe : LoopBounds :=
  { L := 1, InitialIVValue := .ConstantInt 8 0, StepInst := 2, FinalIVValue := .ConstantInt 8 100,
    Direction := .Increasing }

/-- The loops of the nest after a run of `createBlockingLoop` with local
variables `loc`, for `runTiles`; `THeader` is the header of the target. -/
def Locals.tiledNest (loc : Locals) (THeader : BlockId) : TiledNest :=
  { BHeader := loc.blocks.NewHeader
    BLatch := loc.blocks.NewLatch
    BExit := loc.parts.OuterExit
    BIv := loc.values.NewIV
    TPreheader := loc.parts.TargetPreheader
    THeader := THeader
    TLatch := loc.parts.TargetLatch
    TIv := loc.parts.TargetIv }

/-- The rotated loop `do { body(j); j = j + s } while (j slt bound)` on integers
of width `w`: the values of `j` with which the body runs.  The first argument
bounds the number of iterations. -/
def countUp (w s bound : Nat) : Nat → Nat → Option (List Nat)
  | 0, _ => none
  | n + 1, j =>
    if Predicate.ICMP_SLT.eval w (BinaryOps.Add.eval w j s) bound then
      (countUp w s bound n (BinaryOps.Add.eval w j s)).map (fun t => j :: t)
    else some [j]

/-- The tiled loop
`for (x = start; x slt hi; x = x + f) do { body(j); j = j + s } while (j slt smin(x + f, hi))`
with `j` starting at `x`, on integers of width `w`: one list of values of `j`
for every tile.  The first argument bounds the number of tiles and of iterations
of a tile. -/
def countUpTiles (w s f hi : Nat) : Nat → Nat → Option (List (List Nat))
  | 0, _ => none
  | n + 1, x =>
    if Predicate.ICMP_SLT.eval w x hi then
      match countUp w s (IntrinsicID.smin.eval w (BinaryOps.Add.eval w x f) hi) (n + 1) x,
            countUpTiles w s f hi n (BinaryOps.Add.eval w x f) with
      | some t, some r => some (t :: r)
      | _, _ => none
    else some []

/-- The values `x, x + s, ..., x + (k - 1) * s` on integers of width `w`. -/
def stepsFrom (w x s k : Nat) : List Nat :=
  (List.range k).map (fun i => BinaryOps.Add.eval w x (i * s))

/-- The target of a run of `createBlockingLoop` with local variables `loc` counts
up with a signed test: in the state `st` before the run its latch ends with
`br (icmp slt iv.next, final), hdr, ex`, where `iv.next = add iv, s` and `iv` is
the induction phi, on integers of width `w`, with the initial value on the
preheader edge and `iv.next` on the latch edge; the phi is not in the header of
the outer loop and the latch is not the exiting block of the outer loop.  The
run has read the direction as increasing and the canonical predicate as `slt`,
has kept `iv.next` as operand 0 of the new comparison and has chosen the signed
minimum. -/
structure CountsUp (st : State) (T : LoopId) (B : LoopBounds) (loc : Locals) (w s : Nat)
    (hdr ex : BlockId) (cmp : InstId) : Prop where
  header : getHeader st.LI T = some hdr
  latch : st.F.term loc.parts.TargetLatch = some (.CondBr (.Instruction cmp) hdr ex)
  leaves : ex ≠ hdr
  test : st.F.inst cmp = some (.ICmpInst .ICMP_SLT (.Instruction B.StepInst) B.FinalIVValue)
  step : st.F.inst B.StepInst =
    some (.BinaryOperator .Add w (.Instruction loc.parts.TargetIv) (.ConstantInt w s))
  phi : ∃ inc, st.F.inst loc.parts.TargetIv = some (.PHINode w inc)
  start : st.F.incomingValue loc.parts.TargetIv loc.parts.TargetPreheader = some B.InitialIVValue
  next : st.F.incomingValue loc.parts.TargetIv loc.parts.TargetLatch =
    some (.Instruction B.StepInst)
  ownHeader : loc.parts.TargetIv ∉ st.F.insts loc.parts.OuterHeader
  ownLatch : loc.parts.TargetLatch ≠ loc.parts.OuterExiting
  direction : B.Direction = .Increasing
  headerPred : loc.values.CanonicalPredicate = .ICMP_SLT
  latchPred : loc.tile.CanonicalPredicate = .ICMP_SLT
  oldCmp : loc.tile.OldLatchCompInst = cmp
  oldOperand : loc.tile.OldOperand0 = .Instruction B.StepInst
  minimum : loc.tile.IntrFuncMinID = .smin

/-- The inner loop `for (j = 0; j < 6; j += 3)` on 8 bits. -/
def shapeStep3 : InnerShape :=
  { shapeUp with final := .ConstantInt 8 6, step := 3 }

/-! ## The driver of the pass -/

/-- The loop-nest analysis (`LoopNest`), an oracle as scalar evolution is:
`getPerfectLoops F LI L` is the answer of
`LoopNest::getLoopNest(*L, SE)->getPerfectLoops(SE)`, the sequences of loops of
the nest rooted at `L` that are perfectly nested, each outermost first. -/
structure LoopNestAnalysis where
  getPerfectLoops : Function → LoopInfo → LoopId → List (List LoopId)

/-- `LoopBlocking::collectCandidates` (lines 169-186).  The depth of a sequence
is read into an `unsigned` (line 179), which keeps the low 32 bits of its size.
The function only reads the state: it has no state to return. -/
def collectCandidates (opts : Options) (LN : LoopNestAnalysis) (st : State)
    (loopsVector : List LoopId) : List BlockingNest :=
  loopsVector.foldl (fun nests L =>
    -- lines 175-177
    let PerfetcNests := LN.getPerfectLoops st.F st.LI L
    -- lines 178-182
    PerfetcNests.foldl (fun nests N =>
      let PerfectNestDepth := N.length % 2 ^ 32
      if PerfectNestDepth ≥ 2 ∧ PerfectNestDepth ≤ opts.MaxPerfectNestDepth then
        nests ++ [{ Nest := N }]
      else nests) nests) []

/-- `TransformedLoops++`. -/
def State.incTransformedLoops (st : State) : State :=
  { st with Stats := { st.Stats with TransformedLoops := st.Stats.TransformedLoops + 1 } }

/-- The loop of lines 70-75 of `execute` over the nests that are left, with the
current value of `Changed`.  The result is the list of the values that the
calls of `transform` returned, in order, the final value of `Changed` and the
state.  Line 71 is `if ((Changed |= transform(N)))`: the condition is the value
of `Changed` after the assignment. -/
def executeLoop (opts : Options) (SE : ScalarEvolution) :
    State → Bool → List BlockingNest → Option (List Bool × Bool × State)
  | st, Changed, [] => some ([], Changed, st)
  | st, Changed, N :: rest =>
    match transform opts SE st N with
    | none => none
    | some (r, st1) =>
      -- line 71
      let Changed := Changed || r
      -- line 73
      let st2 := if Changed then st1.incTransformedLoops else st1
      (executeLoop opts SE st2 Changed rest).map (fun t => (r :: t.1, t.2))

/-- `LoopBlocking::execute` (lines 62-78) with the values that the calls of
`transform` returned. -/
def executeTrace (opts : Options) (SE : ScalarEvolution) (LN : LoopNestAnalysis) (st : State) :
    Option (List Bool × Bool × State) :=
  -- line 65
  let LoopsVector := st.LI.TopLevelLoops
  -- line 68
  let Nests := collectCandidates opts LN st LoopsVector
  -- lines 69-77
  executeLoop opts SE st false Nests

/-- `Loop::getLoopDepth()`: the number of loops on the chain of parents of `L`,
`L` included.  The first argument bounds the length of the chain. -/
def getLoopDepthAux (LI : LoopInfo) : Nat → LoopId → Nat
  | 0, _ => 1
  | n + 1, L =>
    match (LI.loop L).ParentLoop with
    | none => 1
    | some P => getLoopDepthAux LI n P + 1

/-- `Loop::getLoopDepth()` with fuel for a forest of `nextLoop` loops. -/
def getLoopDepth (LI : LoopInfo) (L : LoopId) : Nat :=
  getLoopDepthAux LI LI.nextLoop L

/-- The chain of only children below `L`: `L`, its sub-loop when it has exactly
one, and so on.  The first argument bounds the length of the chain. -/
def onlyChildChain (LI : LoopInfo) : Nat → LoopId → List LoopId
  | 0, L => [L]
  | n + 1, L =>
    match (LI.loop L).SubLoops with
    | [C] => L :: onlyChildChain LI n C
    | _ => [L]

/-- The loop-nest oracle of the examples: below a top-level loop the chain of
only children is one perfectly nested sequence. -/
def simpleLN : LoopNestAnalysis :=
  { getPerfectLoops := fun _ LI L => [onlyChildChain LI LI.nextLoop L] }

/-- The graph of two two-level nests, one after the other:

    0 entry -> 1 preheader of O -> 2 header of O -> 3 preheader of T
    -> 4 header and latch of T -> 5 latch of O -> 6 exit of O, preheader of P
    -> 7 header of P -> 8 preheader of U -> 9 header and latch of U
    -> 10 latch of P -> 11 exit

The first nest is that of `nest2F shapeUp`.  In the second nest the latch of
the inner loop `U` branches on instruction 10, which is not a comparison (the
result of a call, say), so that the bounds of `U` cannot be computed. -/
def twoNestsF : Function :=
  { blockOrder := [0, 1, 2, 3, 4, 5, 6, 7, 8, 9, 10, 11]
    insts := fun b =>
      match b with
      | 2 => [0, 6]
      | 4 => [1, 2, 3]
      | 5 => [4, 5]
      | 7 => [7]
      | 9 => [8, 9, 10]
      | 10 => [11, 12]
      | _ => []
    term := fun b =>
      match b with
      | 0 => some (.Br 1)
      | 1 => some (.Br 2)
      | 2 => some (.Br 3)
      | 3 => some (.Br 4)
      | 4 => some (.CondBr (.Instruction 3) 4 5)
      | 5 => some (.CondBr (.Instruction 5) 2 6)
      | 6 => some (.Br 7)
      | 7 => some (.Br 8)
      | 8 => some (.Br 9)
      | 9 => some (.CondBr (.Instruction 10) 9 10)
      | 10 => some (.CondBr (.Instruction 12) 7 11)
      | 11 => some (.Other [])
      | _ => none
    inst := fun i =>
      match i with
      | 0 => some (.PHINode 8 [(.ConstantInt 8 0, 1), (.Instruction 4, 5)])
      | 1 => some (.PHINode 8 [(.ConstantInt 8 0, 3), (.Instruction 2, 4)])
      | 2 => some (.BinaryOperator .Add 8 (.Instruction 1) (.ConstantInt 8 1))
      | 3 => some (.ICmpInst .ICMP_SLT (.Instruction 2) (.ConstantInt 8 10))
      | 4 => some (.BinaryOperator .Add 8 (.Instruction 0) (.ConstantInt 8 1))
      | 5 => some (.ICmpInst .ICMP_SLT (.Instruction 4) (.ConstantInt 8 10))
      | 6 => some (.Other 8)
      | 7 => some (.PHINode 8 [(.ConstantInt 8 0, 6), (.Instruction 11, 10)])
      | 8 => some (.PHINode 8 [(.ConstantInt 8 0, 8), (.Instruction 9, 9)])
      | 9 => some (.BinaryOperator .Add 8 (.Instruction 8) (.ConstantInt 8 1))
      | 10 => some (.Other 1)
      | 11 => some (.BinaryOperator .Add 8 (.Instruction 7) (.ConstantInt 8 1))
      | 12 => some (.ICmpInst .ICMP_SLT (.Instruction 11) (.ConstantInt 8 10))
      | _ => none
    nextBlock := 12
    nextInst := 13 }

/-- The loop forest of the two nests: loops 0 and 1 are `O` and `T`, loops 2 and
3 are `P` and `U`. -/
def twoNestsLI : LoopInfo :=
  { loop := fun l =>
      match l with
      | 0 => { ParentLoop := none, SubLoops := [1], Blocks := [2, 3, 4, 5] }
      | 1 => { ParentLoop := some 0, SubLoops := [], Blocks := [4] }
      | 2 => { ParentLoop := none, SubLoops := [3], Blocks := [7, 8, 9, 10] }
      | 3 => { ParentLoop := some 2, SubLoops := [], Blocks := [9] }
      | _ => { ParentLoop := none, SubLoops := [], Blocks := [] }
    TopLevelLoops := [0, 2]
    nextLoop := 4 }

/-- The two nests with their dominator tree (a chain). -/
def twoNests : State :=
  { F := twoNestsF
    LI := twoNestsLI
    DT := { nodes := [0, 1, 2, 3, 4, 5, 6, 7, 8, 9, 10, 11]
            idoms := [(1, 0), (2, 1), (3, 2), (4, 3), (5, 4), (6, 5), (7, 6), (8, 7), (9, 8),
                      (10, 9), (11, 10)] }
    Stats := Statistics.zero }

/-- The inner loop `for (j = 0; j < 100; j += 1)` on 8 bits. -/
def shapeUp100 : InnerShape :=
  { shapeUp with final := .ConstantInt 8 100 }

/-- The options of the example scenario: blocking factor 16, first depth 1. -/
def optionsFactor16Depth1 : Options :=
  { BlockingFactor := 16, MaxPerfectNestDepth := 3, FirstLoopDepth := 1 }

/-- The loops of the two-level example nest after one level of blocking: the
blocking loop has header 7, latch 8 and induction phi 7 and is left to block 6;
the target has preheader 3, header and latch 4 and induction phi 1. -/
def tiledNest2 : TiledNest :=
  { BHeader := 7, BLatch := 8, BExit := 6, BIv := 7, TPreheader := 3, THeader := 4, TLatch := 4,
    TIv := 1 }

/-- The calls of `createBlockingLoop` that the loop of lines 134-158 makes, in
order: for every level the target, the outer loop and the state at the call. -/
def blockLevelsCalls (opts : Options) (SE : ScalarEvolution)
    (BoundsMap : List (LoopId × LoopBounds)) :
    State → List LoopId → LoopId → List (LoopId × LoopId × State)
  | _, [], _ => []
  | st, L :: rest, TopLoop =>
    (L, TopLoop, st) ::
      match blockOneLevel opts SE st L TopLoop BoundsMap with
      | none => []
      | some (BlockingLoop, st1) => blockLevelsCalls opts SE BoundsMap st1 rest BlockingLoop

/-- The calls of `createBlockingLoop` that a run of `transform` makes (none when
the nest is rejected). -/
def transformCalls (opts : Options) (SE : ScalarEvolution) (st : State) (BN : BlockingNest) :
    List (LoopId × LoopId × State) :=
  if opts.FirstLoopDepth ≥ BN.size then []
  else if !(BN.areAllLoopsSimplified st.F st.LI) then []
  else if !(BN.areAllLoopsRotated st.F st.LI) then []
  else
    match checkInnerBounds SE st (BN.Nest.drop opts.FirstLoopDepth) [], BN.topLoop with
    | .Continue BoundsMap, some TopLoop =>
      blockLevelsCalls opts SE BoundsMap st (BN.Nest.drop opts.FirstLoopDepth).reverse TopLoop
    | _, _ => []

/-- What lines 190-212 of `createBlockingLoop` require of its two loops in the
state of a call: the target is in rotated and in simplified form, and the outer
loop has a header, a preheader, a latch, one exit block and one exiting block. -/
def RewriterRequires (T O : LoopId) (st : State) : Prop :=
  isRotatedForm st.F st.LI T = true ∧ isLoopSimplifyForm st.F st.LI T = true ∧
  (getHeader st.LI O).isSome = true ∧ (getLoopPreheader st.F st.LI O).isSome = true ∧
  (getLoopLatch st.F st.LI O).isSome = true ∧ (getExitBlock st.F st.LI O).isSome = true ∧
  (getExitingBlock st.F st.LI O).isSome = true

/-! ## Natural loops -/

/-- There is a path from `a` to `b` in the graph of `F` on which no block is
`h`. -/
inductive ReachesAvoiding (F : Function) (h : BlockId) : BlockId → BlockId → Prop
  | here (a : BlockId) : a ≠ h → ReachesAvoiding F h a a
  | step (a m b : BlockId) : a ≠ h → m ∈ F.successors a → ReachesAvoiding F h m b →
      ReachesAvoiding F h a b

/-- Block `b` is in the natural loop of the back edge from `Latch` to `Header`:
it is the header, or the latch is reached from it without passing the header. -/
def InNaturalLoop (F : Function) (Latch Header b : BlockId) : Prop :=
  b = Header ∨ ReachesAvoiding F Header b Latch

/-- There is a path from `a` to `b` in the graph of `F` all of whose blocks are
in `S`. -/
inductive PathIn (F : Function) (S : List BlockId) : BlockId → BlockId → Prop
  | here (a : BlockId) : a ∈ S → PathIn F S a a
  | step (a m b : BlockId) : a ∈ S → m ∈ F.successors a → PathIn F S m b → PathIn F S a b

/-- The block list of loop `L` fits the graph: the loop is entered only at its
header, the header has at most one predecessor outside the loop, and from every
block of the loop the exiting block is reached inside the loop. -/
structure LoopShape (st : State) (L : LoopId) : Prop where
  inner : ∀ p x, x ∈ st.F.successors p → x ∈ (st.LI.loop L).Blocks →
    getHeader st.LI L ≠ some x → p ∈ (st.LI.loop L).Blocks
  entry : ∀ h p q, getHeader st.LI L = some h →
    h ∈ st.F.successors p → h ∈ st.F.successors q →
    p ∉ (st.LI.loop L).Blocks → q ∉ (st.LI.loop L).Blocks → p = q
  leave : ∀ e, getExitingBlock st.F st.LI L = some e →
    ∀ b ∈ (st.LI.loop L).Blocks, PathIn st.F (st.LI.loop L).Blocks b e

/-- The loops on the chain of parents of `L`, `L` excluded.  The first argument
bounds the length of the chain. -/
def LoopInfo.ancestorsAux (LI : LoopInfo) : Nat → LoopId → List LoopId
  | 0, _ => []
  | n + 1, L =>
    match (LI.loop L).ParentLoop with
    | none => []
    | some P => P :: LI.ancestorsAux n P

/-- The ancestors of `L` in the forest. -/
def LoopInfo.ancestors (LI : LoopInfo) (L : LoopId) : List LoopId :=
  LI.ancestorsAux LI.nextLoop L

/-- The levels that the loop of lines 134-158 completes, in order: for every
level the loop that is wrapped, the new loop, the state before the level and the
state after it. -/
def blockLevelsSteps (opts : Options) (SE : ScalarEvolution)
    (BoundsMap : List (LoopId × LoopBounds)) :
    State → List LoopId → LoopId → List (LoopId × LoopId × State × State)
  | _, [], _ => []
  | st, L :: rest, TopLoop =>
    match blockOneLevel opts SE st L TopLoop BoundsMap with
    | none => []
    | some (BlockingLoop, st1) =>
      (TopLoop, BlockingLoop, st, st1) :: blockLevelsSteps opts SE BoundsMap st1 rest BlockingLoop

/-- The levels that a run of `transform` completes (none when the nest is
rejected). -/
def transformSteps (opts : Options) (SE : ScalarEvolution) (st : State) (BN : BlockingNest) :
    List (LoopId × LoopId × State × State) :=
  if opts.FirstLoopDepth ≥ BN.size then []
  else if !(BN.areAllLoopsSimplified st.F st.LI) then []
  else if !(BN.areAllLoopsRotated st.F st.LI) then []
  else
    match checkInnerBounds SE st (BN.Nest.drop opts.FirstLoopDepth) [], BN.topLoop with
    | .Continue BoundsMap, some TopLoop =>
      blockLevelsSteps opts SE BoundsMap st (BN.Nest.drop opts.FirstLoopDepth).reverse TopLoop
    | _, _ => []

/-- What a level leaves, for the level that wraps `O` in the new loop `B` from
the state `s0` to the state `s1`.  The three blocks of the level are the next
three fresh blocks of `s0`: the new header, the new latch and the new preheader
of `O`.  The block list of `B` is these three and then the blocks of `O`; the
block list of `O` is as it was; the new latch branches to the new header; the
blocks of `B` are exactly the natural loop of that back edge in the graph of
`s1`; and every ancestor of `B` in the forest of `s1` has all the blocks of
`B`. -/
def LevelBlocks (s : LoopId × LoopId × State × State) : Prop :=
  (s.2.2.2.LI.loop s.2.1).Blocks =
    [s.2.2.1.F.nextBlock, s.2.2.1.F.nextBlock + 1, s.2.2.1.F.nextBlock + 2] ++
      (s.2.2.1.LI.loop s.1).Blocks ∧
  (s.2.2.2.LI.loop s.1).Blocks = (s.2.2.1.LI.loop s.1).Blocks ∧
  s.2.2.2.F.successors (s.2.2.1.F.nextBlock + 1) = [s.2.2.1.F.nextBlock] ∧
  (∀ b, b ∈ (s.2.2.2.LI.loop s.2.1).Blocks ↔
    InNaturalLoop s.2.2.2.F (s.2.2.1.F.nextBlock + 1) s.2.2.1.F.nextBlock b) ∧
  (∀ A ∈ s.2.2.2.LI.ancestors s.2.1, ∀ b ∈ (s.2.2.2.LI.loop s.2.1).Blocks,
    b ∈ (s.2.2.2.LI.loop A).Blocks)


/-- The blocks in the block list of the function have identities below the next
fresh one. -/
def BlockOrderFresh (st : State) : Prop :=
  ∀ b ∈ st.F.blockOrder, b < st.F.nextBlock

/-- What a completed level `(O, B, before, after)` hands to the next level as
its outer loop: in the state after the level the blocking loop `B` has the new
header as header and as only exiting block, the preheader that `O` had as
preheader, the new latch as only latch, the exit block that `O` had as only
exit block; its latch ends with an unconditional branch to the header; it is in
simplified form and it is not in rotated form. -/
def NewLoopAsOuter (s : LoopId × LoopId × State × State) : Prop :=
  getHeader s.2.2.2.LI s.2.1 = some s.2.2.1.F.nextBlock ∧
  getLoopPreheader s.2.2.2.F s.2.2.2.LI s.2.1 = getLoopPreheader s.2.2.1.F s.2.2.1.LI s.1 ∧
  (getLoopPreheader s.2.2.2.F s.2.2.2.LI s.2.1).isSome = true ∧
  getLoopLatch s.2.2.2.F s.2.2.2.LI s.2.1 = some (s.2.2.1.F.nextBlock + 1) ∧
  s.2.2.2.F.term (s.2.2.1.F.nextBlock + 1) = some (.Br s.2.2.1.F.nextBlock) ∧
  getExitBlock s.2.2.2.F s.2.2.2.LI s.2.1 = getExitBlock s.2.2.1.F s.2.2.1.LI s.1 ∧
  (getExitBlock s.2.2.2.F s.2.2.2.LI s.2.1).isSome = true ∧
  getExitingBlock s.2.2.2.F s.2.2.2.LI s.2.1 = some s.2.2.1.F.nextBlock ∧
  isLoopSimplifyForm s.2.2.2.F s.2.2.2.LI s.2.1 = true ∧
  isRotatedForm s.2.2.2.F s.2.2.2.LI s.2.1 = false

end LoopBlocking

/-! # Theorems -/

namespace LoopBlocking


theorem checkInnerBounds_frame (SE : ScalarEvolution) (st : State) :
    ∀ (Ls : List LoopId) (BM : List (LoopId × LoopBounds)) (why : Reject) (st1 : State),
      checkInnerBounds SE st Ls BM = .ReturnFalse why st1 →
      st1.F = st.F ∧ st1.LI = st.LI ∧ st1.DT = st.DT := by
  intro Ls
  induction Ls with
  | nil => intro BM why st1 h; simp [checkInnerBounds] at h
  | cons L rest ih =>
    intro BM why st1 h
    unfold checkInnerBounds at h
    split at h
    · cases h; exact ⟨rfl, rfl, rfl⟩
    · split at h
      · cases h
      · split at h
        · cases h; exact ⟨rfl, rfl, rfl⟩
        · split at h
          · cases h; exact ⟨rfl, rfl, rfl⟩
          · exact ih _ _ _ h

theorem transformAt_frame (opts : Options) (SE : ScalarEvolution) (st : State) (BN : BlockingNest)
    (why : Reject) (st' : State) (h : transformAt opts SE st BN = some (some why, st')) :
    st'.F = st.F ∧ st'.LI = st.LI ∧ st'.DT = st.DT := by
  unfold transformAt at h
  by_cases h1 : opts.FirstLoopDepth ≥ BN.size
  · rw [if_pos h1] at h; cases h; exact ⟨rfl, rfl, rfl⟩
  rw [if_neg h1] at h
  by_cases h2 : (!(BN.areAllLoopsSimplified st.F st.LI)) = true
  · rw [if_pos h2] at h; cases h; exact ⟨rfl, rfl, rfl⟩
  rw [if_neg h2] at h
  by_cases h3 : (!(BN.areAllLoopsRotated st.F st.LI)) = true
  · rw [if_pos h3] at h; cases h; exact ⟨rfl, rfl, rfl⟩
  rw [if_neg h3] at h
  cases hc : checkInnerBounds SE st (BN.Nest.drop opts.FirstLoopDepth) [] with
  | Abort => simp [hc] at h
  | ReturnFalse w st1 =>
    simp only [hc, Option.some.injEq, Prod.mk.injEq] at h
    obtain ⟨_, rfl⟩ := h
    exact checkInnerBounds_frame SE st _ _ _ _ hc
  | Continue BM =>
    simp only [hc] at h
    cases ht : BN.topLoop with
    | none => simp [ht] at h
    | some TopLoop =>
      simp only [ht] at h
      cases hb : blockLevels opts SE BM st (BN.Nest.drop opts.FirstLoopDepth).reverse TopLoop with
      | none => simp [hb] at h
      | some st1 => simp [hb] at h

/-- C5. Legality soundness: whenever `transform` returns false, whatever the
check that failed, the control-flow graph (blocks, edges, instructions, phis),
the loop forest and the dominator tree after the call are those before it.
Only the counters can differ. -/
theorem transform_false_unchanged (opts : Options) (SE : ScalarEvolution) (st : State)
    (BN : BlockingNest) (st' : State) (h : transform opts SE st BN = some (false, st')) :
    st'.F = st.F ∧ st'.LI = st.LI ∧ st'.DT = st.DT := by
  unfold transform at h
  cases hr : transformAt opts SE st BN with
  | none => rw [hr] at h; cases h
  | some r =>
    rw [hr] at h
    obtain ⟨r1, r2⟩ := r
    simp only [Option.map_some', Option.some.injEq, Prod.mk.injEq] at h
    obtain ⟨h1, h2⟩ := h
    subst h2
    cases r1 with
    | none => simp at h1
    | some why => exact transformAt_frame opts SE st BN why _ hr


theorem simplified_header {F : Function} {LI : LoopInfo} {L : LoopId}
    (h : isLoopSimplifyForm F LI L = true) : ∃ hd, getHeader LI L = some hd := by
  unfold isLoopSimplifyForm at h
  simp only [Bool.and_eq_true] at h
  have hp := h.1.1
  unfold getLoopPreheader getLoopPredecessor at hp
  cases hh : getHeader LI L with
  | none => simp [hh] at hp
  | some hd => exact ⟨hd, rfl⟩

theorem loopFailure_none_iff (SE : ScalarEvolution) (st : State) (L : LoopId) :
    loopFailure SE st L = none ↔
      ∃ Bounds, SE.getBounds st.F st.LI L = some Bounds ∧
        (∃ Header, getHeader st.LI L = some Header ∧
          checkBoundaryValuesDominance st.F Bounds Header st.DT = true) ∧
        Bounds.Direction ≠ Direction.Unknown := by
  unfold loopFailure
  cases hb : SE.getBounds st.F st.LI L with
  | none => simp
  | some B =>
    cases hh : getHeader st.LI L with
    | none => simp
    | some hd =>
      by_cases hc : checkBoundaryValuesDominance st.F B hd st.DT = true
      · by_cases hd2 : B.Direction = Direction.Unknown <;> simp [hc, hd2]
      · simp [hc]

theorem checkInnerBounds_spec (SE : ScalarEvolution) (st : State) :
    ∀ (Ls : List LoopId) (BM : List (LoopId × LoopBounds)),
      (∀ L ∈ Ls, ∃ hd, getHeader st.LI L = some hd) →
      (∀ why, Ls.findSome? (loopFailure SE st) = some why →
        ∃ st1, checkInnerBounds SE st Ls BM = .ReturnFalse why st1) ∧
      (Ls.findSome? (loopFailure SE st) = none →
        ∃ BM', checkInnerBounds SE st Ls BM = .Continue BM') := by
  intro Ls
  induction Ls with
  | nil =>
    intro BM _
    exact ⟨fun why h => by simp at h, fun _ => ⟨BM, rfl⟩⟩
  | cons L rest ih =>
    intro BM hhd
    obtain ⟨hd, hhdL⟩ := hhd L (List.mem_cons_self _ _)
    have hrest : ∀ L ∈ rest, ∃ hd, getHeader st.LI L = some hd :=
      fun L' hL' => hhd L' (List.mem_cons_of_mem _ hL')
    unfold checkInnerBounds
    simp only [List.findSome?_cons]
    unfold loopFailure
    cases hb : SE.getBounds st.F st.LI L with
    | none => simp
    | some B =>
      simp only [hhdL, Option.any_some]
      by_cases hc : checkBoundaryValuesDominance st.F B hd st.DT = true
      · by_cases hd2 : B.Direction = Direction.Unknown
        · simp [hc, hd2]
        · simp only [hc, hd2, Bool.not_true, Bool.false_eq_true, if_false]
          exact ih _ hrest
      · simp [hc]


theorem firstFailure_none_iff (opts : Options) (SE : ScalarEvolution) (st : State)
    (BN : BlockingNest) : firstFailure opts SE st BN = none ↔ Legal opts SE st BN := by
  unfold firstFailure Legal
  by_cases h1 : opts.FirstLoopDepth < BN.Nest.length
  · rw [if_neg (not_not.2 h1)]
    by_cases h2 : ∀ L ∈ BN.Nest, isLoopSimplifyForm st.F st.LI L = true
    · rw [if_neg (not_not.2 h2)]
      by_cases h3 : ∀ L ∈ BN.Nest, isRotatedForm st.F st.LI L = true
      · rw [if_neg (not_not.2 h3), List.findSome?_eq_none_iff]
        constructor
        · intro h
          exact ⟨h1, h2, h3, fun L hL => (loopFailure_none_iff SE st L).1 (h L hL)⟩
        · intro h L hL
          exact (loopFailure_none_iff SE st L).2 (h.2.2.2 L hL)
      · rw [if_pos h3]
        constructor
        · intro h; cases h
        · intro h; exact absurd h.2.2.1 h3
    · rw [if_pos h2]
      constructor
      · intro h; cases h
      · intro h; exact absurd h.2.1 h2
  · rw [if_pos h1]
    constructor
    · intro h; cases h
    · intro h; exact absurd h.1 h1

theorem transformAt_reject (opts : Options) (SE : ScalarEvolution) (st : State)
    (BN : BlockingNest) (why : Reject) (h : firstFailure opts SE st BN = some why) :
    ∃ st', transformAt opts SE st BN = some (some why, st') := by
  unfold firstFailure at h
  unfold transformAt
  by_cases h1 : opts.FirstLoopDepth < BN.Nest.length
  · have h1' : ¬ (opts.FirstLoopDepth ≥ BN.size) := by
      unfold BlockingNest.size; omega
    rw [if_neg h1']
    rw [if_neg (not_not.2 h1)] at h
    by_cases h2 : ∀ L ∈ BN.Nest, isLoopSimplifyForm st.F st.LI L = true
    · have h2' : ¬ ((!(BN.areAllLoopsSimplified st.F st.LI)) = true) := by
        simpa [BlockingNest.areAllLoopsSimplified, List.all_eq_true] using h2
      rw [if_neg h2']
      rw [if_neg (not_not.2 h2)] at h
      by_cases h3 : ∀ L ∈ BN.Nest, isRotatedForm st.F st.LI L = true
      · have h3' : ¬ ((!(BN.areAllLoopsRotated st.F st.LI)) = true) := by
          simpa [BlockingNest.areAllLoopsRotated, List.all_eq_true] using h3
        rw [if_neg h3']
        rw [if_neg (not_not.2 h3)] at h
        have hhd : ∀ L ∈ BN.Nest.drop opts.FirstLoopDepth, ∃ hd, getHeader st.LI L = some hd :=
          fun L hL => simplified_header (h2 L (List.mem_of_mem_drop hL))
        obtain ⟨st1, hst1⟩ := (checkInnerBounds_spec SE st _ [] hhd).1 why h
        exact ⟨st1, by simp [hst1]⟩
      · have h3' : (!(BN.areAllLoopsRotated st.F st.LI)) = true := by
          simpa [BlockingNest.areAllLoopsRotated, List.all_eq_true] using h3
        rw [if_pos h3']
        rw [if_pos h3] at h
        cases h; exact ⟨st, rfl⟩
    · have h2' : (!(BN.areAllLoopsSimplified st.F st.LI)) = true := by
        simpa [BlockingNest.areAllLoopsSimplified, List.all_eq_true] using h2
      rw [if_pos h2']
      rw [if_pos h2] at h
      cases h; exact ⟨st, rfl⟩
  · have h1' : opts.FirstLoopDepth ≥ BN.size := by
      unfold BlockingNest.size; omega
    rw [if_pos h1']
    rw [if_pos h1] at h
    cases h; exact ⟨st, rfl⟩

theorem transformAt_accept (opts : Options) (SE : ScalarEvolution) (st : State)
    (BN : BlockingNest) (h : firstFailure opts SE st BN = none) (r : Option Reject) (st' : State)
    (hr : transformAt opts SE st BN = some (r, st')) : r = none := by
  unfold firstFailure at h
  unfold transformAt at hr
  by_cases h1 : opts.FirstLoopDepth < BN.Nest.length
  · have h1' : ¬ (opts.FirstLoopDepth ≥ BN.size) := by
      unfold BlockingNest.size; omega
    rw [if_neg h1'] at hr
    rw [if_neg (not_not.2 h1)] at h
    by_cases h2 : ∀ L ∈ BN.Nest, isLoopSimplifyForm st.F st.LI L = true
    · have h2' : ¬ ((!(BN.areAllLoopsSimplified st.F st.LI)) = true) := by
        simpa [BlockingNest.areAllLoopsSimplified, List.all_eq_true] using h2
      rw [if_neg h2'] at hr
      rw [if_neg (not_not.2 h2)] at h
      by_cases h3 : ∀ L ∈ BN.Nest, isRotatedForm st.F st.LI L = true
      · have h3' : ¬ ((!(BN.areAllLoopsRotated st.F st.LI)) = true) := by
          simpa [BlockingNest.areAllLoopsRotated, List.all_eq_true] using h3
        rw [if_neg h3'] at hr
        rw [if_neg (not_not.2 h3)] at h
        have hhd : ∀ L ∈ BN.Nest.drop opts.FirstLoopDepth, ∃ hd, getHeader st.LI L = some hd :=
          fun L hL => simplified_header (h2 L (List.mem_of_mem_drop hL))
        obtain ⟨BM, hBM⟩ := (checkInnerBounds_spec SE st _ [] hhd).2 h
        simp only [hBM] at hr
        cases ht : BN.topLoop with
        | none => simp [ht] at hr
        | some TopLoop =>
          simp only [ht] at hr
          cases hb : blockLevels opts SE BM st (BN.Nest.drop opts.FirstLoopDepth).reverse TopLoop with
          | none => simp [hb] at hr
          | some st1 =>
            simp only [hb, Option.some.injEq, Prod.mk.injEq] at hr
            exact hr.1.symm
      · rw [if_pos h3] at h; cases h
    · rw [if_pos h2] at h; cases h
  · rw [if_pos h1] at h; cases h

theorem transformAt_site (opts : Options) (SE : ScalarEvolution) (st : State)
    (BN : BlockingNest) (r : Option Reject) (st' : State)
    (hr : transformAt opts SE st BN = some (r, st')) : r = firstFailure opts SE st BN := by
  cases hf : firstFailure opts SE st BN with
  | none => exact transformAt_accept opts SE st BN hf r st' hr
  | some why =>
    obtain ⟨st1, hst1⟩ := transformAt_reject opts SE st BN why hf
    rw [hst1] at hr
    simp only [Option.some.injEq, Prod.mk.injEq] at hr
    exact hr.1.symm

/-- C6. `transform` returns true exactly on legal nests: a run that returns has
returned true if and only if the first depth is smaller than the nest length,
every loop of the whole nest is simplified, every loop of the whole nest is
rotated, and every loop from the first depth inward has computable bounds,
passes the dominance check and has a known direction; a nest that is not legal
always makes it return false; and the place of the `return false` is the first
check that fails in that order (`firstFailure`).  (A run that ends in an
assertion of the rewriter returns nothing.) -/
theorem transform_true_iff_legal (opts : Options) (SE : ScalarEvolution) (st : State)
    (BN : BlockingNest) :
    (∀ b st', transform opts SE st BN = some (b, st') → (b = true ↔ Legal opts SE st BN)) ∧
    (¬ Legal opts SE st BN → ∃ st', transform opts SE st BN = some (false, st')) ∧
    (∀ r st', transformAt opts SE st BN = some (r, st') → r = firstFailure opts SE st BN) ∧
    (firstFailure opts SE st BN = none ↔ Legal opts SE st BN) := by
  refine ⟨?_, ?_, transformAt_site opts SE st BN, firstFailure_none_iff opts SE st BN⟩
  · intro b st' h
    unfold transform at h
    cases hr : transformAt opts SE st BN with
    | none => rw [hr] at h; cases h
    | some r =>
      rw [hr] at h
      obtain ⟨r1, r2⟩ := r
      simp only [Option.map_some', Option.some.injEq, Prod.mk.injEq] at h
      have hs := transformAt_site opts SE st BN r1 r2 hr
      rw [← firstFailure_none_iff, ← hs, ← h.1]
      cases r1 <;> simp
  · intro hl
    cases hf : firstFailure opts SE st BN with
    | none => exact absurd ((firstFailure_none_iff opts SE st BN).1 hf) hl
    | some why =>
      obtain ⟨st1, hst1⟩ := transformAt_reject opts SE st BN why hf
      exact ⟨st1, by simp [transform, hst1]⟩


/-- C5, at a concrete nest: the final value of the inner loop is computed after
the loop, the dominance check fails, `transform` returns false and leaves graph,
forest and dominator tree as they were. -/
theorem transform_false_unchanged_witness :
    transform { Options.default with FirstLoopDepth := 1 } simpleSE (nest2 shapeBoundAfterLoop)
        { Nest := [0, 1] } = some (false, (nest2 shapeBoundAfterLoop).incBoundsNotDominant) ∧
    (nest2 shapeBoundAfterLoop).incBoundsNotDominant.F = (nest2 shapeBoundAfterLoop).F ∧
    (nest2 shapeBoundAfterLoop).incBoundsNotDominant.LI = (nest2 shapeBoundAfterLoop).LI ∧
    (nest2 shapeBoundAfterLoop).incBoundsNotDominant.DT = (nest2 shapeBoundAfterLoop).DT :=
  ⟨rfl, transform_false_unchanged { Options.default with FirstLoopDepth := 1 } simpleSE
    (nest2 shapeBoundAfterLoop) { Nest := [0, 1] } (nest2 shapeBoundAfterLoop).incBoundsNotDominant rfl⟩

/-- The legal two-level example nest is transformed: `transform` returns true. -/
theorem transform_nest2_true :
    (transform Options.default simpleSE (nest2 shapeUp) { Nest := [0, 1] }).map (fun r => r.1)
      = some true := by
  decide

/-- C4 (defect of the code). In the two-level example nest whose inner final
value is instruction 6, computed in block 2, the header of the parent loop 0:
the value does not dominate the header of the parent (`dominantBound` is false
on block 2), yet `transform` accepts the nest, returns true and leaves the
counter of non-dominating bounds at 0.  The check of line 115 is made on the
header of the loop itself (block 4), which the value does dominate. -/
theorem transform_accepts_bound_defined_in_parent_body :
    (simpleSE.getBounds (nest2 shapeBoundInOuterBody).F (nest2 shapeBoundInOuterBody).LI 1).map
      (fun B => B.FinalIVValue) = some (.Instruction 6) ∧
    (nest2 shapeBoundInOuterBody).F.getParent 6 = some 2 ∧
    getParentLoop (nest2 shapeBoundInOuterBody).LI 1 = some 0 ∧
    getHeader (nest2 shapeBoundInOuterBody).LI 0 = some 2 ∧
    getHeader (nest2 shapeBoundInOuterBody).LI 1 = some 4 ∧
    dominantBound (nest2 shapeBoundInOuterBody).DT (nest2 shapeBoundInOuterBody).F
      (.Instruction 6) 2 = false ∧
    dominantBound (nest2 shapeBoundInOuterBody).DT (nest2 shapeBoundInOuterBody).F
      (.Instruction 6) 4 = true ∧
    (transform { Options.default with FirstLoopDepth := 1 } simpleSE
        (nest2 shapeBoundInOuterBody) { Nest := [0, 1] }).map
      (fun r => (r.1, r.2.Stats.BoundsNotDominant)) = some (true, 0) := by
  decide

/-- C10 (defect of the code). In the three-level example nest the candidate
`[1, 2]` has a top loop, loop 1, whose parent is loop 0.  After the one level
that `transform` rewrites, the new loop 3 is a child of no loop and is not a
top-level loop, loop 1 is still in the list of sub-loops of loop 0, and loop 1
has loop 3 as parent and is its only child.  Lines 140-141 register the new loop
only when the wrapped loop had no parent.  The assertion of
`Loop::addChildLoop` ("NewChild already has a parent!") does not hold at the
call of line 152. -/
theorem transform_new_loop_not_under_former_parent :
    getParentLoop nest3.LI 1 = some 0 ∧
    addChildLoop_assert nest3.LI 1 = false ∧
    (transform { Options.default with FirstLoopDepth := 1 } simpleSE nest3 { Nest := [1, 2] }).map
      (fun r => (r.1, r.2.LI.nextLoop, r.2.LI.TopLevelLoops, (r.2.LI.loop 0).SubLoops,
                 (r.2.LI.loop 3).ParentLoop, (r.2.LI.loop 3).SubLoops, (r.2.LI.loop 1).ParentLoop))
      = some (true, 4, [0], [1], none, [1], some 3) :=
  ⟨by decide, by decide, by rfl⟩

/-- C8 (defect of the code). On the decreasing example loop
`for (j = 10; j > 0; j -= 1)` with blocking factor 4, the induction variable of
the new header takes the initial bound 10 on the edge from the outer preheader
(block 1) and the update on the edge from the new latch (block 8), as claimed;
but the update in the new latch is `add NewIV, 4`, not `sub`: line 269 is
`BinaryOperator::CreateAdd` whatever the direction, while the bound of a tile
(lines 295-309) is `sub NewIV, 4`.  From the tile start 10 the next tile start
is 14. -/
theorem createBlockingLoop_update_is_add_when_decreasing :
    (simpleSE.getBounds (nest2 shapeDown).F (nest2 shapeDown).LI 1).map (fun B => B.Direction)
      = some Direction.Decreasing ∧
    (blockNest2 shapeDown 4).map (fun r =>
        (r.1.parts.OuterPreheader, r.1.blocks.NewLatch, r.2.F.inst r.1.values.NewIV))
      = some (1, 8, some (.PHINode 8 [(.ConstantInt 8 10, 1), (.Instruction 8, 8)])) ∧
    (blockNest2 shapeDown 4).map (fun r =>
        (r.1.values.UpdateIVInst, r.2.F.getParent r.1.values.UpdateIVInst,
         r.2.F.inst r.1.values.UpdateIVInst))
      = some (8, some 8, some (.BinaryOperator .Add 8 (.Instruction 7) (.ConstantInt 8 4))) ∧
    (blockNest2 shapeDown 4).map (fun r => r.2.F.inst r.1.tile.BoundValue)
      = some (some (.BinaryOperator .Sub 8 (.Instruction 7) (.ConstantInt 8 4))) ∧
    (blockNest2 shapeDown 4).map (fun r =>
        evalValue r.2.F 8 (Env.zero.set r.1.values.NewIV 10) evalDepth
          (.Instruction r.1.values.UpdateIVInst))
      = some (some 14) := by
  decide

/-- C3 (defect of the code). On the decreasing example loop
`for (j = 10; j > 0; j -= 1)` with blocking factor 16, the bound of the first
tile is `smin(10 - 16, 0)`, the bit pattern 250, that is -6: it lies beyond the
final bound 0 in the direction of the loop.  With it the target runs its body
at 10, 9, ..., 1 and on at 0, -1, ..., -5, where the original loop ran it at
10, ..., 1 only.  The clamp of lines 311-322 is a minimum in both directions. -/
theorem createBlockingLoop_clamp_beyond_final_when_decreasing :
    (blockNest2 shapeDown 16).map (fun r => r.2.F.inst r.1.tile.MinIntrCall)
      = some (some (.CallInst .smin 8 [.Instruction 10, .ConstantInt 8 0])) ∧
    (blockNest2 shapeDown 16).map (fun r =>
        evalValue r.2.F 8 (Env.zero.set r.1.values.NewIV 10) evalDepth
          (.Instruction r.1.tile.MinIntrCall))
      = some (some 250) ∧
    toSigned 8 250 = -6 ∧ toSigned 8 250 < toSigned 8 0 ∧
    (blockNest2 shapeDown 16).map (fun r =>
        runLoop r.2.F 8 (Env.zero.set r.1.values.NewIV 10) 4 r.1.parts.TargetLatch
          r.1.parts.TargetIv 40 10)
      = some (some [10, 9, 8, 7, 6, 5, 4, 3, 2, 1, 0, 255, 254, 253, 252, 251]) ∧
    runLoopFromPreheader (nest2 shapeDown).F 8 Env.zero 3 4 4 1 40
      = some [10, 9, 8, 7, 6, 5, 4, 3, 2, 1] := by
  decide

/-- C9 (defect of the code). Two shapes of the latch test of the example loop
`for (j = 0; j < 10; j += 1)`, blocking factor 4; in both the canonical
predicate is `slt`.
* The header is the false successor (`br (icmp sge j.next, 10), exit, header`):
  the new comparison `icmp slt j.next, min` is put in the old branch, whose
  successors stay (exit 5, header 4), so the latch goes back to the header when
  the test is false.  From `j = 0` (where `1 < min(4, 10)` holds) the rewritten
  latch leaves to block 5; the original went back to block 4.
* The final value is operand 0 (`icmp sgt 10, j.next`): the new comparison is
  `icmp slt 10, min`, its first operand is the final value 10 and not the
  updated induction value (instruction 2). -/
theorem createBlockingLoop_latch_test_on_other_shapes :
    getCanonicalPredicate (nest2 shapeExitFirst).F (nest2 shapeExitFirst).LI
      { L := 1, InitialIVValue := .ConstantInt 8 0, StepInst := 2,
        FinalIVValue := .ConstantInt 8 10, Direction := .Increasing } = some .ICMP_SLT ∧
    (blockNest2 shapeExitFirst 4).map (fun r =>
        (r.2.F.term r.1.parts.TargetLatch, r.2.F.inst r.1.tile.BlockBoundCond))
      = some (some (.CondBr (.Instruction 12) 5 4),
              some (.ICmpInst .ICMP_SLT (.Instruction 2) (.Instruction 11))) ∧
    (blockNest2 shapeExitFirst 4).map (fun r =>
        (evalValue r.2.F 8 ((Env.zero.set r.1.values.NewIV 0).set r.1.parts.TargetIv 0) evalDepth
           (.Instruction r.1.tile.BlockBoundCond),
         r.2.F.branchTarget 8 ((Env.zero.set r.1.values.NewIV 0).set r.1.parts.TargetIv 0)
           r.1.parts.TargetLatch))
      = some (some 1, some 5) ∧
    (nest2 shapeExitFirst).F.branchTarget 8 (Env.zero.set 1 0) 4 = some 4 ∧
    getCanonicalPredicate (nest2 shapeBoundFirst).F (nest2 shapeBoundFirst).LI
      { L := 1, InitialIVValue := .ConstantInt 8 0, StepInst := 2,
        FinalIVValue := .ConstantInt 8 10, Direction := .Increasing } = some .ICMP_SLT ∧
    (blockNest2 shapeBoundFirst 4).map (fun r =>
        (r.2.F.term r.1.parts.TargetLatch, r.2.F.inst r.1.tile.BlockBoundCond))
      = some (some (.CondBr (.Instruction 12) 4 5),
              some (.ICmpInst .ICMP_SLT (.ConstantInt 8 10) (.Instruction 11))) := by
  decide


theorem allocate_blocks (st : State) (c : LoopParts) :
    (allocateBlockingLoop st c).1.NewHeader = st.F.nextBlock ∧
    (allocateBlockingLoop st c).1.NewLatch = st.F.nextBlock + 1 ∧
    (allocateBlockingLoop st c).1.NewOuterPreheader = st.F.nextBlock + 2 ∧
    (allocateBlockingLoop st c).1.NL = st.LI.nextLoop := ⟨rfl, rfl, rfl, rfl⟩

theorem allocate_term (st : State) (c : LoopParts) (b : BlockId) :
    (allocateBlockingLoop st c).2.F.term b =
      if b = st.F.nextBlock + 2 then none else if b = st.F.nextBlock + 1 then none
      else if b = st.F.nextBlock then none else st.F.term b := rfl

theorem allocate_inst (st : State) (c : LoopParts) :
    (allocateBlockingLoop st c).2.F.inst = st.F.inst ∧
    (allocateBlockingLoop st c).2.F.nextInst = st.F.nextInst := ⟨rfl, rfl⟩

theorem allocate_insts (st : State) (c : LoopParts) (b : BlockId) :
    (allocateBlockingLoop st c).2.F.insts b =
      if b = st.F.nextBlock + 2 then [] else if b = st.F.nextBlock + 1 then []
      else if b = st.F.nextBlock then [] else st.F.insts b := rfl

theorem rewireEdges_inv {st st1 : State} {c : LoopParts} {n : NewBlocks}
    (h : rewireEdges st c n = some st1) :
    ∃ d t2, st.F.term c.OuterPreheader = some (.Br d) ∧
      (if c.OuterExiting = n.NewOuterPreheader then some (Terminator.Br c.OuterHeader)
       else if c.OuterExiting = c.OuterPreheader then
         some (Terminator.Br (if d = c.OuterHeader then n.NewHeader else d))
       else st.F.term c.OuterExiting) = some t2 ∧
      (∀ b, st1.F.term b =
        if b = n.NewLatch then some (.Br n.NewHeader)
        else if b = c.OuterExiting then some (t2.replaceSuccessorWith c.OuterExit n.NewLatch)
        else if b = n.NewOuterPreheader then some (.Br c.OuterHeader)
        else if b = c.OuterPreheader then some (.Br (if d = c.OuterHeader then n.NewHeader else d))
        else st.F.term b) ∧
      (∀ x, st1.F.inst x =
        if x ∈ st.F.insts c.OuterHeader then
          (st.F.inst x).map (fun i => i.replaceIncomingBlockWith c.OuterPreheader n.NewOuterPreheader)
        else st.F.inst x) ∧
      st1.F.insts = st.F.insts ∧ st1.F.nextInst = st.F.nextInst ∧
      st1.F.nextBlock = st.F.nextBlock ∧ st1.F.blockOrder = st.F.blockOrder ∧
      st1.LI = st.LI ∧ st1.Stats = st.Stats := by
  unfold rewireEdges at h
  simp only [bind, Option.bind_eq_some, assert, pure] at h
  obtain ⟨t, ht, h⟩ := h
  obtain ⟨u, hu, h⟩ := h
  obtain ⟨t2, ht2, h⟩ := h
  cases t with
  | Br d =>
    refine ⟨d, t2, ht, ?_, ?_⟩
    · simpa [Function.setTerm, Function.replacePhiUsesWith, Terminator.replaceSuccessorWith]
        using ht2
    · simp only [Option.some.injEq] at h
      subst h
      refine ⟨?_, ?_, rfl, rfl, rfl, rfl, rfl, rfl⟩
      · intro b
        simp [Function.setTerm, Function.replacePhiUsesWith, Terminator.replaceSuccessorWith]
      · intro x
        simp [Function.setTerm, Function.replacePhiUsesWith]
  | CondBr _ _ _ => simp at hu
  | Other _ => simp at hu


theorem ne_add_two (a : Nat) : ¬ a = a + 1 + 1 := by omega

theorem buildBlockingHeader_inv {st : State} {c : LoopParts} {n : NewBlocks} {B : LoopBounds}
    {I : BlockingInfo} {r : NewValues × State} (h : buildBlockingHeader st c n B I = some r) :
    r.1.NewIV = st.F.nextInst ∧ r.1.UpdateIVInst = st.F.nextInst + 1 ∧
    r.1.NewHeaderExitCond = st.F.nextInst + 2 ∧
    r.1.BlockingFactor = .ConstantInt c.TargetIvType (I.BlockingFactor % 2 ^ c.TargetIvType) ∧
    (∀ b, r.2.F.term b =
      if b = n.NewHeader then
        some (.CondBr (.Instruction (st.F.nextInst + 2)) n.NewOuterPreheader c.OuterExit)
      else st.F.term b) ∧
    (∀ x, r.2.F.inst x =
      if x = st.F.nextInst + 2 then
        some (.ICmpInst r.1.CanonicalPredicate (.Instruction st.F.nextInst) B.FinalIVValue)
      else if x = st.F.nextInst then
        some (.PHINode c.TargetIvType
          [(B.InitialIVValue, c.OuterPreheader), (.Instruction (st.F.nextInst + 1), n.NewLatch)])
      else if x = st.F.nextInst + 1 then
        some (.BinaryOperator .Add c.TargetIvType (.Instruction st.F.nextInst)
          (.ConstantInt c.TargetIvType (I.BlockingFactor % 2 ^ c.TargetIvType)))
      else if x = c.TargetIv then
        (st.F.inst c.TargetIv).map
          (fun i => i.setIncomingValueForBlock c.TargetPreheader (.Instruction st.F.nextInst))
      else st.F.inst x) ∧
    r.2.F.nextInst = st.F.nextInst + 3 ∧ r.2.F.nextBlock = st.F.nextBlock ∧
    r.2.F.blockOrder = st.F.blockOrder ∧ r.2.LI = st.LI ∧ r.2.Stats = st.Stats := by
  unfold buildBlockingHeader at h
  simp only [bind, Option.bind_eq_some, pure] at h
  obtain ⟨P, _, h⟩ := h
  simp only [Option.some.injEq] at h
  subst h
  refine ⟨rfl, rfl, rfl, rfl, ?_, ?_, rfl, rfl, rfl, rfl, rfl⟩
  · intro b
    simp [Function.setTerm, Function.createInst, Function.updateInst]
  · intro x
    simp only [Function.setTerm, Function.createInst, Function.updateInst]
    by_cases h2 : x = st.F.nextInst + 2
    · simp [h2]
    by_cases h0 : x = st.F.nextInst
    · subst h0
      by_cases ht : c.TargetIv = st.F.nextInst
      · simp [ht, Inst.addIncoming, Inst.setIncomingValueForBlock]
        exact ne_add_two _
      · simp [Inst.addIncoming, Inst.setIncomingValueForBlock, Ne.symm ht]
        exact ne_add_two _
    by_cases h1 : x = st.F.nextInst + 1
    · simp [h1]
    by_cases ht : x = c.TargetIv
    · subst ht
      simp [h2, h0, h1]
    · simp [h2, h0, h1, ht]


theorem getLatchCmpInst_spec {F : Function} {LI : LoopInfo} {L : LoopId} {c : InstId}
    (h : getLatchCmpInst F LI L = some c) :
    ∃ Latch t f p a b, getLoopLatch F LI L = some Latch ∧
      F.term Latch = some (.CondBr (.Instruction c) t f) ∧ F.inst c = some (.ICmpInst p a b) := by
  unfold getLatchCmpInst at h
  split at h
  · cases h
  · rename_i Latch hl
    split at h
    · rename_i c' t f ht
      split at h
      · rename_i p a b hi
        cases h
        exact ⟨Latch, t, f, p, a, b, hl, ht, hi⟩
      · cases h
    · cases h

theorem getLoopLatch_contains {F : Function} {LI : LoopInfo} {L : LoopId} {b : BlockId}
    (h : getLoopLatch F LI L = some b) : LI.contains L b = true := by
  unfold getLoopLatch at h
  cases hh : getHeader LI L with
  | none => simp [hh] at h
  | some hd =>
    simp only [hh] at h
    cases hf : (F.predecessors hd).filter (fun p => LI.contains L p) with
    | nil => simp [hf] at h
    | cons p ps =>
      cases ps with
      | nil =>
        simp only [hf, Option.some.injEq] at h
        subst h
        have : p ∈ (F.predecessors hd).filter (fun q => LI.contains L q) := by
          rw [hf]; exact List.mem_singleton_self _
        exact (List.mem_filter.1 this).2
      | cons q qs => simp [hf] at h

theorem buildTileBound_inv {st : State} {c : LoopParts} {v : NewValues} {T : LoopId}
    {B : LoopBounds} {r : TileValues × State} (h : buildTileBound st c v T B = some r) :
    r.1.BoundValue = st.F.nextInst ∧ r.1.MinIntrCall = st.F.nextInst + 1 ∧
    r.1.BlockBoundCond = st.F.nextInst + 2 ∧
    boundOp B.Direction = some r.1.BoundOp ∧
    (∃ cnd t f, st.F.term c.TargetLatch = some (.CondBr cnd t f) ∧
      ∀ b, r.2.F.term b =
        if b = c.TargetLatch then some (.CondBr (.Instruction (st.F.nextInst + 2)) t f)
        else st.F.term b) ∧
    (∀ x, r.2.F.inst x =
      if x = r.1.OldLatchCompInst then none
      else if x = st.F.nextInst + 2 then
        some (.ICmpInst r.1.CanonicalPredicate r.1.OldOperand0 (.Instruction (st.F.nextInst + 1)))
      else if x = st.F.nextInst + 1 then
        some (.CallInst r.1.IntrFuncMinID c.TargetIvType
          [.Instruction st.F.nextInst, B.FinalIVValue])
      else if x = st.F.nextInst then
        some (.BinaryOperator r.1.BoundOp c.TargetIvType (.Instruction v.NewIV) v.BlockingFactor)
      else st.F.inst x) ∧
    (∃ Latch t f p a b, st.LI.contains T Latch = true ∧
      st.F.term Latch = some (.CondBr (.Instruction r.1.OldLatchCompInst) t f) ∧
      (if r.1.OldLatchCompInst = st.F.nextInst + 1 then
         some (Inst.CallInst r.1.IntrFuncMinID c.TargetIvType
           [.Instruction st.F.nextInst, B.FinalIVValue])
       else if r.1.OldLatchCompInst = st.F.nextInst then
         some (.BinaryOperator r.1.BoundOp c.TargetIvType (.Instruction v.NewIV) v.BlockingFactor)
       else st.F.inst r.1.OldLatchCompInst) = some (.ICmpInst p a b) ∧ r.1.OldOperand0 = a) ∧
    r.2.LI = st.LI ∧ r.2.Stats = st.Stats ∧ r.2.DT = st.DT := by
  unfold buildTileBound at h
  simp only [bind, Option.bind_eq_some, pure] at h
  obtain ⟨op, hop, h⟩ := h
  obtain ⟨_, _, h⟩ := h
  obtain ⟨lc, _, h⟩ := h
  obtain ⟨lp, _, h⟩ := h
  obtain ⟨_, _, h⟩ := h
  obtain ⟨old, hold, h⟩ := h
  obtain ⟨op0, hop0, h⟩ := h
  obtain ⟨P, _, h⟩ := h
  obtain ⟨tt, htt, h⟩ := h
  obtain ⟨nt, hnt, h⟩ := h
  simp only [Option.some.injEq] at h
  subst h
  obtain ⟨Latch, t, f, p, a, b, hl, hlt, hli⟩ := getLatchCmpInst_spec hold
  have hlc := getLoopLatch_contains hl
  cases tt with
  | Br d => simp [Terminator.setCondition] at hnt
  | Other ss => simp [Terminator.setCondition] at hnt
  | CondBr cnd t' f' =>
    simp only [Terminator.setCondition, Option.some.injEq] at hnt
    subst hnt
    refine ⟨rfl, rfl, rfl, hop, ⟨cnd, t', f', ?_, ?_⟩, ?_, ⟨Latch, t, f, p, a, b, hlc, ?_, ?_, ?_⟩,
      rfl, rfl, rfl⟩
    · simpa [Function.createInst] using htt
    · intro b
      simp [Function.setTerm, Function.createInst, Function.eraseFromParent]
    · intro x
      simp only [Function.setTerm, Function.createInst, Function.eraseFromParent]
    · simpa [Function.createInst] using hlt
    · simpa [Function.createInst] using hli
    · simp only [Function.cmpOperand0, hli, Option.some.injEq] at hop0
      exact hop0.symm


theorem createBlockingLoopLocals_inv {SE : ScalarEvolution} {st st' : State} {T O : LoopId}
    {B : LoopBounds} {I : BlockingInfo} {loc : Locals}
    (h : createBlockingLoopLocals SE st T O B I = some (loc, st')) :
    ∃ st1 r t, lookupLoopParts SE st T O = some loc.parts ∧
      loc.blocks = (allocateBlockingLoop st loc.parts).1 ∧
      rewireEdges (allocateBlockingLoop st loc.parts).2 loc.parts loc.blocks = some st1 ∧
      buildBlockingHeader st1 loc.parts loc.blocks B I = some r ∧
      buildTileBound r.2 loc.parts r.1 T B = some t ∧
      loc.values = r.1 ∧ loc.tile = t.1 ∧ st' = t.2 := by
  unfold createBlockingLoopLocals at h
  cases hc : lookupLoopParts SE st T O with
  | none => simp [hc] at h
  | some c =>
    simp only [hc] at h
    cases h1 : rewireEdges (allocateBlockingLoop st c).2 c (allocateBlockingLoop st c).1 with
    | none => simp [h1] at h
    | some st1 =>
      simp only [h1] at h
      cases h2 : buildBlockingHeader st1 c (allocateBlockingLoop st c).1 B I with
      | none => simp [h2] at h
      | some r =>
        simp only [h2] at h
        cases h3 : buildTileBound r.2 c r.1 T B with
        | none => simp [h3] at h
        | some t =>
          simp only [h3, Option.some.injEq, Prod.mk.injEq] at h
          obtain ⟨hl, hs⟩ := h
          subst hl
          exact ⟨st1, r, t, rfl, rfl, h1, h2, h3, rfl, rfl, hs.symm⟩

theorem lookupLoopParts_inv {SE : ScalarEvolution} {st : State} {T O : LoopId} {c : LoopParts}
    (h : lookupLoopParts SE st T O = some c) :
    isRotatedForm st.F st.LI T = true ∧ isLoopSimplifyForm st.F st.LI T = true ∧
    getHeader st.LI O = some c.OuterHeader ∧
    getLoopPreheader st.F st.LI O = some c.OuterPreheader ∧
    getLoopLatch st.F st.LI O = some c.OuterLatch ∧
    getExitBlock st.F st.LI O = some c.OuterExit ∧
    getLoopLatch st.F st.LI T = some c.TargetLatch ∧
    getLoopPreheader st.F st.LI T = some c.TargetPreheader ∧
    getExitingBlock st.F st.LI O = some c.OuterExiting ∧
    SE.getInductionVariable st.F st.LI T = some c.TargetIv ∧
    ∃ i, st.F.inst c.TargetIv = some i ∧ c.TargetIvType = i.bits := by
  unfold lookupLoopParts at h
  simp only [bind, Option.bind_eq_some, pure, assert] at h
  obtain ⟨_, h1, _, h2, a1, ha1, a2, ha2, a3, ha3, a4, ha4, a5, ha5, a6, ha6, a7, ha7, a8, ha8,
    a9, ha9, h⟩ := h
  simp only [Option.some.injEq] at h
  subst h
  refine ⟨?_, ?_, ha1, ha2, ha3, ha4, ha5, ha6, ha7, ha8, a9, ha9, rfl⟩
  · by_contra hn
    simp [hn] at h1
  · by_contra hn
    simp [hn] at h2


theorem ne_of_lt_add (a b k : Nat) (h : a < b) : a ≠ b + k := by omega

theorem mem_predecessors {F : Function} {p b : BlockId} (h : p ∈ F.predecessors b) :
    b ∈ F.successors p := by
  unfold Function.predecessors at h
  simp only [List.mem_flatMap, List.mem_filterMap] at h
  obtain ⟨q, _, s, hs, hq⟩ := h
  by_cases hsb : s = b
  · simp only [hsb, if_true, Option.some.injEq] at hq
    subst hq; subst hsb; exact hs
  · simp [hsb] at hq

theorem getLoopPredecessor_spec {F : Function} {LI : LoopInfo} {L : LoopId} {p h : BlockId}
    (hp : getLoopPredecessor F LI L = some p) (hh : getHeader LI L = some h) :
    h ∈ F.successors p ∧ LI.contains L p = false := by
  unfold getLoopPredecessor at hp
  simp only [hh] at hp
  cases hf : (F.predecessors h).filter (fun q => !(LI.contains L q)) with
  | nil => simp [hf] at hp
  | cons q qs =>
    simp only [hf] at hp
    split at hp
    · cases hp
      have hm : p ∈ (F.predecessors h).filter (fun q => !(LI.contains L q)) := by
        rw [hf]; exact List.mem_cons_self _ _
      have hm2 := List.mem_filter.1 hm
      exact ⟨mem_predecessors hm2.1, by simpa using hm2.2⟩
    · cases hp

theorem getLoopPreheader_spec {F : Function} {LI : LoopInfo} {L : LoopId} {p h : BlockId}
    (hp : getLoopPreheader F LI L = some p) (hh : getHeader LI L = some h) :
    F.successors p = [h] ∧ LI.contains L p = false := by
  unfold getLoopPreheader at hp
  cases ho : getLoopPredecessor F LI L with
  | none => simp [ho] at hp
  | some Out =>
    simp only [ho] at hp
    split at hp
    · rename_i hlen
      cases hp
      obtain ⟨hmem, hc⟩ := getLoopPredecessor_spec ho hh
      refine ⟨?_, hc⟩
      cases hs : F.successors p with
      | nil => simp [hs] at hlen
      | cons a as =>
        cases as with
        | nil =>
          rw [hs] at hmem
          simp only [List.mem_singleton] at hmem
          rw [hmem]
        | cons b bs => simp [hs] at hlen
    · cases hp

theorem getExitingBlock_spec {F : Function} {LI : LoopInfo} {L : LoopId} {e : BlockId}
    (he : getExitingBlock F LI L = some e) :
    e ∈ (LI.loop L).Blocks ∧ getExitingBlocks F LI L = [e] := by
  unfold getExitingBlock at he
  cases hf : getExitingBlocks F LI L with
  | nil => simp [hf] at he
  | cons q qs =>
    cases qs with
    | nil =>
      simp only [hf, Option.some.injEq] at he
      subst he
      have : q ∈ getExitingBlocks F LI L := by rw [hf]; exact List.mem_singleton_self _
      unfold getExitingBlocks at this
      exact ⟨(List.mem_filter.1 this).1, rfl⟩
    | cons a as => simp [hf] at he

theorem getExitBlock_spec {F : Function} {LI : LoopInfo} {L : LoopId} {e x : BlockId}
    (he : getExitingBlock F LI L = some e) (hx : getExitBlock F LI L = some x) :
    x ∈ F.successors e ∧ LI.contains L x = false := by
  obtain ⟨_, hes⟩ := getExitingBlock_spec he
  unfold getExitBlock at hx
  cases hf : getExitBlocks F LI L with
  | nil => simp [hf] at hx
  | cons q qs =>
    cases qs with
    | nil =>
      simp only [hf, Option.some.injEq] at hx
      subst hx
      have hm : q ∈ getExitBlocks F LI L := by rw [hf]; exact List.mem_singleton_self _
      unfold getExitBlocks at hm
      simp only [List.mem_flatMap, List.mem_filter] at hm
      obtain ⟨b, hb, hq, hc⟩ := hm
      have hbe : b ∈ getExitingBlocks F LI L := by
        unfold getExitingBlocks
        refine List.mem_filter.2 ⟨hb, ?_⟩
        unfold isLoopExiting
        exact List.any_eq_true.2 ⟨q, hq, hc⟩
      rw [hes] at hbe
      simp only [List.mem_singleton] at hbe
      subst hbe
      exact ⟨hq, by simpa using hc⟩
    | cons a as => simp [hf] at hx

theorem successors_replaceSuccessorWith (t : Terminator) (Old New : BlockId) :
    (t.replaceSuccessorWith Old New).successors =
      t.successors.map (fun s => if s = Old then New else s) := by
  cases t <;> simp [Terminator.replaceSuccessorWith, Terminator.successors]


theorem tile_successors {st : State} {c : LoopParts} {v : NewValues} {T : LoopId}
    {B : LoopBounds} {r : TileValues × State} (h : buildTileBound st c v T B = some r)
    (b : BlockId) : r.2.F.successors b = st.F.successors b := by
  obtain ⟨-, -, -, -, ⟨cnd, tt, ff, hT, hterm⟩, -⟩ := buildTileBound_inv h
  unfold Function.successors
  rw [hterm b]
  by_cases hb : b = c.TargetLatch
  · subst hb
    simp [hT, Terminator.successors]
  · simp [hb]

theorem createBlockingLoop_edges_aux (SE : ScalarEvolution) (st : State) (T O : LoopId)
    (B : LoopBounds) (I : BlockingInfo) (loc : Locals) (st' : State)
    (h : createBlockingLoopLocals SE st T O B I = some (loc, st'))
    (hO : ∀ b ∈ (st.LI.loop O).Blocks, b < st.F.nextBlock) :
    st'.F.successors loc.parts.OuterPreheader = [loc.blocks.NewHeader] ∧
    st'.F.successors loc.blocks.NewOuterPreheader = [loc.parts.OuterHeader] ∧
    loc.parts.OuterExit ∈ st.F.successors loc.parts.OuterExiting ∧
    st'.F.successors loc.parts.OuterExiting =
      (st.F.successors loc.parts.OuterExiting).map
        (fun s => if s = loc.parts.OuterExit then loc.blocks.NewLatch else s) ∧
    st'.F.successors loc.blocks.NewLatch = [loc.blocks.NewHeader] ∧
    (∃ cond, st'.F.term loc.blocks.NewHeader =
      some (.CondBr cond loc.blocks.NewOuterPreheader loc.parts.OuterExit)) ∧
    ∀ b, b ≠ loc.parts.OuterPreheader → b ≠ loc.parts.OuterExiting →
      b ≠ loc.blocks.NewHeader → b ≠ loc.blocks.NewLatch → b ≠ loc.blocks.NewOuterPreheader →
      st'.F.successors b = st.F.successors b := by
  obtain ⟨st1, r, t, hc, hn, h1, h2, h3, -, -, hs⟩ := createBlockingLoopLocals_inv h
  subst hs
  obtain ⟨-, -, hOH, hOP, -, hOX, -, -, hOE, -⟩ := lookupLoopParts_inv hc
  obtain ⟨hNH, hNL, hNP, -⟩ := allocate_blocks st loc.parts
  rw [← hn] at hNH hNL hNP
  obtain ⟨d, t2, hd, ht2, hterm2, -⟩ := rewireEdges_inv h1
  obtain ⟨-, -, -, -, hterm3, -⟩ := buildBlockingHeader_inv h2
  obtain ⟨-, -, -, -, ⟨cnd, tt, ff, hT, hterm4⟩, -⟩ := buildTileBound_inv h3
  have hsucc4 := tile_successors h3
  -- the old preheader
  rw [allocate_term] at hd
  have hOP0 : loc.parts.OuterPreheader ≠ st.F.nextBlock := by
    intro e; simp [e] at hd
  have hOP1 : loc.parts.OuterPreheader ≠ st.F.nextBlock + 1 := by
    intro e; simp [e] at hd
  have hOP2 : loc.parts.OuterPreheader ≠ st.F.nextBlock + 2 := by
    intro e; simp [e] at hd
  simp only [hOP0, hOP1, hOP2, if_false] at hd
  obtain ⟨hpre, hpc⟩ := getLoopPreheader_spec hOP hOH
  have hdOH : d = loc.parts.OuterHeader := by
    simp only [Function.successors, hd, Terminator.successors] at hpre
    simpa using hpre
  subst hdOH
  -- the exiting block
  obtain ⟨hOEmem, -⟩ := getExitingBlock_spec hOE
  have hOElt := hO _ hOEmem
  have hOEOP : loc.parts.OuterExiting ≠ loc.parts.OuterPreheader := by
    intro e
    rw [← e] at hpc
    simp [LoopInfo.contains, hOEmem] at hpc
  have hOE0 : loc.parts.OuterExiting ≠ st.F.nextBlock := Nat.ne_of_lt hOElt
  have hOE1 : loc.parts.OuterExiting ≠ st.F.nextBlock + 1 := ne_of_lt_add _ _ 1 hOElt
  have hOE2 : loc.parts.OuterExiting ≠ st.F.nextBlock + 2 := ne_of_lt_add _ _ 2 hOElt
  rw [allocate_term] at ht2
  simp only [hNP, hOE0, hOE1, hOE2, hOEOP, if_false] at ht2
  obtain ⟨hxs, -⟩ := getExitBlock_spec hOE hOX
  have h01 : st.F.nextBlock ≠ st.F.nextBlock + 1 := by omega
  have h02 : st.F.nextBlock ≠ st.F.nextBlock + 2 := by omega
  have h12 : st.F.nextBlock + 1 ≠ st.F.nextBlock + 2 := by omega
  have h21 : st.F.nextBlock + 2 ≠ st.F.nextBlock + 1 := by omega
  refine ⟨?_, ?_, hxs, ?_, ?_, ?_, ?_⟩
  · rw [hsucc4]
    simp [Function.successors, hterm3, hterm2, hNH, hNL, hNP, hOP0, hOP1, hOP2, hOEOP.symm,
      Terminator.successors]
  · rw [hsucc4]
    simp [Function.successors, hterm3, hterm2, hNH, hNL, hNP, hOE2.symm, h21, h02.symm,
      Terminator.successors]
  · rw [hsucc4]
    simp [Function.successors, hterm3, hterm2, hNH, hNL, hNP, hOE0, hOE1, ht2,
      successors_replaceSuccessorWith]
  · rw [hsucc4]
    simp [Function.successors, hterm3, hterm2, hNH, hNL, hNP, h01.symm, Terminator.successors]
  · rw [hterm4]
    by_cases hb : loc.blocks.NewHeader = loc.parts.TargetLatch
    · rw [← hb, hterm3] at hT
      simp only [if_true, Option.some.injEq, Terminator.CondBr.injEq] at hT
      rw [if_pos hb, ← hT.2.1, ← hT.2.2]
      exact ⟨_, rfl⟩
    · rw [if_neg hb, hterm3, if_pos rfl]
      exact ⟨_, rfl⟩
  · intro b b1 b2 b3 b4 b5
    rw [hsucc4]
    rw [hNH] at b3
    rw [hNL] at b4
    rw [hNP] at b5
    simp [Function.successors, hterm3, hterm2, allocate_term, hNH, hNL, hNP, b1, b2, b3, b4, b5]


/-- C7. After `createBlockingLoop(T, O, ...)` the control edges are: the original
preheader of `O` has the new header as its only successor; the new preheader
of `O` has the original header of `O` as its only successor; the exiting block
of `O` has the new latch where it had the original exit block of `O` (which
was one of its successors); the new latch has the new header as its only
successor; the new header is a conditional branch to the new preheader of `O`
when the test is true and to the original exit block of `O` when it is false;
and every other block has the successors it had. -/
theorem createBlockingLoop_edges (SE : ScalarEvolution) (st : State) (T O : LoopId)
    (B : LoopBounds) (I : BlockingInfo) (loc : Locals) (st' : State)
    (h : createBlockingLoopLocals SE st T O B I = some (loc, st'))
    (hO : ∀ b ∈ (st.LI.loop O).Blocks, b < st.F.nextBlock) :
    createBlockingLoop SE st T O B I = some (loc.blocks.NL, st') ∧
    st'.F.successors loc.parts.OuterPreheader = [loc.blocks.NewHeader] ∧
    st'.F.successors loc.blocks.NewOuterPreheader = [loc.parts.OuterHeader] ∧
    loc.parts.OuterExit ∈ st.F.successors loc.parts.OuterExiting ∧
    st'.F.successors loc.parts.OuterExiting =
      (st.F.successors loc.parts.OuterExiting).map
        (fun s => if s = loc.parts.OuterExit then loc.blocks.NewLatch else s) ∧
    st'.F.successors loc.blocks.NewLatch = [loc.blocks.NewHeader] ∧
    (∃ cond, st'.F.term loc.blocks.NewHeader =
      some (.CondBr cond loc.blocks.NewOuterPreheader loc.parts.OuterExit)) ∧
    ∀ b, b ≠ loc.parts.OuterPreheader → b ≠ loc.parts.OuterExiting →
      b ≠ loc.blocks.NewHeader → b ≠ loc.blocks.NewLatch → b ≠ loc.blocks.NewOuterPreheader →
      st'.F.successors b = st.F.successors b :=
  ⟨by simp [createBlockingLoop, h], createBlockingLoop_edges_aux SE st T O B I loc st' h hO⟩

/-- C7, on the two-level example nest with blocking factor 4: the run returns,
and block 1 (the old preheader) goes to the new header 7, the new preheader 9
to the old header 2, the exiting block 5 to 2 and the new latch 8 (it went to
2 and the exit 6), the new latch 8 to 7, the new header 7 to 9 or 6. -/
theorem createBlockingLoop_edges_witness :
    simpleSE.getBounds (nest2 shapeUp).F (nest2 shapeUp).LI 1 = some boundsUp ∧
    ∃ loc st', createBlockingLoopLocals simpleSE (nest2 shapeUp) 1 0 boundsUp
        { BlockingFactor := 4 } = some (loc, st') ∧
      (loc.parts.OuterPreheader, loc.parts.OuterHeader, loc.parts.OuterExiting,
        loc.parts.OuterExit) = (1, 2, 5, 6) ∧
      (loc.blocks.NewHeader, loc.blocks.NewLatch, loc.blocks.NewOuterPreheader) = (7, 8, 9) ∧
      (nest2 shapeUp).F.successors 5 = [2, 6] ∧
      st'.F.successors 1 = [7] ∧ st'.F.successors 9 = [2] ∧ st'.F.successors 5 = [2, 8] ∧
      st'.F.successors 8 = [7] ∧ st'.F.successors 7 = [9, 6] ∧
      createBlockingLoop simpleSE (nest2 shapeUp) 1 0 boundsUp { BlockingFactor := 4 }
        = some (loc.blocks.NL, st') := by
  refine ⟨by decide, ?_⟩
  cases hr : createBlockingLoopLocals simpleSE (nest2 shapeUp) 1 0 boundsUp
      { BlockingFactor := 4 } with
  | none => exact absurd (congrArg Option.isSome hr) (by decide)
  | some r =>
    have hw := createBlockingLoop_edges simpleSE (nest2 shapeUp) 1 0 boundsUp
      { BlockingFactor := 4 } r.1 r.2 hr (by decide)
    have hp : (r.1.parts.OuterPreheader, r.1.parts.OuterHeader, r.1.parts.OuterExiting,
        r.1.parts.OuterExit) = (1, 2, 5, 6) ∧
        (r.1.blocks.NewHeader, r.1.blocks.NewLatch, r.1.blocks.NewOuterPreheader) = (7, 8, 9) ∧
        r.2.F.successors 7 = [9, 6] := by
      have hv : (createBlockingLoopLocals simpleSE (nest2 shapeUp) 1 0 boundsUp
          { BlockingFactor := 4 }).map (fun r =>
            ((r.1.parts.OuterPreheader, r.1.parts.OuterHeader, r.1.parts.OuterExiting,
              r.1.parts.OuterExit),
             (r.1.blocks.NewHeader, r.1.blocks.NewLatch, r.1.blocks.NewOuterPreheader),
             r.2.F.successors 7)) = some ((1, 2, 5, 6), (7, 8, 9), [9, 6]) := by decide
      rw [hr] at hv
      simp only [Option.map_some', Option.some.injEq, Prod.mk.injEq] at hv
      exact ⟨by simp [hv.1], by simp [hv.2.1], hv.2.2⟩
    obtain ⟨hp1, hp2, hp3⟩ := hp
    simp only [Prod.mk.injEq] at hp1 hp2
    obtain ⟨a1, a2, a3, a4⟩ := hp1
    obtain ⟨b1, b2, b3⟩ := hp2
    rw [a1, a2, a3, a4, b1, b2, b3] at hw
    obtain ⟨w0, w1, w2, -, w4, w5, -, -⟩ := hw
    have hs5 : (nest2 shapeUp).F.successors 5 = [2, 6] := by decide
    rw [hs5] at w4
    exact ⟨r.1, r.2, rfl, by simp [a1, a2, a3, a4], by simp [b1, b2, b3], hs5, w1, w2,
      by simpa using w4, w5, hp3, w0⟩


theorem nest2_wellFormed (sh : InnerShape) : WellFormed (nest2 sh) := by
  constructor
  · intro L hL
    match L with
    | 0 | 1 => simp [nest2, nest2LI]
    | n + 2 => simp [nest2, nest2LI] at hL
  · intro L b hb
    match L with
    | 0 =>
      simp [nest2, nest2LI] at hb
      rcases hb with h | h | h | h <;> subst h <;> simp [nest2, nest2F]
    | 1 => simp [nest2, nest2LI] at hb; subst hb; simp [nest2, nest2F]
    | n + 2 => simp [nest2, nest2LI] at hb
  · intro b s hs
    match b with
    | 0 | 1 | 2 | 3 =>
      simp [nest2, nest2F, Function.successors, Terminator.successors] at hs
      subst hs; simp [nest2, nest2F]
    | 5 =>
      simp [nest2, nest2F, Function.successors, Terminator.successors] at hs
      rcases hs with h | h <;> subst h <;> simp [nest2, nest2F]
    | 6 => simp [nest2, nest2F, Function.successors, Terminator.successors] at hs
    | 4 =>
      cases hh : sh.headerFirst <;>
        simp [nest2, nest2F, Function.successors, Terminator.successors, hh] at hs <;>
        rcases hs with h | h <;> subst h <;> simp [nest2, nest2F]
    | n + 7 => simp [nest2, nest2F, Function.successors] at hs
  · intro b i t f h
    match b with
    | 0 | 1 | 2 | 3 | 6 => simp [nest2, nest2F] at h
    | 4 =>
      cases hh : sh.headerFirst <;> simp [nest2, nest2F, hh] at h <;>
        (obtain ⟨h1, -⟩ := h; subst h1; simp [nest2, nest2F])
    | 5 => simp [nest2, nest2F] at h; obtain ⟨h1, -⟩ := h; subst h1; simp [nest2, nest2F]
    | n + 7 => simp [nest2, nest2F] at h
  · intro i h
    match i with
    | 0 | 1 | 2 | 3 | 4 | 5 | 6 => simp [nest2, nest2F]
    | n + 7 => simp [nest2, nest2F] at h


theorem getHeader_mem {LI : LoopInfo} {L : LoopId} {h : BlockId} (hh : getHeader LI L = some h) :
    h ∈ (LI.loop L).Blocks := by
  unfold getHeader at hh
  cases hb : (LI.loop L).Blocks with
  | nil => simp [hb] at hh
  | cons a as =>
    simp only [hb, List.head?_cons, Option.some.injEq] at hh
    subst hh
    exact List.mem_cons_self _ _

theorem contains_mem {LI : LoopInfo} {L : LoopId} {b : BlockId} (h : LI.contains L b = true) :
    b ∈ (LI.loop L).Blocks := by
  simpa [LoopInfo.contains] using h

theorem replaceSuccessorWith_condBr {t : Terminator} {Old New : BlockId} {c : Value}
    {a b : BlockId} (h : t.replaceSuccessorWith Old New = .CondBr c a b) :
    ∃ a0 b0, t = .CondBr c a0 b0 ∧ a = (if a0 = Old then New else a0) ∧
      b = (if b0 = Old then New else b0) := by
  cases t with
  | Br d => simp [Terminator.replaceSuccessorWith] at h
  | Other ss => simp [Terminator.replaceSuccessorWith] at h
  | CondBr c0 a0 b0 =>
    simp only [Terminator.replaceSuccessorWith, Terminator.CondBr.injEq] at h
    obtain ⟨h1, h2, h3⟩ := h
    subst h1
    exact ⟨a0, b0, rfl, h2.symm, h3.symm⟩

/-- The state after a run of `createBlockingLoop` on a well-formed state:
the fresh identities, and the terminator of every block and the instruction of
every identity in terms of the state before. -/
theorem createBlockingLoopLocals_spec {SE : ScalarEvolution} {st st' : State} {T O : LoopId}
    {B : LoopBounds} {I : BlockingInfo} {loc : Locals}
    (h : createBlockingLoopLocals SE st T O B I = some (loc, st')) (wf : WellFormed st) :
    ∃ t2 cnd tt ff,
      (loc.blocks.NewHeader = st.F.nextBlock ∧ loc.blocks.NewLatch = st.F.nextBlock + 1 ∧
        loc.blocks.NewOuterPreheader = st.F.nextBlock + 2) ∧
      (loc.values.NewIV = st.F.nextInst ∧ loc.values.UpdateIVInst = st.F.nextInst + 1 ∧
        loc.values.NewHeaderExitCond = st.F.nextInst + 2 ∧
        loc.tile.BoundValue = st.F.nextInst + 3 ∧ loc.tile.MinIntrCall = st.F.nextInst + 4 ∧
        loc.tile.BlockBoundCond = st.F.nextInst + 5) ∧
      loc.values.BlockingFactor =
        .ConstantInt loc.parts.TargetIvType (I.BlockingFactor % 2 ^ loc.parts.TargetIvType) ∧
      boundOp B.Direction = some loc.tile.BoundOp ∧
      (loc.parts.TargetLatch < st.F.nextBlock ∧ loc.parts.OuterExiting < st.F.nextBlock ∧
        loc.parts.OuterHeader < st.F.nextBlock ∧ loc.parts.OuterExit < st.F.nextBlock ∧
        loc.parts.OuterPreheader ≠ st.F.nextBlock ∧ loc.parts.OuterPreheader ≠ st.F.nextBlock + 1 ∧
        loc.parts.OuterPreheader ≠ st.F.nextBlock + 2 ∧
        loc.parts.OuterPreheader ≠ loc.parts.OuterExiting ∧
        loc.parts.OuterPreheader ≠ loc.parts.TargetLatch) ∧
      loc.tile.OldLatchCompInst < st.F.nextInst ∧
      st.F.term loc.parts.OuterExiting = some t2 ∧
      (if loc.parts.TargetLatch = loc.parts.OuterExiting then
          some (t2.replaceSuccessorWith loc.parts.OuterExit (st.F.nextBlock + 1))
        else st.F.term loc.parts.TargetLatch) = some (.CondBr cnd tt ff) ∧
      (∀ b, st'.F.term b =
        if b = loc.parts.TargetLatch then
          some (.CondBr (.Instruction (st.F.nextInst + 5)) tt ff)
        else if b = st.F.nextBlock then
          some (.CondBr (.Instruction (st.F.nextInst + 2)) (st.F.nextBlock + 2)
            loc.parts.OuterExit)
        else if b = st.F.nextBlock + 1 then some (.Br st.F.nextBlock)
        else if b = loc.parts.OuterExiting then
          some (t2.replaceSuccessorWith loc.parts.OuterExit (st.F.nextBlock + 1))
        else if b = st.F.nextBlock + 2 then some (.Br loc.parts.OuterHeader)
        else if b = loc.parts.OuterPreheader then some (.Br st.F.nextBlock)
        else st.F.term b) ∧
      (∀ x, st'.F.inst x =
        if x = loc.tile.OldLatchCompInst then none
        else if x = st.F.nextInst + 5 then
          some (.ICmpInst loc.tile.CanonicalPredicate loc.tile.OldOperand0
            (.Instruction (st.F.nextInst + 4)))
        else if x = st.F.nextInst + 4 then
          some (.CallInst loc.tile.IntrFuncMinID loc.parts.TargetIvType
            [.Instruction (st.F.nextInst + 3), B.FinalIVValue])
        else if x = st.F.nextInst + 3 then
          some (.BinaryOperator loc.tile.BoundOp loc.parts.TargetIvType
            (.Instruction st.F.nextInst) loc.values.BlockingFactor)
        else if x = st.F.nextInst + 2 then
          some (.ICmpInst loc.values.CanonicalPredicate (.Instruction st.F.nextInst)
            B.FinalIVValue)
        else if x = st.F.nextInst then
          some (.PHINode loc.parts.TargetIvType
            [(B.InitialIVValue, loc.parts.OuterPreheader),
             (.Instruction (st.F.nextInst + 1), st.F.nextBlock + 1)])
        else if x = st.F.nextInst + 1 then
          some (.BinaryOperator .Add loc.parts.TargetIvType (.Instruction st.F.nextInst)
            loc.values.BlockingFactor)
        else if x = loc.parts.TargetIv then
          ((if loc.parts.TargetIv ∈ st.F.insts loc.parts.OuterHeader then
              (st.F.inst loc.parts.TargetIv).map
                (fun i => i.replaceIncomingBlockWith loc.parts.OuterPreheader
                  (st.F.nextBlock + 2))
            else st.F.inst loc.parts.TargetIv)).map
            (fun i => i.setIncomingValueForBlock loc.parts.TargetPreheader
              (.Instruction st.F.nextInst))
        else if x ∈ st.F.insts loc.parts.OuterHeader then
          (st.F.inst x).map
            (fun i => i.replaceIncomingBlockWith loc.parts.OuterPreheader (st.F.nextBlock + 2))
        else st.F.inst x) := by
  obtain ⟨st1, r, t, hc, hn, h1, h2, h3, hv, htl, hs⟩ := createBlockingLoopLocals_inv h
  obtain ⟨rv, rs⟩ := r
  obtain ⟨tv, ts⟩ := t
  subst hs
  subst hv
  subst htl
  obtain ⟨-, -, hOH, hOP, -, hOX, hTL, -, hOE, -⟩ := lookupLoopParts_inv hc
  obtain ⟨hNH, hNL, hNP, -⟩ := allocate_blocks st loc.parts
  rw [← hn] at hNH hNL hNP
  obtain ⟨d, t2, hd, ht2, hterm2, hinst2, hinsts2, hni2, -, -, hLI2, -⟩ := rewireEdges_inv h1
  obtain ⟨hi1, hi2, hi3, hbf, hterm3, hinst3, hni3, -, -, hLI3, -⟩ := buildBlockingHeader_inv h2
  obtain ⟨hj1, hj2, hj3, hbo, ⟨cnd, tt, ff, hT, hterm4⟩, hinst4,
    ⟨Latch, lt, lf, lp, la, lb, hLc, hLt, hLi, hLa⟩, -⟩ := buildTileBound_inv h3
  simp only at hi1 hi2 hi3 hbf hterm3 hinst3 hni3 hLI3 hj1 hj2 hj3 hbo hT hterm4 hinst4 hLc hLt hLi hLa
  have hni1 : (allocateBlockingLoop st loc.parts).2.F.nextInst = st.F.nextInst := rfl
  rw [hni1] at hni2
  rw [hni2] at hi1 hi2 hi3 hinst3 hni3 hterm3
  rw [hni3] at hj1 hj2 hj3 hinst4 hterm4 hLi
  simp only [hNH, hNL, hNP] at hterm2 hterm3 ht2 hinst2 hinst3
  -- the old preheader
  rw [allocate_term] at hd
  have hOP0 : loc.parts.OuterPreheader ≠ st.F.nextBlock := by
    intro e; simp [e] at hd
  have hOP1 : loc.parts.OuterPreheader ≠ st.F.nextBlock + 1 := by
    intro e; simp [e] at hd
  have hOP2 : loc.parts.OuterPreheader ≠ st.F.nextBlock + 2 := by
    intro e; simp [e] at hd
  simp only [hOP0, hOP1, hOP2, if_false] at hd
  obtain ⟨hpre, hpc⟩ := getLoopPreheader_spec hOP hOH
  have hdOH : d = loc.parts.OuterHeader := by
    simp only [Function.successors, hd, Terminator.successors] at hpre
    simpa using hpre
  subst hdOH
  simp only [if_true] at hterm2
  -- the blocks that are below the fresh ones
  obtain ⟨hOEmem, -⟩ := getExitingBlock_spec hOE
  have hOElt := wf.loopBlocks _ _ hOEmem
  have hOHlt := wf.loopBlocks _ _ (getHeader_mem hOH)
  have hTLlt := wf.loopBlocks _ _ (contains_mem (getLoopLatch_contains hTL))
  obtain ⟨hxs, -⟩ := getExitBlock_spec hOE hOX
  have hOXlt := wf.succs _ _ hxs
  have hOEOP : loc.parts.OuterExiting ≠ loc.parts.OuterPreheader := by
    intro e
    rw [← e] at hpc
    simp [LoopInfo.contains, hOEmem] at hpc
  have hOE0 : loc.parts.OuterExiting ≠ st.F.nextBlock := Nat.ne_of_lt hOElt
  have hOE1 : loc.parts.OuterExiting ≠ st.F.nextBlock + 1 := ne_of_lt_add _ _ 1 hOElt
  have hOE2 : loc.parts.OuterExiting ≠ st.F.nextBlock + 2 := ne_of_lt_add _ _ 2 hOElt
  have hTL0 : loc.parts.TargetLatch ≠ st.F.nextBlock := Nat.ne_of_lt hTLlt
  have hTL1 : loc.parts.TargetLatch ≠ st.F.nextBlock + 1 := ne_of_lt_add _ _ 1 hTLlt
  have hTL2 : loc.parts.TargetLatch ≠ st.F.nextBlock + 2 := ne_of_lt_add _ _ 2 hTLlt
  rw [allocate_term] at ht2
  simp only [hOE0, hOE1, hOE2, hOEOP, if_false] at ht2
  -- terminators before the last part
  have hterm3' : ∀ b, rs.F.term b =
      if b = st.F.nextBlock then
        some (.CondBr (.Instruction (st.F.nextInst + 2)) (st.F.nextBlock + 2) loc.parts.OuterExit)
      else if b = st.F.nextBlock + 1 then some (.Br st.F.nextBlock)
      else if b = loc.parts.OuterExiting then
        some (t2.replaceSuccessorWith loc.parts.OuterExit (st.F.nextBlock + 1))
      else if b = st.F.nextBlock + 2 then some (.Br loc.parts.OuterHeader)
      else if b = loc.parts.OuterPreheader then some (.Br st.F.nextBlock)
      else st.F.term b := by
    intro b
    rw [hterm3, hterm2, allocate_term]
    by_cases b0 : b = st.F.nextBlock
    · simp [b0]
    by_cases b1 : b = st.F.nextBlock + 1
    · simp [b0, b1]
    by_cases b2 : b = st.F.nextBlock + 2
    · simp [b0, b1, b2]
    simp [b0, b1, b2]
  -- the latch of the target
  have hTLOP : loc.parts.OuterPreheader ≠ loc.parts.TargetLatch := by
    intro e
    rw [← e, hterm3'] at hT
    simp [hOP0, hOP1, hOP2, hOEOP.symm] at hT
  have hT' : (if loc.parts.TargetLatch = loc.parts.OuterExiting then
          some (t2.replaceSuccessorWith loc.parts.OuterExit (st.F.nextBlock + 1))
        else st.F.term loc.parts.TargetLatch) = some (.CondBr cnd tt ff) := by
    rw [hterm3'] at hT
    simpa [hTL0, hTL1, hTL2, hTLOP.symm] using hT
  -- the comparison that is erased is an old instruction
  have hTne : (st.LI.loop T).Blocks ≠ [] := by
    intro e
    have := contains_mem (getLoopLatch_contains hTL)
    rw [e] at this
    cases this
  have hTlt := wf.loops T hTne
  have hLc' : st.LI.contains T Latch = true := by
    rw [hLI3, hLI2] at hLc
    simpa [LoopInfo.contains, allocateBlockingLoop, LoopInfo.addBlockEntry,
      LoopInfo.AllocateLoop, Nat.ne_of_lt hTlt] using hLc
  have hLlt := wf.loopBlocks _ _ (contains_mem hLc')
  have hOld : loc.tile.OldLatchCompInst < st.F.nextInst := by
    rw [hterm3'] at hLt
    have hL0 : Latch ≠ st.F.nextBlock := Nat.ne_of_lt hLlt
    have hL1 : Latch ≠ st.F.nextBlock + 1 := ne_of_lt_add _ _ 1 hLlt
    have hL2 : Latch ≠ st.F.nextBlock + 2 := ne_of_lt_add _ _ 2 hLlt
    simp only [hL0, hL1, hL2, if_false] at hLt
    by_cases e : Latch = loc.parts.OuterExiting
    · simp only [e, if_true, Option.some.injEq] at hLt
      obtain ⟨a0, b0, ht2', -, -⟩ := replaceSuccessorWith_condBr hLt
      rw [ht2'] at ht2
      exact wf.conds _ _ _ _ ht2
    · simp only [e, if_false] at hLt
      by_cases e2 : Latch = loc.parts.OuterPreheader
      · simp [e2] at hLt
      · simp only [e2, if_false] at hLt
        exact wf.conds _ _ _ _ hLt
  refine ⟨t2, cnd, tt, ff, ⟨hNH, hNL, hNP⟩, ⟨hi1, hi2, hi3, hj1, hj2, hj3⟩, hbf, hbo,
    ⟨hTLlt, hOElt, hOHlt, hOXlt, hOP0, hOP1, hOP2, hOEOP.symm, hTLOP⟩, hOld, ht2, hT', ?_, ?_⟩
  · intro b
    rw [hterm4, hterm3']
  · intro x
    rw [hinst4]
    by_cases x0 : x = loc.tile.OldLatchCompInst
    · simp [x0]
    simp only [x0, if_false]
    by_cases x5 : x = st.F.nextInst + 3 + 2
    · have : x = st.F.nextInst + 5 := x5
      simp [this]
    have x5' : ¬ x = st.F.nextInst + 5 := x5
    by_cases x4 : x = st.F.nextInst + 3 + 1
    · have : x = st.F.nextInst + 4 := x4
      simp [this]
    have x4' : ¬ x = st.F.nextInst + 4 := x4
    simp only [x5, x4, x5', x4', if_false]
    by_cases x3 : x = st.F.nextInst + 3
    · simp [x3, hi1]
    simp only [x3, if_false]
    rw [hinst3]
    by_cases x2 : x = st.F.nextInst + 2
    · simp [x2]
    by_cases xn : x = st.F.nextInst
    · simp [xn, hbf]
    by_cases x1 : x = st.F.nextInst + 1
    · simp [x1, hbf]
    simp only [x2, xn, x1, if_false]
    rw [hinst2, hinst2]
    have hOHTP : (allocateBlockingLoop st loc.parts).2.F.insts loc.parts.OuterHeader
        = st.F.insts loc.parts.OuterHeader := by
      rw [allocate_insts]
      simp [Nat.ne_of_lt hOHlt, ne_of_lt_add _ _ 1 hOHlt, ne_of_lt_add _ _ 2 hOHlt]
    rw [hOHTP]
    have hi0 : (allocateBlockingLoop st loc.parts).2.F.inst = st.F.inst := rfl
    rw [hi0]


theorem toSigned_mod (w x : Nat) : toSigned w (x % 2 ^ w) = toSigned w x := by
  unfold toSigned
  rw [Nat.mod_mod]

theorem strict_exit_iff (p : Predicate) (dir : Direction) (w x hi : Nat)
    (hs : p.strictFor dir = true) :
    p.eval w x hi = false ↔ reachedOrPassed dir p.isSigned w x hi = true := by
  cases dir <;> cases p <;>
    simp [Predicate.strictFor] at hs <;>
    simp [Predicate.eval, reachedOrPassed, Predicate.isSigned]

theorem evalValue_icmp_phi (F : Function) (w : Nat) (env : Env) (d : Nat) (c phi : InstId)
    (p : Predicate) (fin : Value) (hi ty : Nat) (inc : List (Value × BlockId))
    (hc : F.inst c = some (.ICmpInst p (.Instruction phi) fin))
    (hp : F.inst phi = some (.PHINode ty inc))
    (hf : evalValue F w env (d + 1) fin = some hi) :
    evalValue F w env (d + 2) (.Instruction c) =
      some (if p.eval w (env.reg phi % 2 ^ w) hi then 1 else 0) := by
  simp only [evalValue, hc, hp, hf]

theorem createBlockingLoop_header_test_aux (SE : ScalarEvolution) (st : State) (T O : LoopId)
    (B : LoopBounds) (I : BlockingInfo) (loc : Locals) (st' : State) (w : Nat) (env : Env)
    (hi : Nat)
    (h : createBlockingLoopLocals SE st T O B I = some (loc, st')) (wf : WellFormed st)
    (hF : evalValue st'.F w env (evalDepth - 1) B.FinalIVValue = some hi) :
    st'.F.inst loc.values.NewHeaderExitCond =
      some (.ICmpInst loc.values.CanonicalPredicate (.Instruction loc.values.NewIV)
        B.FinalIVValue) ∧
    st'.F.term loc.blocks.NewHeader =
      some (.CondBr (.Instruction loc.values.NewHeaderExitCond) loc.blocks.NewOuterPreheader
        loc.parts.OuterExit) ∧
    loc.blocks.NewOuterPreheader ≠ loc.parts.OuterExit ∧
    st'.F.branchTarget w env loc.blocks.NewHeader =
      some (if loc.values.CanonicalPredicate.eval w (env.reg loc.values.NewIV % 2 ^ w) hi
            then loc.blocks.NewOuterPreheader else loc.parts.OuterExit) ∧
    (loc.values.CanonicalPredicate.strictFor B.Direction = true →
      (st'.F.branchTarget w env loc.blocks.NewHeader = some loc.parts.OuterExit ↔
        reachedOrPassed B.Direction loc.values.CanonicalPredicate.isSigned w
          (env.reg loc.values.NewIV % 2 ^ w) hi = true)) := by
  obtain ⟨t2, cnd, tt, ff, ⟨hNH, hNL, hNP⟩, ⟨hi1, hi2, hi3, hj1, hj2, hj3⟩, hbf, hbo,
    ⟨hTLlt, hOElt, hOHlt, hOXlt, hOP0, hOP1, hOP2, hOPOE, hOPTL⟩, hOld, ht2, hT, hterm, hinst⟩ :=
    createBlockingLoopLocals_spec h wf
  have hOldn : ∀ k, st.F.nextInst + k ≠ loc.tile.OldLatchCompInst :=
    fun k => (ne_of_lt_add _ _ k hOld).symm
  have hcmp : st'.F.inst (st.F.nextInst + 2) =
      some (.ICmpInst loc.values.CanonicalPredicate (.Instruction st.F.nextInst)
        B.FinalIVValue) := by
    rw [hinst]
    simp [hOldn 2]
  have hphi : st'.F.inst st.F.nextInst =
      some (.PHINode loc.parts.TargetIvType
            [(B.InitialIVValue, loc.parts.OuterPreheader),
             (.Instruction (st.F.nextInst + 1), st.F.nextBlock + 1)]) := by
    rw [hinst]
    simp [(Nat.ne_of_lt hOld).symm]
  have hterm0 : st'.F.term st.F.nextBlock =
      some (.CondBr (.Instruction (st.F.nextInst + 2)) (st.F.nextBlock + 2)
        loc.parts.OuterExit) := by
    rw [hterm]
    simp [(Nat.ne_of_lt hTLlt).symm]
  have hne : st.F.nextBlock + 2 ≠ loc.parts.OuterExit := (ne_of_lt_add _ _ 2 hOXlt).symm
  have hbt : st'.F.branchTarget w env st.F.nextBlock =
      some (if loc.values.CanonicalPredicate.eval w (env.reg st.F.nextInst % 2 ^ w) hi
            then st.F.nextBlock + 2 else loc.parts.OuterExit) := by
    have hev : evalValue st'.F w env evalDepth (.Instruction (st.F.nextInst + 2)) =
        some (if loc.values.CanonicalPredicate.eval w (env.reg st.F.nextInst % 2 ^ w) hi
              then 1 else 0) :=
      evalValue_icmp_phi st'.F w env 6 _ _ _ _ hi _ _ hcmp hphi hF
    simp only [Function.branchTarget, hterm0, hev]
    by_cases hp : loc.values.CanonicalPredicate.eval w (env.reg st.F.nextInst % 2 ^ w) hi = true
    · simp [hp]
    · simp [hp]
  rw [hNH, hNP, hi1, hi3]
  refine ⟨hcmp, hterm0, hne, hbt, ?_⟩
  intro hs
  rw [hbt, ← strict_exit_iff _ _ _ _ _ hs]
  by_cases hp : loc.values.CanonicalPredicate.eval w (env.reg st.F.nextInst % 2 ^ w) hi = true
  · simp [hp, hne]
  · simp [hp]

/-- C2 (amended). In the state after `createBlockingLoop`, the header of the
blocking loop tests `tileStart <canonical predicate> hi` and branches to the
new preheader of `O` when the test is true and to the former exit block when it
is false, for every canonical predicate the oracle returns and every blocking
factor; and when the canonical predicate is the strict ordering of the
direction (`slt`, `ult` counting up, `sgt`, `ugt` counting down) the loop
leaves exactly when `tileStart` has reached or passed `hi` in that ordering. -/
theorem createBlockingLoop_header_test (SE : ScalarEvolution) (st : State) (T O : LoopId)
    (B : LoopBounds) (I : BlockingInfo) (loc : Locals) (st' : State) (w : Nat) (env : Env)
    (hi : Nat)
    (h : createBlockingLoopLocals SE st T O B I = some (loc, st')) (wf : WellFormed st)
    (hF : evalValue st'.F w env (evalDepth - 1) B.FinalIVValue = some hi) :
    HeaderTest st' loc B w env hi :=
  createBlockingLoop_header_test_aux SE st T O B I loc st' w env hi h wf hF

/-- C2 (amended), on the two-level example nest `for (j = 0; j < 10; j += 1)`
with blocking factor 4, with the tile start 12 and the final value 10. -/
theorem createBlockingLoop_header_test_witness :
    ∃ loc st', createBlockingLoopLocals simpleSE (nest2 shapeUp) 1 0 boundsUp
        { BlockingFactor := 4 } = some (loc, st') ∧
      HeaderTest st' loc boundsUp 8 (Env.zero.set loc.values.NewIV 12) 10 := by
  cases hr : createBlockingLoopLocals simpleSE (nest2 shapeUp) 1 0 boundsUp
      { BlockingFactor := 4 } with
  | none => exact absurd (congrArg Option.isSome hr) (by decide)
  | some r =>
    exact ⟨r.1, r.2, rfl, createBlockingLoop_header_test simpleSE (nest2 shapeUp) 1 0 boundsUp
      { BlockingFactor := 4 } r.1 r.2 8 (Env.zero.set r.1.values.NewIV 12) 10 hr
      (nest2_wellFormed shapeUp) rfl⟩

/-- C2 as stated fails. On the loop `for (j = 0; j != 100; j += 1)` with
blocking factor 16 the canonical predicate is `ne` and the header test is
`icmp ne tileStart, 100`.  The tile that starts at 96 is entered and runs the
body at 96, ..., 99; the latch then gives the tile start 112, which has passed
100 in the direction of the loop (in the signed and in the unsigned reading),
and the header branches to the new preheader of `O` (block 9) again, not to
the former exit block (block 6). -/
theorem blocking_header_does_not_leave_with_ne :
    simpleSE.getBounds (nest2 shapeNe).F (nest2 shapeNe).LI 1 = some boundsNe ∧
    (blockNest2 shapeNe 16).map (fun r =>
        (r.1.values.CanonicalPredicate, r.1.blocks.NewOuterPreheader, r.1.parts.OuterExit,
         r.2.F.inst r.1.values.NewHeaderExitCond))
      = some (.ICMP_NE, 9, 6,
          some (.ICmpInst .ICMP_NE (.Instruction 7) (.ConstantInt 8 100))) ∧
    (blockNest2 shapeNe 16).map (fun r =>
        (r.2.F.branchTarget 8 (Env.zero.set r.1.values.NewIV 96) r.1.blocks.NewHeader,
         runLoop r.2.F 8 (Env.zero.set r.1.values.NewIV 96) 4 r.1.parts.TargetLatch
           r.1.parts.TargetIv 10 96,
         evalValue r.2.F 8 (Env.zero.set r.1.values.NewIV 96) evalDepth
           (.Instruction r.1.values.UpdateIVInst)))
      = some (some 9, some [96, 97, 98, 99], some 112) ∧
    reachedOrPassed .Increasing true 8 112 100 = true ∧
    reachedOrPassed .Increasing false 8 112 100 = true ∧
    (blockNest2 shapeNe 16).map (fun r =>
        r.2.F.branchTarget 8 (Env.zero.set r.1.values.NewIV 112) r.1.blocks.NewHeader)
      = some (some 9) := by
  decide


theorem evalValue_leaf {F : Function} {w : Nat} {env : Env} {v : Value} {x : Nat}
    (h : evalValue F w env 0 v = some x) (F' : Function) (reg : InstId → Nat) (d : Nat) :
    evalValue F' w { arg := env.arg, reg := reg } d v = some x := by
  cases v with
  | ConstantInt b c => cases d <;> simpa [evalValue] using h
  | Argument n => cases d <;> simpa [evalValue] using h
  | ConstantFP n => simp [evalValue] at h
  | Other n => simp [evalValue] at h
  | Instruction i => simp [evalValue] at h

theorem evalValue_leaf_lt {F : Function} {w : Nat} {env : Env} {v : Value} {x : Nat}
    (h : evalValue F w env 0 v = some x) : x < 2 ^ w := by
  have hp : 0 < 2 ^ w := Nat.two_pow_pos w
  cases v with
  | ConstantInt b c =>
    simp [evalValue] at h; subst h; exact Nat.mod_lt _ hp
  | Argument n =>
    simp [evalValue] at h; subst h; exact Nat.mod_lt _ hp
  | ConstantFP n => simp [evalValue] at h
  | Other n => simp [evalValue] at h
  | Instruction i => simp [evalValue] at h

theorem evalValue_phi {F : Function} {w : Nat} {env : Env} {i : InstId} {ty : Nat}
    {inc : List (Value × BlockId)} (hi : F.inst i = some (.PHINode ty inc)) (d : Nat) :
    evalValue F w env (d + 1) (.Instruction i) = some (env.reg i % 2 ^ w) := by
  simp only [evalValue, hi]

theorem evalValue_binop {F : Function} {w : Nat} {env : Env} {i : InstId} {op : BinaryOps}
    {ty : Nat} {a b : Value} {x y d : Nat}
    (hi : F.inst i = some (.BinaryOperator op ty a b))
    (ha : evalValue F w env d a = some x) (hb : evalValue F w env d b = some y) :
    evalValue F w env (d + 1) (.Instruction i) = some (op.eval w x y) := by
  simp only [evalValue, hi, ha, hb]

theorem evalValue_icmp {F : Function} {w : Nat} {env : Env} {i : InstId} {p : Predicate}
    {a b : Value} {x y d : Nat}
    (hi : F.inst i = some (.ICmpInst p a b))
    (ha : evalValue F w env d a = some x) (hb : evalValue F w env d b = some y) :
    evalValue F w env (d + 1) (.Instruction i) = some (if p.eval w x y then 1 else 0) := by
  simp only [evalValue, hi, ha, hb]

theorem evalValue_call {F : Function} {w : Nat} {env : Env} {i : InstId} {f : IntrinsicID}
    {ty : Nat} {a b : Value} {x y d : Nat}
    (hi : F.inst i = some (.CallInst f ty [a, b]))
    (ha : evalValue F w env d a = some x) (hb : evalValue F w env d b = some y) :
    evalValue F w env (d + 1) (.Instruction i) = some (f.eval w x y) := by
  simp only [evalValue, hi, ha, hb]

theorem evalValue_const (F : Function) (w : Nat) (env : Env) (d b c : Nat) :
    evalValue F w env d (.ConstantInt b c) = some (c % 2 ^ w) := by
  cases d <;> simp [evalValue]

theorem find_setIncoming (inc : List (Value × BlockId)) (BB b : BlockId) (V : Value) :
    ((inc.map (fun p => (if p.2 = BB then V else p.1, p.2))).find?
        (fun p => decide (p.2 = b))).map (fun p => p.1) =
      ((inc.find? (fun p => decide (p.2 = b))).map (fun p => p.1)).map
        (fun v => if b = BB then V else v) := by
  induction inc with
  | nil => simp
  | cons p ps ih =>
    by_cases hp : p.2 = b
    · simp [List.find?_cons, hp]
    · simp only [List.map_cons, List.find?_cons, hp, decide_False]
      exact ih

theorem incomingValue_setIncoming {F F' : Function} {phi : InstId} {BB b : BlockId} {V v : Value}
    (hF' : F'.inst phi = (F.inst phi).map (fun i => i.setIncomingValueForBlock BB V))
    (h : F.incomingValue phi b = some v) :
    F'.incomingValue phi b = some (if b = BB then V else v) := by
  unfold Function.incomingValue at h ⊢
  rw [hF']
  cases hi : F.inst phi with
  | none => simp [hi] at h
  | some i =>
    cases i with
    | PHINode ty inc =>
      simp only [hi] at h
      simp only [Option.map_some', Inst.setIncomingValueForBlock]
      rw [find_setIncoming, h]
      rfl
    | BinaryOperator _ _ _ _ => simp [hi] at h
    | ICmpInst _ _ _ => simp [hi] at h
    | CallInst _ _ _ => simp [hi] at h
    | Other _ => simp [hi] at h

theorem add_eval_mod (w a b : Nat) :
    BinaryOps.Add.eval w (a % 2 ^ w) (b % 2 ^ w) = BinaryOps.Add.eval w a b := by
  simp [BinaryOps.eval, Nat.add_mod]

theorem add_eval_lt (w a b : Nat) : BinaryOps.Add.eval w a b < 2 ^ w := by
  simp only [BinaryOps.eval]
  exact Nat.mod_lt _ (Nat.two_pow_pos w)

theorem runLoop_eq_countUp {F : Function} {w : Nat} {env : Env} {hdr latch ex : BlockId}
    {iv : InstId} {s bound : Nat} {v : Value}
    (hbt : ∀ j, F.branchTarget w (env.set iv j) latch =
      some (if Predicate.ICMP_SLT.eval w (BinaryOps.Add.eval w j s) bound then hdr else ex))
    (hex : ex ≠ hdr) (hinc : F.incomingValue iv latch = some v)
    (hv : ∀ j, evalValue F w (env.set iv j) evalDepth v = some (BinaryOps.Add.eval w j s)) :
    ∀ n j, runLoop F w env hdr latch iv n j = countUp w s bound n j := by
  intro n
  induction n with
  | zero => intro j; rfl
  | succ n ih =>
    intro j
    simp only [runLoop, countUp, hbt, hinc, hv]
    by_cases hc : Predicate.ICMP_SLT.eval w (BinaryOps.Add.eval w j s) bound = true
    · simp [hc, ih]
    · simp [hc, hex]

theorem runTiles_eq_countUpTiles {F : Function} {w : Nat} {env : Env} {N : TiledNest}
    {enter : BlockId} {s f hi : Nat} {v0 v1 : Value}
    (hbt : ∀ x, F.branchTarget w (env.set N.BIv x) N.BHeader =
      some (if Predicate.ICMP_SLT.eval w x hi then enter else N.BExit))
    (hne : enter ≠ N.BExit)
    (hT : ∀ x n j, runLoop F w (env.set N.BIv x) N.THeader N.TLatch N.TIv n j =
      countUp w s (IntrinsicID.smin.eval w (BinaryOps.Add.eval w x f) hi) n j)
    (h0 : F.incomingValue N.TIv N.TPreheader = some v0)
    (hv0 : ∀ x, evalValue F w (env.set N.BIv x) evalDepth v0 = some (x % 2 ^ w))
    (h1 : F.incomingValue N.BIv N.BLatch = some v1)
    (hv1 : ∀ x, evalValue F w (env.set N.BIv x) evalDepth v1 = some (BinaryOps.Add.eval w x f)) :
    ∀ n x, x < 2 ^ w → runTiles F w env N n x = countUpTiles w s f hi n x := by
  intro n
  induction n with
  | zero => intro x _; rfl
  | succ n ih =>
    intro x hx
    simp only [runTiles, countUpTiles, hbt, h0, h1, hv0, hv1, hT]
    by_cases hc : Predicate.ICMP_SLT.eval w x hi = true
    · simp only [hc, if_true, hne, if_false, Nat.mod_eq_of_lt hx, ih _ (add_eval_lt w x f)]
    · simp [hc]


theorem two_pow_half (w : Nat) (hw : 1 ≤ w) : 2 ^ w = 2 * 2 ^ (w - 1) := by
  obtain ⟨k, rfl⟩ : ∃ k, w = k + 1 := ⟨w - 1, by omega⟩
  simp [pow_succ, Nat.mul_comm]

theorem toSigned_of_lt (w x : Nat) (hx : x < 2 ^ w) :
    toSigned w x = if 2 * x < 2 ^ w then (x : Int) else (x : Int) - 2 ^ w := by
  unfold toSigned
  rw [Nat.mod_eq_of_lt hx]

theorem toSigned_range (w x : Nat) (hw : 1 ≤ w) (hx : x < 2 ^ w) :
    -(2 ^ (w - 1) : Nat) ≤ toSigned w x ∧ toSigned w x < (2 ^ (w - 1) : Nat) := by
  rw [toSigned_of_lt w x hx]
  have h2 := two_pow_half w hw
  have hc : ((2 : Int) ^ w) = ((2 ^ w : Nat) : Int) := by push_cast; rfl
  rw [hc]
  generalize 2 ^ w = M at *
  generalize 2 ^ (w - 1) = H at *
  split <;> omega

theorem add_eval_signed (w x a : Nat) (hw : 1 ≤ w) (hx : x < 2 ^ w) (ha : a < 2 ^ w)
    (h : toSigned w x + a < (2 ^ (w - 1) : Nat)) :
    toSigned w (BinaryOps.Add.eval w x a) = toSigned w x + a := by
  have hlt : (x + a) % 2 ^ w < 2 ^ w := Nat.mod_lt _ (Nat.two_pow_pos w)
  show toSigned w ((x + a) % 2 ^ w) = _
  rw [toSigned_of_lt w _ hlt]
  rw [toSigned_of_lt w x hx] at h ⊢
  have h2 := two_pow_half w hw
  have hc : ((2 : Int) ^ w) = ((2 ^ w : Nat) : Int) := by push_cast; rfl
  rw [hc] at h ⊢
  by_cases hs : x + a < 2 ^ w
  · rw [Nat.mod_eq_of_lt hs]
    generalize 2 ^ w = M at *
    generalize 2 ^ (w - 1) = H at *
    push_cast
    split at h <;> split <;> omega
  · have hm : (x + a) % 2 ^ w = x + a - 2 ^ w := by
      rw [Nat.mod_eq_sub_mod (by omega)]
      exact Nat.mod_eq_of_lt (by omega)
    rw [hm]
    generalize 2 ^ w = M at *
    generalize 2 ^ (w - 1) = H at *
    split at h <;> split <;> omega

theorem add_eval_add (w x a b : Nat) :
    BinaryOps.Add.eval w (BinaryOps.Add.eval w x a) b = BinaryOps.Add.eval w x (a + b) := by
  show ((x + a) % 2 ^ w + b) % 2 ^ w = (x + (a + b)) % 2 ^ w
  rw [Nat.mod_add_mod, Nat.add_assoc]

theorem add_eval_zero (w x : Nat) (hx : x < 2 ^ w) : BinaryOps.Add.eval w x 0 = x := by
  show (x + 0) % 2 ^ w = x
  rw [Nat.add_zero, Nat.mod_eq_of_lt hx]

theorem stepsFrom_succ (w x s k : Nat) (hx : x < 2 ^ w) :
    stepsFrom w x s (k + 1) = x :: stepsFrom w (BinaryOps.Add.eval w x s) s k := by
  unfold stepsFrom
  rw [List.range_succ_eq_map, List.map_cons, List.map_map]
  congr 1
  · rw [Nat.zero_mul, add_eval_zero w x hx]
  · apply List.map_congr_left
    intro i _
    show BinaryOps.Add.eval w x ((i + 1) * s) = _
    rw [add_eval_add]
    congr 1
    ring

theorem stepsFrom_add (w x s a b : Nat) :
    stepsFrom w x s (a + b) = stepsFrom w x s a ++ stepsFrom w (BinaryOps.Add.eval w x (a * s)) s b := by
  unfold stepsFrom
  rw [List.range_add, List.map_append, List.map_map]
  congr 1
  apply List.map_congr_left
  intro i _
  show BinaryOps.Add.eval w x ((a + i) * s) = _
  rw [add_eval_add]
  congr 1
  ring

theorem stepsFrom_length (w x s k : Nat) : (stepsFrom w x s k).length = k := by
  simp [stepsFrom]


theorem ceil_div_spec (D s : Nat) (hs : 1 ≤ s) (hD : 1 ≤ D) :
    ((D + s - 1) / s - 1) * s < D ∧ D ≤ ((D + s - 1) / s) * s ∧ 1 ≤ (D + s - 1) / s := by
  have h1 := Nat.div_add_mod (D + s - 1) s
  have h2 := Nat.mod_lt (D + s - 1) hs
  have h3 : 1 ≤ (D + s - 1) / s := by
    apply (Nat.one_le_div_iff hs).2; omega
  refine ⟨?_, ?_, h3⟩
  · have : ((D + s - 1) / s - 1) * s = s * ((D + s - 1) / s) - s := by
      rw [Nat.sub_mul, Nat.mul_comm]; simp
    rw [this]; omega
  · rw [Nat.mul_comm]; omega

theorem countUp_closed (w s bound : Nat) (hw : 1 ≤ w) :
    ∀ K x, 1 ≤ K → x < 2 ^ w → K * s < 2 ^ w →
      toSigned w x + ((K * s : Nat) : Int) < ((2 ^ (w - 1) : Nat) : Int) →
      (∀ i, 1 ≤ i → i < K → toSigned w x + ((i * s : Nat) : Int) < toSigned w bound) →
      ¬ (toSigned w x + ((K * s : Nat) : Int) < toSigned w bound) →
      ∀ n, K ≤ n → countUp w s bound n x = some (stepsFrom w x s K) := by
  intro K
  induction K with
  | zero => intro x h; omega
  | succ K ih =>
    intro x _ hx hKs hov hlt hge n hn
    obtain ⟨m, rfl⟩ : ∃ m, n = m + 1 := ⟨n - 1, by omega⟩
    have hmul : (K + 1) * s = K * s + s := Nat.succ_mul K s
    have hs : s < 2 ^ w := by omega
    have hsig : toSigned w (BinaryOps.Add.eval w x s) = toSigned w x + (s : Int) := by
      apply add_eval_signed w x s hw hx hs
      rw [hmul, Nat.cast_add] at hov
      have : (0 : Int) ≤ ((K * s : Nat) : Int) := Int.ofNat_nonneg _
      omega
    rw [stepsFrom_succ w x s K hx]
    simp only [countUp, Predicate.eval, hsig]
    by_cases hK : K = 0
    · subst hK
      simp only [Nat.zero_add, Nat.one_mul] at hge
      simp [hge, stepsFrom]
    · have h1 := hlt 1 (Nat.le_refl 1) (by omega)
      rw [Nat.one_mul] at h1
      simp only [h1, decide_True, if_true]
      rw [ih (BinaryOps.Add.eval w x s) (by omega) (add_eval_lt w x s) (by omega)
        (by rw [hsig]; rw [hmul, Nat.cast_add] at hov; omega)
        (by
          intro i hi1 hiK
          have := hlt (i + 1) (by omega) (by omega)
          rw [Nat.succ_mul, Nat.cast_add] at this
          rw [hsig]; omega)
        (by rw [hsig]; rw [hmul, Nat.cast_add] at hge; omega)
        m (by omega)]
      rfl


theorem smin_eval_signed (w a b : Nat) (ha : a < 2 ^ w) (hb : b < 2 ^ w) :
    IntrinsicID.smin.eval w a b = (if toSigned w a ≤ toSigned w b then a else b) := by
  simp only [IntrinsicID.eval, Nat.mod_eq_of_lt ha, Nat.mod_eq_of_lt hb]

theorem countUpTiles_closed (w s f hi q : Nat) (hw : 1 ≤ w) (hs : 1 ≤ s) (hq : f = q * s)
    (hf : 1 ≤ f) (hhi : hi < 2 ^ w)
    (hov : toSigned w hi + (f : Int) < ((2 ^ (w - 1) : Nat) : Int)) :
    ∀ d x, x < 2 ^ w → toSigned w x < toSigned w hi →
      (toSigned w hi - toSigned w x).toNat ≤ d →
      ∃ tiles : List (List Nat),
        (∀ n, (toSigned w hi - toSigned w x).toNat + 1 ≤ n →
          countUpTiles w s f hi n x = some tiles) ∧
        tiles.flatten = stepsFrom w x s (((toSigned w hi - toSigned w x).toNat + s - 1) / s) ∧
        tiles.length = ((toSigned w hi - toSigned w x).toNat + f - 1) / f ∧
        (∀ t ∈ tiles, 1 ≤ t.length ∧ t.length ≤ q) ∧
        (∀ t ∈ tiles.dropLast, t.length = q) := by
  have hq1 : 1 ≤ q := by
    rcases Nat.eq_zero_or_pos q with h | h
    · subst h; omega
    · exact h
  have hqf : q ≤ f := by rw [hq]; exact Nat.le_mul_of_pos_right _ hs
  have hsf : s ≤ f := by rw [hq]; exact Nat.le_mul_of_pos_left _ hq1
  have h2 := two_pow_half w hw
  have hrhi := toSigned_range w hi hw hhi
  have hfM : f < 2 ^ w := by omega
  intro d
  induction d with
  | zero => intro x _ hlt hd; omega
  | succ d ih =>
    intro x hx hlt hd
    have hrx := toSigned_range w x hw hx
    have hx1 : BinaryOps.Add.eval w x f < 2 ^ w := add_eval_lt w x f
    have hsig : toSigned w (BinaryOps.Add.eval w x f) = toSigned w x + (f : Int) :=
      add_eval_signed w x f hw hx hfM (by omega)
    generalize hD : (toSigned w hi - toSigned w x).toNat = D at hd ⊢
    have hDeq : (D : Int) = toSigned w hi - toSigned w x := by omega
    have hD1 : 1 ≤ D := by omega
    by_cases hA : toSigned w x + (f : Int) < toSigned w hi
    · -- a full tile, and more tiles after it
      have hb : IntrinsicID.smin.eval w (BinaryOps.Add.eval w x f) hi = BinaryOps.Add.eval w x f := by
        rw [smin_eval_signed w _ _ hx1 hhi, if_pos (by rw [hsig]; omega)]
      have hD2 : (toSigned w hi - toSigned w (BinaryOps.Add.eval w x f)).toNat = D - f := by
        rw [hsig]; omega
      obtain ⟨tiles, hrun, hjoin, hlen, hall, hdrop⟩ :=
        ih (BinaryOps.Add.eval w x f) hx1 (by rw [hsig]; exact hA) (by rw [hD2]; omega)
      rw [hD2] at hrun hjoin hlen
      have htile : ∀ n, q ≤ n →
          countUp w s (BinaryOps.Add.eval w x f) n x = some (stepsFrom w x s q) := by
        apply countUp_closed w s _ hw q x hq1 hx (by rw [← hq]; exact hfM)
        · rw [← hq]; omega
        · intro i _ hiq
          have : i * s < q * s := Nat.mul_lt_mul_of_pos_right hiq hs
          rw [hsig, ← hq] at *
          omega
        · rw [hsig, ← hq]; omega
      have hlen1 : 1 ≤ tiles.length := by
        rw [hlen]
        apply (Nat.one_le_div_iff hf).2; omega
      refine ⟨stepsFrom w x s q :: tiles, ?_, ?_, ?_, ?_, ?_⟩
      · intro n hn
        obtain ⟨m, rfl⟩ : ∃ m, n = m + 1 := ⟨n - 1, by omega⟩
        have hc : Predicate.ICMP_SLT.eval w x hi = true := by
          simp only [Predicate.eval, decide_eq_true_eq]; exact hlt
        simp only [countUpTiles, hc, if_true, hb]
        rw [htile (m + 1) (by omega), hrun m (by omega)]
      · rw [List.flatten_cons, hjoin]
        have hK : (D + s - 1) / s = q + (D - f + s - 1) / s := by
          have : D + s - 1 = (D - f + s - 1) + q * s := by rw [← hq]; omega
          rw [this, Nat.add_mul_div_right _ _ hs, Nat.add_comm]
        rw [hK, stepsFrom_add, ← hq]
      · rw [List.length_cons, hlen]
        have : D + f - 1 = (D - f + f - 1) + f := by omega
        rw [this, Nat.add_div_right _ hf]
      · intro t ht
        rcases List.mem_cons.1 ht with h | h
        · subst h; rw [stepsFrom_length]; omega
        · exact hall t h
      · intro t ht
        have hne : tiles ≠ [] := by
          intro h; rw [h] at hlen1; simp at hlen1
        rw [List.dropLast_cons_of_ne_nil hne] at ht
        rcases List.mem_cons.1 ht with h | h
        · subst h; exact stepsFrom_length w x s q
        · exact hdrop t h
    · -- the last tile
      have hb : toSigned w (IntrinsicID.smin.eval w (BinaryOps.Add.eval w x f) hi) =
          toSigned w hi := by
        rw [smin_eval_signed w _ _ hx1 hhi]
        split
        · rw [hsig] at *; omega
        · rfl
      obtain ⟨hc1, hc2, hc3⟩ := ceil_div_spec D s hs hD1
      generalize hKdef : (D + s - 1) / s = K at hc1 hc2 hc3 ⊢
      have hsub : (K - 1) * s + s = K * s := by
        rw [← Nat.succ_mul]; congr 1; omega
      have htile : ∀ n, K ≤ n →
          countUp w s (IntrinsicID.smin.eval w (BinaryOps.Add.eval w x f) hi) n x =
            some (stepsFrom w x s K) := by
        apply countUp_closed w s _ hw K x hc3 hx (by omega)
        · omega
        · intro i _ hiK
          have : i * s ≤ (K - 1) * s := Nat.mul_le_mul_right s (by omega)
          rw [hb]; omega
        · rw [hb]; omega
      have hKD : K ≤ D := by
        have : K - 1 ≤ (K - 1) * s := Nat.le_mul_of_pos_right _ hs
        omega
      have hKq : K ≤ q := by
        have : (K - 1) * s < q * s := by rw [← hq]; omega
        have := Nat.lt_of_mul_lt_mul_right this
        omega
      refine ⟨[stepsFrom w x s K], ?_, ?_, ?_, ?_, ?_⟩
      · intro n hn
        obtain ⟨m, rfl⟩ : ∃ m, n = m + 1 := ⟨n - 1, by omega⟩
        obtain ⟨k, rfl⟩ : ∃ k, m = k + 1 := ⟨m - 1, by omega⟩
        have hc : Predicate.ICMP_SLT.eval w x hi = true := by
          simp only [Predicate.eval, decide_eq_true_eq]; exact hlt
        have hc2 : Predicate.ICMP_SLT.eval w (BinaryOps.Add.eval w x f) hi = false := by
          simp only [Predicate.eval, decide_eq_false_iff_not, hsig]; exact hA
        simp only [countUpTiles, hc, if_true]
        rw [htile (k + 1 + 1) (by omega)]
        simp [hc2]
      · simp
      · simp only [List.length_singleton]
        symm
        apply Nat.div_eq_of_lt_le <;> omega
      · intro t ht
        rw [List.mem_singleton] at ht
        subst ht; rw [stepsFrom_length]; exact ⟨hc3, hKq⟩
      · intro t ht; simp at ht


theorem slt_eval_mod (w a b : Nat) :
    Predicate.ICMP_SLT.eval w (a % 2 ^ w) b = Predicate.ICMP_SLT.eval w a b := by
  simp only [Predicate.eval, toSigned_mod]

theorem add_eval_mod_mod (w a b : Nat) :
    BinaryOps.Add.eval w (a % 2 ^ w) (b % 2 ^ w % 2 ^ w) = BinaryOps.Add.eval w a b := by
  rw [Nat.mod_mod, add_eval_mod]

theorem countsUp_original {st : State} {T : LoopId} {B : LoopBounds} {loc : Locals} {w s : Nat}
    {hdr ex : BlockId} {cmp : InstId} (cu : CountsUp st T B loc w s hdr ex cmp)
    (env : Env) (lo hi : Nat)
    (hlo : evalValue st.F w env 0 B.InitialIVValue = some lo)
    (hhi : evalValue st.F w env 0 B.FinalIVValue = some hi) :
    ∀ n, runLoopFromPreheader st.F w env loc.parts.TargetPreheader hdr loc.parts.TargetLatch
      loc.parts.TargetIv n = countUp w s hi n lo := by
  obtain ⟨inc, hphi⟩ := cu.phi
  have hstep : ∀ j d, evalValue st.F w (env.set loc.parts.TargetIv j) (d + 2)
      (.Instruction B.StepInst) = some (BinaryOps.Add.eval w j s) := by
    intro j d
    rw [evalValue_binop cu.step (evalValue_phi hphi d) (evalValue_const _ _ _ _ _ _)]
    simp only [Env.set, if_true]
    rw [add_eval_mod]
  have hbt : ∀ j, st.F.branchTarget w (env.set loc.parts.TargetIv j) loc.parts.TargetLatch =
      some (if Predicate.ICMP_SLT.eval w (BinaryOps.Add.eval w j s) hi then hdr else ex) := by
    intro j
    have hev : evalValue st.F w (env.set loc.parts.TargetIv j) evalDepth (.Instruction cmp) =
        some (if Predicate.ICMP_SLT.eval w (BinaryOps.Add.eval w j s) hi then 1 else 0) :=
      evalValue_icmp cu.test (hstep j 5) (evalValue_leaf hhi _ _ 7)
    simp only [Function.branchTarget, cu.latch, hev]
    by_cases hp : Predicate.ICMP_SLT.eval w (BinaryOps.Add.eval w j s) hi = true
    · simp [hp]
    · simp [hp]
  intro n
  unfold runLoopFromPreheader
  simp only [cu.start, evalValue_leaf hlo st.F env.reg evalDepth]
  exact runLoop_eq_countUp hbt cu.leaves cu.next (fun j => hstep j 6) n lo


theorem countsUp_tiled {SE : ScalarEvolution} {st st' : State} {T O : LoopId} {B : LoopBounds}
    {I : BlockingInfo} {loc : Locals} {w s : Nat} {hdr ex : BlockId} {cmp : InstId}
    (h : createBlockingLoopLocals SE st T O B I = some (loc, st')) (wf : WellFormed st)
    (cu : CountsUp st T B loc w s hdr ex cmp)
    (env : Env) (lo hi : Nat)
    (hlo : evalValue st.F w env 0 B.InitialIVValue = some lo)
    (hhi : evalValue st.F w env 0 B.FinalIVValue = some hi) :
    ∀ n, runTiledNest st'.F w env (loc.tiledNest hdr) loc.parts.OuterPreheader n =
      countUpTiles w s I.BlockingFactor hi n lo := by
  obtain ⟨inc, hphi⟩ := cu.phi
  obtain ⟨st1, r1, t1, hc, -⟩ := createBlockingLoopLocals_inv h
  obtain ⟨-, -, -, -, -, -, hTL, hTP, -, -, i0, hi0, hty0⟩ := lookupLoopParts_inv hc
  have hty : loc.parts.TargetIvType = w := by
    rw [hphi] at hi0
    cases hi0
    exact hty0
  obtain ⟨t2, cnd, tt, ff, ⟨hNH, hNL, hNP⟩, ⟨hi1, hi2, hi3, hj1, hj2, hj3⟩, hbf, hbo,
    ⟨hTLlt, hOElt, hOHlt, hOXlt, hOP0, hOP1, hOP2, hOPOE, hOPTL⟩, hOld, ht2, hT, hterm, hinst⟩ :=
    createBlockingLoopLocals_spec h wf
  rw [cu.direction] at hbo
  have hop : loc.tile.BoundOp = .Add := by
    simp only [boundOp, Option.some.injEq] at hbo
    exact hbo.symm
  rw [cu.oldCmp] at hOld hinst
  rw [cu.latchPred, cu.oldOperand, cu.minimum, hop, cu.headerPred, hbf, hty] at hinst
  rw [if_neg cu.ownLatch, cu.latch] at hT
  simp only [Option.some.injEq, Terminator.CondBr.injEq] at hT
  obtain ⟨-, htt, hff⟩ := hT
  subst htt
  subst hff
  -- the instructions of the old loop are below the fresh ones
  have hIvlt : loc.parts.TargetIv < st.F.nextInst := wf.insts _ (by rw [hphi]; simp)
  have hStlt : B.StepInst < st.F.nextInst := wf.insts _ (by rw [cu.step]; simp)
  have hIvCmp : loc.parts.TargetIv ≠ cmp := by
    intro e; rw [e, cu.test] at hphi; cases hphi
  have hStCmp : B.StepInst ≠ cmp := by
    intro e; have := cu.step; rw [e, cu.test] at this; cases this
  have hStIv : B.StepInst ≠ loc.parts.TargetIv := by
    intro e; have := cu.step; rw [e, hphi] at this; cases this
  have hn : ∀ k, st.F.nextInst + k ≠ cmp := fun k => (ne_of_lt_add _ _ k hOld).symm
  have hn0 : st.F.nextInst ≠ cmp := (Nat.ne_of_lt hOld).symm
  have hIvn : ∀ k, loc.parts.TargetIv ≠ st.F.nextInst + k := fun k => ne_of_lt_add _ _ k hIvlt
  have hStn : ∀ k, B.StepInst ≠ st.F.nextInst + k := fun k => ne_of_lt_add _ _ k hStlt
  -- the instructions after the run
  have e5 : st'.F.inst (st.F.nextInst + 5) =
      some (.ICmpInst .ICMP_SLT (.Instruction B.StepInst) (.Instruction (st.F.nextInst + 4))) := by
    rw [hinst]; simp [hn 5]
  have e4 : st'.F.inst (st.F.nextInst + 4) =
      some (.CallInst .smin w [.Instruction (st.F.nextInst + 3), B.FinalIVValue]) := by
    rw [hinst]; simp [hn 4]
  have e3 : st'.F.inst (st.F.nextInst + 3) =
      some (.BinaryOperator .Add w (.Instruction st.F.nextInst)
        (.ConstantInt w (I.BlockingFactor % 2 ^ w))) := by
    rw [hinst]; simp [hn 3]
  have e0 : st'.F.inst st.F.nextInst =
      some (.PHINode w [(B.InitialIVValue, loc.parts.OuterPreheader),
             (.Instruction (st.F.nextInst + 1), st.F.nextBlock + 1)]) := by
    rw [hinst]; simp [hn0]
  have e1 : st'.F.inst (st.F.nextInst + 1) =
      some (.BinaryOperator .Add w (.Instruction st.F.nextInst)
        (.ConstantInt w (I.BlockingFactor % 2 ^ w))) := by
    rw [hinst]; simp [hn 1]
  have eIv : st'.F.inst loc.parts.TargetIv =
      (st.F.inst loc.parts.TargetIv).map
        (fun i => i.setIncomingValueForBlock loc.parts.TargetPreheader
          (.Instruction st.F.nextInst)) := by
    rw [hinst]
    simp [hIvCmp, hIvn 5, hIvn 4, hIvn 3, hIvn 2, hIvn 1, Nat.ne_of_lt hIvlt, cu.ownHeader]
  have eIv' : ∃ inc', st'.F.inst loc.parts.TargetIv = some (.PHINode w inc') := by
    rw [eIv, hphi]
    exact ⟨_, rfl⟩
  obtain ⟨inc', hphi'⟩ := eIv'
  have eSt : st'.F.inst B.StepInst =
      some (.BinaryOperator .Add w (.Instruction loc.parts.TargetIv) (.ConstantInt w s)) := by
    rw [hinst]
    simp only [hStCmp, hStn 5, hStn 4, hStn 3, hStn 2, hStn 1, Nat.ne_of_lt hStlt, hStIv, if_false]
    split
    · rw [cu.step]; rfl
    · exact cu.step
  -- the latch of the target is not its preheader
  obtain ⟨-, hpc⟩ := getLoopPreheader_spec hTP cu.header
  have hLP : loc.parts.TargetLatch ≠ loc.parts.TargetPreheader := by
    intro e
    rw [← e, getLoopLatch_contains hTL] at hpc
    cases hpc
  have inc0 : st'.F.incomingValue loc.parts.TargetIv loc.parts.TargetPreheader =
      some (.Instruction st.F.nextInst) := by
    rw [incomingValue_setIncoming eIv cu.start, if_pos rfl]
  have inc1 : st'.F.incomingValue loc.parts.TargetIv loc.parts.TargetLatch =
      some (.Instruction B.StepInst) := by
    rw [incomingValue_setIncoming eIv cu.next, if_neg hLP]
  have incB0 : st'.F.incomingValue st.F.nextInst loc.parts.OuterPreheader =
      some B.InitialIVValue := by
    simp [Function.incomingValue, e0]
  have incB1 : st'.F.incomingValue st.F.nextInst (st.F.nextBlock + 1) =
      some (.Instruction (st.F.nextInst + 1)) := by
    simp [Function.incomingValue, e0, hOP1]
  -- values
  have vstep : ∀ x j d, evalValue st'.F w ((env.set st.F.nextInst x).set loc.parts.TargetIv j)
      (d + 2) (.Instruction B.StepInst) = some (BinaryOps.Add.eval w j s) := by
    intro x j d
    rw [evalValue_binop eSt (evalValue_phi hphi' d) (evalValue_const _ _ _ _ _ _)]
    simp only [Env.set, if_true]
    rw [add_eval_mod]
  have vbound : ∀ x j d, evalValue st'.F w ((env.set st.F.nextInst x).set loc.parts.TargetIv j)
      (d + 2) (.Instruction (st.F.nextInst + 3)) =
        some (BinaryOps.Add.eval w x I.BlockingFactor) := by
    intro x j d
    rw [evalValue_binop e3 (evalValue_phi e0 d) (evalValue_const _ _ _ _ _ _)]
    simp only [Env.set, if_true, Nat.ne_of_gt hIvlt, if_false]
    rw [add_eval_mod_mod]
  have vupd : ∀ x d, evalValue st'.F w (env.set st.F.nextInst x)
      (d + 2) (.Instruction (st.F.nextInst + 1)) =
        some (BinaryOps.Add.eval w x I.BlockingFactor) := by
    intro x d
    rw [evalValue_binop e1 (evalValue_phi e0 d) (evalValue_const _ _ _ _ _ _)]
    simp only [Env.set, if_true]
    rw [add_eval_mod_mod]
  have vmin : ∀ x j d, evalValue st'.F w ((env.set st.F.nextInst x).set loc.parts.TargetIv j)
      (d + 3) (.Instruction (st.F.nextInst + 4)) =
        some (IntrinsicID.smin.eval w (BinaryOps.Add.eval w x I.BlockingFactor) hi) :=
    fun x j d => evalValue_call e4 (vbound x j d) (evalValue_leaf hhi _ _ _)
  have hterm5 : st'.F.term loc.parts.TargetLatch =
      some (.CondBr (.Instruction (st.F.nextInst + 5)) hdr ex) := by
    rw [hterm]; simp
  have hT : ∀ x n j, runLoop st'.F w (env.set st.F.nextInst x) hdr loc.parts.TargetLatch
      loc.parts.TargetIv n j =
        countUp w s (IntrinsicID.smin.eval w (BinaryOps.Add.eval w x I.BlockingFactor) hi) n j := by
    intro x
    apply runLoop_eq_countUp _ cu.leaves inc1 (fun j => vstep x j 6)
    intro j
    have hev : evalValue st'.F w ((env.set st.F.nextInst x).set loc.parts.TargetIv j) evalDepth
        (.Instruction (st.F.nextInst + 5)) =
        some (if Predicate.ICMP_SLT.eval w (BinaryOps.Add.eval w j s)
          (IntrinsicID.smin.eval w (BinaryOps.Add.eval w x I.BlockingFactor) hi) then 1 else 0) :=
      evalValue_icmp e5 (vstep x j 5) (vmin x j 4)
    simp only [Function.branchTarget, hterm5, hev]
    by_cases hp : Predicate.ICMP_SLT.eval w (BinaryOps.Add.eval w j s)
        (IntrinsicID.smin.eval w (BinaryOps.Add.eval w x I.BlockingFactor) hi) = true
    · simp [hp]
    · simp [hp]
  -- the header of the blocking loop
  have hbt : ∀ x, st'.F.branchTarget w (env.set st.F.nextInst x) st.F.nextBlock =
      some (if Predicate.ICMP_SLT.eval w x hi then st.F.nextBlock + 2 else loc.parts.OuterExit) := by
    intro x
    obtain ⟨-, -, -, hb, -⟩ := createBlockingLoop_header_test_aux SE st T O B I loc st' w
      (env.set st.F.nextInst x) hi h wf (evalValue_leaf hhi _ _ _)
    rw [hNH, hNP, hi1, cu.headerPred] at hb
    rw [hb]
    simp only [Env.set, if_true, slt_eval_mod]
  have hne : st.F.nextBlock + 2 ≠ loc.parts.OuterExit := (ne_of_lt_add _ _ 2 hOXlt).symm
  intro n
  unfold runTiledNest
  simp only [Locals.tiledNest, hi1, hNH, hNL]
  simp only [incB0, evalValue_leaf hlo st'.F env.reg evalDepth]
  have hv0 : ∀ x, evalValue st'.F w (env.set st.F.nextInst x) evalDepth
      (.Instruction st.F.nextInst) = some (x % 2 ^ w) := by
    intro x
    rw [show evalDepth = 7 + 1 from rfl, evalValue_phi e0 7]
    simp [Env.set]
  exact runTiles_eq_countUpTiles hbt hne hT inc0 hv0 incB1 (fun x => vupd x 6) n lo
    (evalValue_leaf_lt hlo)


theorem countUp_whole (w s lo hi : Nat) (hw : 1 ≤ w) (hs : 1 ≤ s) (hlo : lo < 2 ^ w)
    (hhi : hi < 2 ^ w) (hlt : toSigned w lo < toSigned w hi)
    (hov : toSigned w hi + (s : Int) < ((2 ^ (w - 1) : Nat) : Int)) :
    ∀ n, (toSigned w hi - toSigned w lo).toNat + 1 ≤ n →
      countUp w s hi n lo =
        some (stepsFrom w lo s (((toSigned w hi - toSigned w lo).toNat + s - 1) / s)) := by
  have h2 := two_pow_half w hw
  have hrhi := toSigned_range w hi hw hhi
  have hrx := toSigned_range w lo hw hlo
  generalize hD : (toSigned w hi - toSigned w lo).toNat = D
  have hDeq : (D : Int) = toSigned w hi - toSigned w lo := by omega
  have hD1 : 1 ≤ D := by omega
  obtain ⟨hc1, hc2, hc3⟩ := ceil_div_spec D s hs hD1
  generalize hKdef : (D + s - 1) / s = K at hc1 hc2 hc3 ⊢
  have hsub : (K - 1) * s + s = K * s := by
    rw [← Nat.succ_mul]; congr 1; omega
  have hKD : K ≤ D := by
    have : K - 1 ≤ (K - 1) * s := Nat.le_mul_of_pos_right _ hs
    omega
  intro n hn
  apply countUp_closed w s _ hw K lo hc3 hlo (by omega) _ _ _ n (by omega)
  · omega
  · intro i _ hiK
    have : i * s ≤ (K - 1) * s := Nat.mul_le_mul_right s (by omega)
    omega
  · omega

/-- C1 (amended). Let the target count up with a signed test
(`do { body(j); j += s } while (j slt hi)` from `lo`, bounds that are constants
or arguments, on integers of width `w`), let the step `s ≥ 1` divide the
blocking factor `f ≥ 1`, let `lo < hi` and `hi + f < 2^(w-1)` in the signed
reading.  Then, with enough fuel, the nest rewritten by `createBlockingLoop`
runs in tiles whose concatenation is the sequence of induction values on which
the original loop ran; the number of tiles is `ceil((hi - lo) / f)`; every tile
has between 1 and `f / s` iterations and every tile but the last has `f / s`. -/
theorem createBlockingLoop_tiles_partition (SE : ScalarEvolution) (st st' : State)
    (T O : LoopId) (B : LoopBounds) (I : BlockingInfo) (loc : Locals) (w s q : Nat)
    (hdr ex : BlockId) (cmp : InstId) (env : Env) (lo hi : Nat)
    (h : createBlockingLoopLocals SE st T O B I = some (loc, st')) (wf : WellFormed st)
    (cu : CountsUp st T B loc w s hdr ex cmp)
    (hlo : evalValue st.F w env 0 B.InitialIVValue = some lo)
    (hhi : evalValue st.F w env 0 B.FinalIVValue = some hi)
    (hw : 1 ≤ w) (hs : 1 ≤ s) (hf : 1 ≤ I.BlockingFactor) (hq : I.BlockingFactor = q * s)
    (hlt : toSigned w lo < toSigned w hi)
    (hov : toSigned w hi + (I.BlockingFactor : Int) < ((2 ^ (w - 1) : Nat) : Int)) :
    ∃ tiles : List (List Nat),
      (∀ n, (toSigned w hi - toSigned w lo).toNat + 1 ≤ n →
        runTiledNest st'.F w env (loc.tiledNest hdr) loc.parts.OuterPreheader n = some tiles ∧
        runLoopFromPreheader st.F w env loc.parts.TargetPreheader hdr loc.parts.TargetLatch
          loc.parts.TargetIv n = some tiles.flatten) ∧
      tiles.length =
        ((toSigned w hi - toSigned w lo).toNat + I.BlockingFactor - 1) / I.BlockingFactor ∧
      (∀ t ∈ tiles, 1 ≤ t.length ∧ t.length ≤ q) ∧
      (∀ t ∈ tiles.dropLast, t.length = q) := by
  have hlo' := evalValue_leaf_lt hlo
  have hhi' := evalValue_leaf_lt hhi
  have hq1 : 1 ≤ q := by
    rcases Nat.eq_zero_or_pos q with h0 | h0
    · subst h0; omega
    · exact h0
  have hsf : s ≤ I.BlockingFactor := by rw [hq]; exact Nat.le_mul_of_pos_left _ hq1
  obtain ⟨tiles, hrun, hjoin, hlen, hall, hdrop⟩ :=
    countUpTiles_closed w s I.BlockingFactor hi q hw hs hq hf hhi' hov _ lo hlo' hlt (Nat.le_refl _)
  refine ⟨tiles, ?_, hlen, hall, hdrop⟩
  intro n hn
  refine ⟨?_, ?_⟩
  · rw [countsUp_tiled h wf cu env lo hi hlo hhi n]
    exact hrun n hn
  · rw [countsUp_original cu env lo hi hlo hhi n, hjoin]
    exact countUp_whole w s lo hi hw hs hlo' hhi' hlt (by omega) n hn

/-- C1 (amended), on the two-level example nest `for (j = 0; j < 10; j += 1)`
with blocking factor 4: three tiles. -/
theorem createBlockingLoop_tiles_partition_witness :
    ∃ loc st', createBlockingLoopLocals simpleSE (nest2 shapeUp) 1 0 boundsUp
        { BlockingFactor := 4 } = some (loc, st') ∧
      ∃ tiles : List (List Nat),
        (∀ n, (toSigned 8 10 - toSigned 8 0).toNat + 1 ≤ n →
          runTiledNest st'.F 8 Env.zero (loc.tiledNest 4) loc.parts.OuterPreheader n = some tiles ∧
          runLoopFromPreheader (nest2 shapeUp).F 8 Env.zero loc.parts.TargetPreheader 4
            loc.parts.TargetLatch loc.parts.TargetIv n = some tiles.flatten) ∧
        tiles.length = ((toSigned 8 10 - toSigned 8 0).toNat + 4 - 1) / 4 ∧
        (∀ t ∈ tiles, 1 ≤ t.length ∧ t.length ≤ 4) ∧
        (∀ t ∈ tiles.dropLast, t.length = 4) := by
  have hloc : (createBlockingLoopLocals simpleSE (nest2 shapeUp) 1 0 boundsUp
      { BlockingFactor := 4 }).map (fun r => r.1) =
      some { parts := { OuterHeader := 2, OuterPreheader := 1, OuterLatch := 5, OuterExit := 6,
                        TargetLatch := 4, TargetPreheader := 3, OuterExiting := 5, TargetIv := 1,
                        TargetIvType := 8 },
             blocks := { NL := 2, NewHeader := 7, NewLatch := 8, NewOuterPreheader := 9 },
             values := { NewIV := 7, BlockingFactor := .ConstantInt 8 4, UpdateIVInst := 8,
                         CanonicalPredicate := .ICMP_SLT, NewHeaderExitCond := 9 },
             tile := { BoundOp := .Add, BoundValue := 10, IntrFuncMinID := .smin,
                       MinIntrCall := 11, OldLatchCompInst := 3, OldOperand0 := .Instruction 2,
                       CanonicalPredicate := .ICMP_SLT, BlockBoundCond := 12 } } := by
    decide
  cases hr : createBlockingLoopLocals simpleSE (nest2 shapeUp) 1 0 boundsUp
      { BlockingFactor := 4 } with
  | none => exact absurd (congrArg Option.isSome hr) (by decide)
  | some r =>
    rw [hr] at hloc
    simp only [Option.map_some', Option.some.injEq] at hloc
    have cu : CountsUp (nest2 shapeUp) 1 boundsUp r.1 8 1 4 5 3 := by
      rw [hloc]
      exact
        { header := by decide, latch := by decide, leaves := by decide, test := by decide,
          step := by decide, phi := ⟨_, rfl⟩, start := by decide, next := by decide,
          ownHeader := by decide, ownLatch := by decide, direction := rfl, headerPred := rfl,
          latchPred := rfl, oldCmp := rfl, oldOperand := rfl, minimum := rfl }
    exact ⟨r.1, r.2, rfl, createBlockingLoop_tiles_partition simpleSE (nest2 shapeUp) r.2 1 0
      boundsUp { BlockingFactor := 4 } r.1 8 1 4 4 5 3 Env.zero 0 10 hr
      (nest2_wellFormed shapeUp) cu rfl rfl (by decide) (by decide) (by decide) (by decide)
      (by decide) (by decide)⟩

/-- C1 as stated fails. On the loop `for (j = 0; j < 6; j += 3)` with blocking
factor 4 the original loop runs its body at 0 and 3.  The rewritten nest runs
the tile that starts at 0 at 0 and 3, and then the tile that starts at 4 at 4:
the body runs three times, at 0, 3 and 4, and 4 is not a value of the original
loop. -/
theorem tiles_differ_when_step_does_not_divide_factor :
    simpleSE.getBounds (nest2 shapeStep3).F (nest2 shapeStep3).LI 1 =
      some { L := 1, InitialIVValue := .ConstantInt 8 0, StepInst := 2,
             FinalIVValue := .ConstantInt 8 6, Direction := .Increasing } ∧
    (blockNest2 shapeStep3 4).map (fun r =>
      (runLoopFromPreheader (nest2 shapeStep3).F 8 Env.zero r.1.parts.TargetPreheader 4
          r.1.parts.TargetLatch r.1.parts.TargetIv 10,
        runTiledNest r.2.F 8 Env.zero (r.1.tiledNest 4) r.1.parts.OuterPreheader 10))
      = some (some [0, 3], some [[0, 3], [4]]) := by
  decide


/-- C18. `dominantBound` is true of every integer constant, floating-point
constant and argument whatever the block, is the answer of
`DominatorTree::dominates(instruction, block)` on an instruction, and is false
on a value of any other kind; `checkBoundaryValuesDominance` is true exactly
when `dominantBound` is true of the final and of the initial value. -/
theorem dominantBound_spec (DT : DominatorTree) (F : Function) (BB : BlockId)
    (Bounds : LoopBounds) :
    (∀ b v, dominantBound DT F (.ConstantInt b v) BB = true) ∧
    (∀ n, dominantBound DT F (.ConstantFP n) BB = true) ∧
    (∀ n, dominantBound DT F (.Argument n) BB = true) ∧
    (∀ i, dominantBound DT F (.Instruction i) BB = DT.dominates F i BB) ∧
    (∀ n, dominantBound DT F (.Other n) BB = false) ∧
    (checkBoundaryValuesDominance F Bounds BB DT = true ↔
      dominantBound DT F Bounds.FinalIVValue BB = true ∧
      dominantBound DT F Bounds.InitialIVValue BB = true) := by
  refine ⟨fun _ _ => rfl, fun _ => rfl, fun _ => rfl, ?_, fun _ => rfl, ?_⟩
  · intro i
    simp [dominantBound]
  · unfold checkBoundaryValuesDominance
    cases dominantBound DT F Bounds.FinalIVValue BB <;>
      cases dominantBound DT F Bounds.InitialIVValue BB <;> simp


theorem collect_inner (opts : Options) (Ns : List (List LoopId))
    (hlen : ∀ N ∈ Ns, N.length < 2 ^ 32) :
    ∀ acc : List BlockingNest,
      Ns.foldl (fun nests N =>
        if N.length % 2 ^ 32 ≥ 2 ∧ N.length % 2 ^ 32 ≤ opts.MaxPerfectNestDepth then
          nests ++ [{ Nest := N }]
        else nests) acc =
      acc ++ (Ns.filter (fun N => decide (2 ≤ N.length ∧ N.length ≤ opts.MaxPerfectNestDepth))).map
        (fun N => { Nest := N }) := by
  induction Ns with
  | nil => intro acc; simp
  | cons N rest ih =>
    intro acc
    have hN : N.length % 2 ^ 32 = N.length := Nat.mod_eq_of_lt (hlen N (List.mem_cons_self _ _))
    rw [List.foldl_cons, ih (fun M hM => hlen M (List.mem_cons_of_mem _ hM)), hN]
    by_cases hc : 2 ≤ N.length ∧ N.length ≤ opts.MaxPerfectNestDepth
    · have hc' : N.length ≥ 2 ∧ N.length ≤ opts.MaxPerfectNestDepth := hc
      simp [List.filter_cons, hc, hc']
    · have hc' : ¬ (N.length ≥ 2 ∧ N.length ≤ opts.MaxPerfectNestDepth) := hc
      simp only [List.filter_cons, hc, hc', if_false, decide_False]
      rfl

theorem collect_outer (opts : Options) (LN : LoopNestAnalysis) (st : State)
    (Ls : List LoopId)
    (hlen : ∀ L ∈ Ls, ∀ N ∈ LN.getPerfectLoops st.F st.LI L, N.length < 2 ^ 32) :
    ∀ acc : List BlockingNest,
      Ls.foldl (fun nests L =>
        (LN.getPerfectLoops st.F st.LI L).foldl (fun nests N =>
          if N.length % 2 ^ 32 ≥ 2 ∧ N.length % 2 ^ 32 ≤ opts.MaxPerfectNestDepth then
            nests ++ [{ Nest := N }]
          else nests) nests) acc =
      acc ++ ((Ls.flatMap (LN.getPerfectLoops st.F st.LI)).filter
        (fun N => decide (2 ≤ N.length ∧ N.length ≤ opts.MaxPerfectNestDepth))).map
        (fun N => { Nest := N }) := by
  induction Ls with
  | nil => intro acc; simp
  | cons L rest ih =>
    intro acc
    rw [List.foldl_cons, collect_inner opts _ (hlen L (List.mem_cons_self _ _)),
      ih (fun M hM => hlen M (List.mem_cons_of_mem _ hM))]
    simp [List.flatMap_cons, List.filter_append, List.append_assoc]

/-- C13. `collectCandidates` returns, in the order of discovery (the loops of
`loopsVector` in order, and for each the sequences of the loop-nest analysis in
order), exactly the perfectly nested sequences whose length `d` has
`2 ≤ d ≤ MaxPerfectNestDepth`, each whole; the default of the maximum is 3.
(A sequence has fewer than `2^32` loops: its depth is read into an `unsigned`.)
The function returns the nests only: it changes no part of the state. -/
theorem collectCandidates_spec (opts : Options) (LN : LoopNestAnalysis) (st : State)
    (loopsVector : List LoopId)
    (hlen : ∀ L ∈ loopsVector, ∀ N ∈ LN.getPerfectLoops st.F st.LI L, N.length < 2 ^ 32) :
    collectCandidates opts LN st loopsVector =
      ((loopsVector.flatMap (LN.getPerfectLoops st.F st.LI)).filter
        (fun N => decide (2 ≤ N.length ∧ N.length ≤ opts.MaxPerfectNestDepth))).map
        (fun N => { Nest := N }) ∧
    (∀ BN, BN ∈ collectCandidates opts LN st loopsVector ↔
      (∃ L ∈ loopsVector, BN.Nest ∈ LN.getPerfectLoops st.F st.LI L) ∧
        2 ≤ BN.Nest.length ∧ BN.Nest.length ≤ opts.MaxPerfectNestDepth) ∧
    Options.default.MaxPerfectNestDepth = 3 := by
  have h := collect_outer opts LN st loopsVector hlen []
  rw [List.nil_append] at h
  have h' : collectCandidates opts LN st loopsVector = _ := h
  refine ⟨h', ?_, rfl⟩
  intro BN
  rw [h']
  simp only [List.mem_map, List.mem_filter, List.mem_flatMap, decide_eq_true_eq]
  constructor
  · rintro ⟨N, ⟨⟨L, hL, hN⟩, hd⟩, rfl⟩
    exact ⟨⟨L, hL, hN⟩, hd⟩
  · rintro ⟨⟨L, hL, hN⟩, hd⟩
    exact ⟨BN.Nest, ⟨⟨L, hL, hN⟩, hd⟩, rfl⟩

/-- C13, on the two example nests: the two sequences `[0, 1]` and `[2, 3]` are
kept, in that order. -/
theorem collectCandidates_spec_witness :
    collectCandidates Options.default simpleLN twoNests [0, 2] =
      ((([0, 2] : List LoopId).flatMap (simpleLN.getPerfectLoops twoNests.F twoNests.LI)).filter
        (fun N => decide (2 ≤ N.length ∧ N.length ≤ Options.default.MaxPerfectNestDepth))).map
        (fun N => { Nest := N }) ∧
    (∀ BN, BN ∈ collectCandidates Options.default simpleLN twoNests [0, 2] ↔
      (∃ L ∈ ([0, 2] : List LoopId), BN.Nest ∈ simpleLN.getPerfectLoops twoNests.F twoNests.LI L) ∧
        2 ≤ BN.Nest.length ∧ BN.Nest.length ≤ Options.default.MaxPerfectNestDepth) ∧
    Options.default.MaxPerfectNestDepth = 3 :=
  collectCandidates_spec Options.default simpleLN twoNests [0, 2] (by decide)


theorem incTransformedLoops_frame (st : State) :
    st.incTransformedLoops.F = st.F ∧ st.incTransformedLoops.LI = st.LI ∧
      st.incTransformedLoops.DT = st.DT :=
  ⟨rfl, rfl, rfl⟩

/-- C19 (defect of the code). On the two example nests `execute` collects the
candidates `[0, 1]` and `[2, 3]`; `transform` returns true on the first and
false on the second (the bounds of loop 3 cannot be computed), and the counter
of transformed loops goes from 0 to 2.  Line 71 tests the value of `Changed`
after `Changed |= transform(N)`, which stays true once a candidate has been
transformed, so the rejected candidate is counted too. -/
theorem execute_counts_rejected_after_transformed :
    collectCandidates Options.default simpleLN twoNests twoNests.LI.TopLevelLoops =
      [{ Nest := [0, 1] }, { Nest := [2, 3] }] ∧
    twoNests.Stats.TransformedLoops = 0 ∧
    (executeTrace Options.default simpleSE simpleLN twoNests).map
      (fun t => (t.1, t.2.1, t.2.2.Stats.TransformedLoops)) = some ([true, false], true, 2) := by
  decide


/-- C20. On integers of width `w`, for a target that counts up with the
canonical predicate `slt`, a blocking factor `f < 2^w` and a final value
with `hi + f ≤ 2^(w-1) - 1`: the constant of the blocking factor is `f`, and at
every tile start `x` at which the header of the blocking loop enters the nest,
the bound of the tile `add NewIV, f` in the preheader of the target and the
update `add NewIV, f` in the latch of the blocking loop have the value `x + f`
in the signed reading: the additions do not wrap. -/
theorem createBlockingLoop_no_wrap (SE : ScalarEvolution) (st st' : State) (T O : LoopId)
    (B : LoopBounds) (I : BlockingInfo) (loc : Locals) (w : Nat) (env : Env) (hi x : Nat)
    (inc : List (Value × BlockId))
    (h : createBlockingLoopLocals SE st T O B I = some (loc, st')) (wf : WellFormed st)
    (hphi : st.F.inst loc.parts.TargetIv = some (.PHINode w inc))
    (hdir : B.Direction = .Increasing)
    (hpred : loc.values.CanonicalPredicate = .ICMP_SLT)
    (hw : 1 ≤ w) (hf : I.BlockingFactor < 2 ^ w)
    (hhi : evalValue st'.F w (env.set loc.values.NewIV x) (evalDepth - 1) B.FinalIVValue = some hi)
    (hov : toSigned w hi + (I.BlockingFactor : Int) ≤ ((2 ^ (w - 1) : Nat) : Int) - 1)
    (hx : x < 2 ^ w)
    (henter : st'.F.branchTarget w (env.set loc.values.NewIV x) loc.blocks.NewHeader =
      some loc.blocks.NewOuterPreheader) :
    loc.values.BlockingFactor = .ConstantInt w I.BlockingFactor ∧
    st'.F.inst loc.tile.BoundValue =
      some (.BinaryOperator .Add w (.Instruction loc.values.NewIV)
        (.ConstantInt w I.BlockingFactor)) ∧
    st'.F.inst loc.values.UpdateIVInst =
      some (.BinaryOperator .Add w (.Instruction loc.values.NewIV)
        (.ConstantInt w I.BlockingFactor)) ∧
    (∃ y, evalValue st'.F w (env.set loc.values.NewIV x) evalDepth
        (.Instruction loc.tile.BoundValue) = some y ∧
      toSigned w y = toSigned w x + (I.BlockingFactor : Int)) ∧
    (∃ y, evalValue st'.F w (env.set loc.values.NewIV x) evalDepth
        (.Instruction loc.values.UpdateIVInst) = some y ∧
      toSigned w y = toSigned w x + (I.BlockingFactor : Int)) := by
  obtain ⟨st1, r1, t1, hc, -⟩ := createBlockingLoopLocals_inv h
  obtain ⟨-, -, -, -, -, -, -, -, -, -, i0, hi0, hty0⟩ := lookupLoopParts_inv hc
  have hty : loc.parts.TargetIvType = w := by
    rw [hphi] at hi0
    cases hi0
    exact hty0
  obtain ⟨t2, cnd, tt, ff, ⟨hNH, hNL, hNP⟩, ⟨hi1, hi2, hi3, hj1, hj2, hj3⟩, hbf, hbo,
    ⟨hTLlt, hOElt, hOHlt, hOXlt, hOP0, hOP1, hOP2, hOPOE, hOPTL⟩, hOld, ht2, hT, hterm, hinst⟩ :=
    createBlockingLoopLocals_spec h wf
  rw [hdir] at hbo
  have hop : loc.tile.BoundOp = .Add := by
    simp only [boundOp, Option.some.injEq] at hbo
    exact hbo.symm
  rw [hty, Nat.mod_eq_of_lt hf] at hbf
  rw [hop, hbf, hty] at hinst
  have hn : ∀ k, st.F.nextInst + k ≠ loc.tile.OldLatchCompInst :=
    fun k => (ne_of_lt_add _ _ k hOld).symm
  have hn0 : st.F.nextInst ≠ loc.tile.OldLatchCompInst := (Nat.ne_of_lt hOld).symm
  have e3 : st'.F.inst (st.F.nextInst + 3) =
      some (.BinaryOperator .Add w (.Instruction st.F.nextInst)
        (.ConstantInt w I.BlockingFactor)) := by
    rw [hinst]; simp [hn 3]
  have e0 : st'.F.inst st.F.nextInst =
      some (.PHINode w [(B.InitialIVValue, loc.parts.OuterPreheader),
             (.Instruction (st.F.nextInst + 1), st.F.nextBlock + 1)]) := by
    rw [hinst]; simp [hn0]
  have e1 : st'.F.inst (st.F.nextInst + 1) =
      some (.BinaryOperator .Add w (.Instruction st.F.nextInst)
        (.ConstantInt w I.BlockingFactor)) := by
    rw [hinst]; simp [hn 1]
  -- the header test has passed: the tile start is below the final value
  obtain ⟨-, -, hne, hb, -⟩ := createBlockingLoop_header_test_aux SE st T O B I loc st' w
    (env.set loc.values.NewIV x) hi h wf hhi
  rw [hb, hpred] at henter
  have hlt : toSigned w x < toSigned w hi := by
    by_cases hp : Predicate.ICMP_SLT.eval w
        ((env.set loc.values.NewIV x).reg loc.values.NewIV % 2 ^ w) hi = true
    · simp only [Env.set, if_true, slt_eval_mod] at hp
      simpa [Predicate.eval] using hp
    · simp only [hp, if_false, Option.some.injEq] at henter
      exact absurd henter.symm hne
  have hsig : toSigned w (BinaryOps.Add.eval w x I.BlockingFactor) =
      toSigned w x + (I.BlockingFactor : Int) :=
    add_eval_signed w x I.BlockingFactor hw hx hf (by omega)
  have hval : ∀ k, st'.F.inst (st.F.nextInst + k) =
      some (.BinaryOperator .Add w (.Instruction st.F.nextInst)
        (.ConstantInt w I.BlockingFactor)) →
      evalValue st'.F w (env.set st.F.nextInst x) evalDepth (.Instruction (st.F.nextInst + k)) =
        some (BinaryOps.Add.eval w x I.BlockingFactor) := by
    intro k hk
    rw [show evalDepth = 6 + 2 from rfl,
      evalValue_binop hk (evalValue_phi e0 6) (evalValue_const _ _ _ _ _ _)]
    simp only [Env.set, if_true]
    rw [add_eval_mod]
  rw [hi1, hi2, hj1]
  exact ⟨hbf, e3, e1, ⟨_, hval 3 e3, hsig⟩, ⟨_, hval 1 e1, hsig⟩⟩

/-- C20, on the two-level example nest `for (j = 0; j < 10; j += 1)` with
blocking factor 4, at the tile start 4. -/
theorem createBlockingLoop_no_wrap_witness :
    ∃ loc st', createBlockingLoopLocals simpleSE (nest2 shapeUp) 1 0 boundsUp
        { BlockingFactor := 4 } = some (loc, st') ∧
      loc.values.BlockingFactor = .ConstantInt 8 4 ∧
      st'.F.inst loc.tile.BoundValue =
        some (.BinaryOperator .Add 8 (.Instruction loc.values.NewIV) (.ConstantInt 8 4)) ∧
      st'.F.inst loc.values.UpdateIVInst =
        some (.BinaryOperator .Add 8 (.Instruction loc.values.NewIV) (.ConstantInt 8 4)) ∧
      (∃ y, evalValue st'.F 8 (Env.zero.set loc.values.NewIV 4) evalDepth
          (.Instruction loc.tile.BoundValue) = some y ∧
        toSigned 8 y = toSigned 8 4 + ((4 : Nat) : Int)) ∧
      (∃ y, evalValue st'.F 8 (Env.zero.set loc.values.NewIV 4) evalDepth
          (.Instruction loc.values.UpdateIVInst) = some y ∧
        toSigned 8 y = toSigned 8 4 + ((4 : Nat) : Int)) := by
  have hloc : (createBlockingLoopLocals simpleSE (nest2 shapeUp) 1 0 boundsUp
      { BlockingFactor := 4 }).map (fun r => (r.1.parts.TargetIv, r.1.values.CanonicalPredicate,
        r.2.F.branchTarget 8 (Env.zero.set r.1.values.NewIV 4) r.1.blocks.NewHeader ==
          some r.1.blocks.NewOuterPreheader)) = some (1, .ICMP_SLT, true) := by
    decide
  cases hr : createBlockingLoopLocals simpleSE (nest2 shapeUp) 1 0 boundsUp
      { BlockingFactor := 4 } with
  | none => exact absurd (congrArg Option.isSome hr) (by decide)
  | some r =>
    rw [hr] at hloc
    simp only [Option.map_some', Option.some.injEq, Prod.mk.injEq, beq_iff_eq] at hloc
    obtain ⟨hiv, hpred, henter⟩ := hloc
    exact ⟨r.1, r.2, rfl, createBlockingLoop_no_wrap simpleSE (nest2 shapeUp) r.2 1 0
      boundsUp { BlockingFactor := 4 } r.1 8 Env.zero 10 4 [(.ConstantInt 8 0, 3), (.Instruction 2, 4)]
      hr (nest2_wellFormed shapeUp) (by rw [hiv]; rfl) rfl hpred (by decide) (by decide)
      rfl (by decide) (by decide) henter⟩


/-- C14 (amended). On the two-level example nest whose inner loop is
`for (j = 0; j < 100; j += 1)`, with blocking factor 16 and first depth 1,
`transform` returns true; the header of the blocking loop (block 7) tests
`icmp slt tileStart, 100` and leaves to block 6 when it is false; the latch of
the inner loop tests `icmp slt j.next, smin(tileStart + 16, 100)`; the blocking
loop runs its tiles at the tile starts 0, 16, 32, 48, 64, 80, 96; and the inner
loop runs 6 full tiles of 16 iterations and one partial tile of 4, on the values
0, ..., 99 in order. -/
theorem transform_example_tiles :
    (transform optionsFactor16Depth1 simpleSE (nest2 shapeUp100) { Nest := [0, 1] }).map
      (fun r => (r.1, r.2.F.term 7, r.2.F.inst 9, r.2.F.term 4, r.2.F.inst 12, r.2.F.inst 11,
        r.2.F.inst 10)) =
      some (true,
        some (.CondBr (.Instruction 9) 9 6),
        some (.ICmpInst .ICMP_SLT (.Instruction 7) (.ConstantInt 8 100)),
        some (.CondBr (.Instruction 12) 4 5),
        some (.ICmpInst .ICMP_SLT (.Instruction 2) (.Instruction 11)),
        some (.CallInst .smin 8 [.Instruction 10, .ConstantInt 8 100]),
        some (.BinaryOperator .Add 8 (.Instruction 7) (.ConstantInt 8 16))) ∧
    (transform optionsFactor16Depth1 simpleSE (nest2 shapeUp100) { Nest := [0, 1] }).map
      (fun r => (runTiledNest r.2.F 8 Env.zero tiledNest2 1 30).map
        (fun tiles => (tiles.map List.head?, tiles.map List.length, tiles.flatten))) =
      some (some ([some 0, some 16, some 32, some 48, some 64, some 80, some 96],
        [16, 16, 16, 16, 16, 16, 4], List.range 100)) :=
  ⟨by rfl, by decide⟩

/-- C14 as stated fails. In the example scenario the rewritten nest runs 7
tiles in all: the tiles of 16 iterations are 6, not 7, and with the partial
tile of 4 they make the 100 iterations of the original loop (7 full tiles and a
partial one would make 116). -/
theorem transform_example_has_six_full_tiles :
    (transform optionsFactor16Depth1 simpleSE (nest2 shapeUp100) { Nest := [0, 1] }).map
      (fun r => (runTiledNest r.2.F 8 Env.zero tiledNest2 1 30).map
        (fun tiles => (tiles.length, (tiles.filter (fun t => t.length = 16)).length,
          (tiles.filter (fun t => t.length = 4)).length, (tiles.map List.length).sum))) =
      some (some (7, 6, 1, 100)) := by
  decide


/-- C11 (defect of the code). In the three-level example nest the candidate
`[1, 2]` is legal and has length 2; with first depth 1 a run of `transform`
wraps `k = 1` level and returns true.  It creates one new loop (loop 3), whose
only child is loop 1, but the depth of the loops of the nest does not change:
loop 1 has depth 2 before and after, loop 2 has depth 3 before and after.  The
top loop of the nest has a parent (loop 0), lines 140-141 do not put the new
loop under that parent, and line 152 overwrites the parent of loop 1. -/
theorem transform_depth_unchanged_under_parent :
    getLoopDepth nest3.LI 1 = 2 ∧ getLoopDepth nest3.LI 2 = 3 ∧ nest3.LI.nextLoop = 3 ∧
    firstFailure { Options.default with FirstLoopDepth := 1 } simpleSE nest3 { Nest := [1, 2] }
      = none ∧
    (transform { Options.default with FirstLoopDepth := 1 } simpleSE nest3 { Nest := [1, 2] }).map
      (fun r => (r.1, r.2.LI.nextLoop, getLoopDepth r.2.LI 1, getLoopDepth r.2.LI 2,
                 (r.2.LI.loop 3).SubLoops))
      = some (true, 4, 2, 3, [1]) := by
  decide

theorem blockOneLevel_inv {opts : Options} {SE : ScalarEvolution} {st : State} {L TopLoop : LoopId}
    {BM : List (LoopId × LoopBounds)} {p : LoopId × State}
    (h : blockOneLevel opts SE st L TopLoop BM = some p) :
    ∃ Bounds loc st2, createBlockingLoopLocals SE st L TopLoop Bounds
      { BlockingFactor := opts.BlockingFactor } = some (loc, st2) := by
  unfold blockOneLevel at h
  simp only [bind, Option.bind_eq_some] at h
  obtain ⟨Bounds, -, ⟨B, st2⟩, hc, -⟩ := h
  unfold createBlockingLoop at hc
  rw [Option.map_eq_some'] at hc
  obtain ⟨⟨loc, st3⟩, hl, -⟩ := hc
  exact ⟨Bounds, loc, st3, hl⟩

theorem rewriterRequires_of_locals {SE : ScalarEvolution} {st st' : State} {T O : LoopId}
    {B : LoopBounds} {I : BlockingInfo} {loc : Locals}
    (h : createBlockingLoopLocals SE st T O B I = some (loc, st')) : RewriterRequires T O st := by
  obtain ⟨st1, r1, t1, hc, -⟩ := createBlockingLoopLocals_inv h
  obtain ⟨h1, h2, h3, h4, h5, h6, -, -, h9, -⟩ := lookupLoopParts_inv hc
  exact ⟨h1, h2, by simp [h3], by simp [h4], by simp [h5], by simp [h6], by simp [h9]⟩

theorem blockLevels_calls (opts : Options) (SE : ScalarEvolution)
    (BM : List (LoopId × LoopBounds)) :
    ∀ (Ls : List LoopId) (st : State) (TopLoop : LoopId) (st' : State),
      blockLevels opts SE BM st Ls TopLoop = some st' →
      (blockLevelsCalls opts SE BM st Ls TopLoop).length = Ls.length ∧
      ∀ c ∈ blockLevelsCalls opts SE BM st Ls TopLoop, RewriterRequires c.1 c.2.1 c.2.2 := by
  intro Ls
  induction Ls with
  | nil => intro st TopLoop st' _; simp [blockLevelsCalls]
  | cons L rest ih =>
    intro st TopLoop st' h
    unfold blockLevels at h
    unfold blockLevelsCalls
    cases hb : blockOneLevel opts SE st L TopLoop BM with
    | none => simp [hb] at h
    | some p =>
      obtain ⟨B, st1⟩ := p
      simp only [hb] at h ⊢
      obtain ⟨il, ic⟩ := ih st1 B st' h
      obtain ⟨Bounds, loc, st2, hl⟩ := blockOneLevel_inv hb
      refine ⟨by simp [il], ?_⟩
      intro c hc
      rcases List.mem_cons.1 hc with e | e
      · subst e
        exact rewriterRequires_of_locals hl
      · exact ic c e


theorem blockLevelsCalls_head (opts : Options) (SE : ScalarEvolution)
    (BM : List (LoopId × LoopBounds)) (st : State) (Ls : List LoopId) (TopLoop : LoopId)
    (c : LoopId × LoopId × State)
    (h : (blockLevelsCalls opts SE BM st Ls TopLoop).head? = some c) :
    c.2.1 = TopLoop ∧ c.2.2 = st := by
  cases Ls with
  | nil => simp [blockLevelsCalls] at h
  | cons L rest =>
    simp only [blockLevelsCalls, List.head?_cons, Option.some.injEq] at h
    subst h
    exact ⟨rfl, rfl⟩

/-- C16 as stated fails. On the two-level example nest with first depth 0,
`transform` rewrites two levels: at the first the target is loop 1 and the
outer loop is loop 0; at the second the target is loop 0 and the outer loop is
loop 2, the blocking loop of the first level.  In the state of the second call
loop 2 is in simplified form but not in rotated form: its latch, block 8, ends
with `br 7` and is not an exiting block; the exiting block is the header 7. -/
theorem blocking_loop_passed_as_outer_is_not_rotated :
    (transform Options.default simpleSE (nest2 shapeUp) { Nest := [0, 1] }).map (fun r => r.1)
      = some true ∧
    (transformCalls Options.default simpleSE (nest2 shapeUp) { Nest := [0, 1] }).map
      (fun c => (c.1, c.2.1, isRotatedForm c.2.2.F c.2.2.LI c.2.1,
        isLoopSimplifyForm c.2.2.F c.2.2.LI c.2.1, getLoopLatch c.2.2.F c.2.2.LI c.2.1,
        getExitingBlock c.2.2.F c.2.2.LI c.2.1, c.2.2.F.term 8))
      = [(1, 0, true, true, some 5, some 5, none),
         (0, 2, false, true, some 8, some 7, some (.Br 7))] :=
  ⟨by decide, by rfl⟩


theorem foldl_addBlockEntry (B : LoopId) (bs : List BlockId) :
    ∀ LI : LoopInfo,
      (∀ l, ((bs.foldl (fun LI BB => LoopInfo.addBlockEntry LI B BB) LI).loop l) =
        if l = B then { LI.loop B with Blocks := (LI.loop B).Blocks ++ bs } else LI.loop l) ∧
      (bs.foldl (fun LI BB => LoopInfo.addBlockEntry LI B BB) LI).TopLevelLoops =
        LI.TopLevelLoops ∧
      (bs.foldl (fun LI BB => LoopInfo.addBlockEntry LI B BB) LI).nextLoop = LI.nextLoop := by
  induction bs with
  | nil =>
    intro LI
    refine ⟨?_, rfl, rfl⟩
    intro l
    by_cases hl : l = B
    · subst hl; simp
    · simp [hl]
  | cons b rest ih =>
    intro LI
    obtain ⟨h1, h2, h3⟩ := ih (LI.addBlockEntry B b)
    simp only [List.foldl_cons]
    refine ⟨?_, h2, h3⟩
    intro l
    rw [h1 l]
    by_cases hl : l = B
    · subst hl; simp [LoopInfo.addBlockEntry, List.append_assoc]
    · simp [hl, LoopInfo.addBlockEntry]

theorem createBlockingLoopLocals_forest {SE : ScalarEvolution} {st st' : State} {T O : LoopId}
    {B : LoopBounds} {I : BlockingInfo} {loc : Locals}
    (h : createBlockingLoopLocals SE st T O B I = some (loc, st')) :
    loc.blocks.NL = st.LI.nextLoop ∧
    st'.LI.TopLevelLoops = st.LI.TopLevelLoops ∧
    st'.LI.nextLoop = st.LI.nextLoop + 1 ∧
    ∀ l, st'.LI.loop l =
      if l = st.LI.nextLoop then
        { ParentLoop := none, SubLoops := [],
          Blocks := [loc.blocks.NewHeader, loc.blocks.NewLatch, loc.blocks.NewOuterPreheader] }
      else st.LI.loop l := by
  obtain ⟨st1, r, t, hc, hn, h1, h2, h3, hv, htl, hs⟩ := createBlockingLoopLocals_inv h
  subst hs
  obtain ⟨d, t2, hd, ht2, hterm2, hinst2, hinsts2, hni2, -, -, hLI2, -⟩ := rewireEdges_inv h1
  obtain ⟨hi1, hi2, hi3, hbf, hterm3, hinst3, hni3, -, -, hLI3, -⟩ := buildBlockingHeader_inv h2
  obtain ⟨-, -, -, -, -, -, -, hLI4, -⟩ := buildTileBound_inv h3
  rw [hLI4, hLI3, hLI2, hn]
  refine ⟨rfl, rfl, rfl, ?_⟩
  intro l
  by_cases hl : l = st.LI.nextLoop
  · subst hl
    simp [allocateBlockingLoop, LoopInfo.addBlockEntry, LoopInfo.AllocateLoop]
  · simp [allocateBlockingLoop, LoopInfo.addBlockEntry, LoopInfo.AllocateLoop, hl]


theorem forest_addChild (X : LoopInfo) (B TopLoop : LoopId) (hne : TopLoop ≠ B) :
    (LoopInfo.addChildLoop
        ((X.loop TopLoop).Blocks.foldl (fun LI BB => LoopInfo.addBlockEntry LI B BB) X)
        B TopLoop).loop B =
      { X.loop B with SubLoops := (X.loop B).SubLoops ++ [TopLoop],
                      Blocks := (X.loop B).Blocks ++ (X.loop TopLoop).Blocks } ∧
    (LoopInfo.addChildLoop
        ((X.loop TopLoop).Blocks.foldl (fun LI BB => LoopInfo.addBlockEntry LI B BB) X)
        B TopLoop).loop TopLoop = { X.loop TopLoop with ParentLoop := some B } ∧
    (∀ l, l ≠ B → l ≠ TopLoop →
      (LoopInfo.addChildLoop
        ((X.loop TopLoop).Blocks.foldl (fun LI BB => LoopInfo.addBlockEntry LI B BB) X)
        B TopLoop).loop l = X.loop l) ∧
    (LoopInfo.addChildLoop
        ((X.loop TopLoop).Blocks.foldl (fun LI BB => LoopInfo.addBlockEntry LI B BB) X)
        B TopLoop).nextLoop = X.nextLoop := by
  obtain ⟨h1, h2, h3⟩ := foldl_addBlockEntry B (X.loop TopLoop).Blocks X
  refine ⟨?_, ?_, ?_, ?_⟩
  · simp only [LoopInfo.addChildLoop, if_true, hne.symm, if_false, h1]
  · simp only [LoopInfo.addChildLoop, if_true, hne, if_false, h1]
  · intro l hl1 hl2
    simp only [LoopInfo.addChildLoop, hl1, hl2, if_false, h1]
  · simp only [LoopInfo.addChildLoop, h3]

theorem forest_topLevel (LI : LoopInfo) (B TopLoop : LoopId) :
    (if TopLoop ∈ (if (getParentLoop LI TopLoop).isNone = true then LI.addTopLevelLoop B
          else LI).TopLevelLoops
      then (if (getParentLoop LI TopLoop).isNone = true then LI.addTopLevelLoop B
          else LI).removeLoop TopLoop
      else (if (getParentLoop LI TopLoop).isNone = true then LI.addTopLevelLoop B
          else LI)).loop = LI.loop ∧
    (if TopLoop ∈ (if (getParentLoop LI TopLoop).isNone = true then LI.addTopLevelLoop B
          else LI).TopLevelLoops
      then (if (getParentLoop LI TopLoop).isNone = true then LI.addTopLevelLoop B
          else LI).removeLoop TopLoop
      else (if (getParentLoop LI TopLoop).isNone = true then LI.addTopLevelLoop B
          else LI)).nextLoop = LI.nextLoop := by
  constructor <;> split <;> split <;> rfl

theorem blockOneLevel_forest {opts : Options} {SE : ScalarEvolution} {st st' : State}
    {L TopLoop B : LoopId} {BM : List (LoopId × LoopBounds)}
    (h : blockOneLevel opts SE st L TopLoop BM = some (B, st'))
    (hT : TopLoop < st.LI.nextLoop) :
    ∃ Bounds loc st2, createBlockingLoopLocals SE st L TopLoop Bounds
        { BlockingFactor := opts.BlockingFactor } = some (loc, st2) ∧
      B = st.LI.nextLoop ∧ st'.F = st2.F ∧ st'.DT = st2.DT ∧
      st'.LI.loop B =
        { ParentLoop := none, SubLoops := [TopLoop],
          Blocks := [loc.blocks.NewHeader, loc.blocks.NewLatch, loc.blocks.NewOuterPreheader] ++
            (st.LI.loop TopLoop).Blocks } ∧
      st'.LI.loop TopLoop = { st.LI.loop TopLoop with ParentLoop := some B } ∧
      (∀ l, l ≠ B → l ≠ TopLoop → st'.LI.loop l = st.LI.loop l) ∧
      st'.LI.nextLoop = st.LI.nextLoop + 1 := by
  unfold blockOneLevel at h
  simp only [bind, Option.bind_eq_some] at h
  obtain ⟨Bounds, -, ⟨B2, st2⟩, hc, heq⟩ := h
  unfold createBlockingLoop at hc
  rw [Option.map_eq_some'] at hc
  obtain ⟨⟨loc, st3⟩, hl, hp⟩ := hc
  simp only [Prod.mk.injEq] at hp
  obtain ⟨hB, hs⟩ := hp
  subst hs
  obtain ⟨hNL, hTop, hnext, hloop⟩ := createBlockingLoopLocals_forest hl
  rw [hNL] at hB
  subst hB
  simp only [pure, Option.some.injEq, Prod.mk.injEq] at heq
  obtain ⟨hB, hst⟩ := heq
  subst hB
  subst hst
  have hne : TopLoop ≠ st.LI.nextLoop := Nat.ne_of_lt hT
  obtain ⟨t1, t2⟩ := forest_topLevel st3.LI st.LI.nextLoop TopLoop
  refine ⟨Bounds, loc, st3, hl, rfl, rfl, rfl, ?_, ?_, ?_, ?_⟩
  · show (LoopInfo.addChildLoop _ _ _).loop _ = _
    rw [(forest_addChild _ st.LI.nextLoop TopLoop hne).1, t1, hloop, hloop]
    simp [hne]
  · show (LoopInfo.addChildLoop _ _ _).loop _ = _
    rw [(forest_addChild _ st.LI.nextLoop TopLoop hne).2.1, t1, hloop]
    simp [hne]
  · intro l hl1 hl2
    show (LoopInfo.addChildLoop _ _ _).loop _ = _
    rw [(forest_addChild _ st.LI.nextLoop TopLoop hne).2.2.1 l hl1 hl2, t1, hloop]
    simp [hl1]
  · show (LoopInfo.addChildLoop _ _ _).nextLoop = _
    rw [(forest_addChild _ st.LI.nextLoop TopLoop hne).2.2.2, t2, hnext]


theorem pathIn_start {F : Function} {S : List BlockId} {a b : BlockId} (h : PathIn F S a b) :
    a ∈ S := by
  cases h with
  | here _ ha => exact ha
  | step _ _ _ ha _ _ => exact ha

theorem pathIn_trans {F : Function} {S : List BlockId} {a b c : BlockId}
    (h1 : PathIn F S a b) (h2 : PathIn F S b c) : PathIn F S a c := by
  induction h1 with
  | here _ _ => exact h2
  | step a m b ha hm _ ih => exact PathIn.step a m c ha hm (ih h2)

theorem pathIn_mono {F : Function} {S S' : List BlockId} {a b : BlockId}
    (hS : ∀ x ∈ S, x ∈ S') (h : PathIn F S a b) : PathIn F S' a b := by
  induction h with
  | here a ha => exact PathIn.here a (hS a ha)
  | step a m b ha hm _ ih => exact PathIn.step a m b (hS a ha) hm ih

theorem pathIn_lift {F F' : Function} {S : List BlockId} {a b : BlockId}
    (hE : ∀ p m, p ∈ S → m ∈ S → m ∈ F.successors p → m ∈ F'.successors p)
    (h : PathIn F S a b) : PathIn F' S a b := by
  induction h with
  | here a ha => exact PathIn.here a ha
  | step a m b ha hm hp ih => exact PathIn.step a m b ha (hE a m ha (pathIn_start hp) hm) ih

theorem pathIn_avoiding {F : Function} {S : List BlockId} {h a b : BlockId}
    (hS : ∀ x ∈ S, x ≠ h) (hp : PathIn F S a b) : ReachesAvoiding F h a b := by
  induction hp with
  | here a ha => exact ReachesAvoiding.here a (hS a ha)
  | step a m b ha hm _ ih => exact ReachesAvoiding.step a m b (hS a ha) hm ih

theorem reachesAvoiding_start {F : Function} {h a b : BlockId} (hp : ReachesAvoiding F h a b) :
    a ≠ h := by
  cases hp with
  | here _ ha => exact ha
  | step _ _ _ ha _ _ => exact ha

theorem reachesAvoiding_trans {F : Function} {h a b c : BlockId}
    (h1 : ReachesAvoiding F h a b) (h2 : ReachesAvoiding F h b c) : ReachesAvoiding F h a c := by
  induction h1 with
  | here _ _ => exact h2
  | step a m b ha hm _ ih => exact ReachesAvoiding.step a m c ha hm (ih h2)

theorem reachesAvoiding_closed {F : Function} {S : List BlockId} {h l : BlockId}
    (hl : l ∈ S)
    (hin : ∀ p x, x ∈ F.successors p → x ∈ S → x ≠ h → p ∈ S)
    {b : BlockId} (hp : ReachesAvoiding F h b l) : b ∈ S := by
  induction hp with
  | here _ _ => exact hl
  | step a m b _ hm hr ih => exact hin a m hm (ih hl) (reachesAvoiding_start hr)

theorem ancestors_of_no_parent (LI : LoopInfo) (L : LoopId)
    (h : (LI.loop L).ParentLoop = none) : LI.ancestors L = [] := by
  unfold LoopInfo.ancestors
  cases LI.nextLoop with
  | zero => rfl
  | succ n => simp [LoopInfo.ancestorsAux, h]


theorem mem_fresh_append (nb x : BlockId) (S : List BlockId) :
    x ∈ [nb, nb + 1, nb + 2] ++ S ↔ x = nb ∨ x = nb + 1 ∨ x = nb + 2 ∨ x ∈ S := by
  simp


theorem blockOneLevel_shape {opts : Options} {SE : ScalarEvolution} {st st' : State}
    {L TopLoop B : LoopId} {BM : List (LoopId × LoopBounds)}
    (h : blockOneLevel opts SE st L TopLoop BM = some (B, st')) (wf : WellFormed st)
    (shape : LoopShape st TopLoop) :
    (st'.LI.loop B).Blocks =
      [st.F.nextBlock, st.F.nextBlock + 1, st.F.nextBlock + 2] ++ (st.LI.loop TopLoop).Blocks ∧
    (st'.LI.loop B).ParentLoop = none ∧
    (st'.LI.loop TopLoop).Blocks = (st.LI.loop TopLoop).Blocks ∧
    st'.F.successors (st.F.nextBlock + 1) = [st.F.nextBlock] ∧
    LoopShape st' B ∧
    (∀ b ∈ (st'.LI.loop B).Blocks, InNaturalLoop st'.F (st.F.nextBlock + 1) st.F.nextBlock b) ∧
    (∀ p x, x ∈ st'.F.successors p → x ∈ (st'.LI.loop B).Blocks → x ≠ st.F.nextBlock →
      p ∈ (st'.LI.loop B).Blocks) := by
  obtain ⟨Bounds0, loc0, st0, hl0⟩ := blockOneLevel_inv h
  obtain ⟨stA, rA, tA, hcA, -⟩ := createBlockingLoopLocals_inv hl0
  obtain ⟨-, -, hOH, hOP, -, -, -, -, hOE, -⟩ := lookupLoopParts_inv hcA
  generalize loc0.parts.OuterHeader = OH at hOH
  generalize loc0.parts.OuterPreheader = OP at hOP
  generalize loc0.parts.OuterExiting = OE at hOE
  have hTne : (st.LI.loop TopLoop).Blocks ≠ [] := by
    intro e
    have := getHeader_mem hOH
    rw [e] at this
    cases this
  have hT := wf.loops TopLoop hTne
  obtain ⟨Bounds, loc, st2, hl, hB, hF, -, hLB, hLT, -, -⟩ := blockOneLevel_forest h hT
  obtain ⟨st1, r1, t1, hc, -⟩ := createBlockingLoopLocals_inv hl
  obtain ⟨-, -, k3, k4, -, k6, -, -, k9, -⟩ := lookupLoopParts_inv hc
  rw [hOH] at k3
  rw [hOP] at k4
  rw [hOE] at k9
  simp only [Option.some.injEq] at k3 k4 k9
  obtain ⟨t2, cnd, tt, ff, ⟨hNH, hNL, hNP⟩, -, -, -,
    ⟨-, hOElt, hOHlt, hOXlt, hOP0, hOP1, hOP2, hOPOE, -⟩, -⟩ := createBlockingLoopLocals_spec hl wf
  obtain ⟨e1, e2, e3, e4, e5, ⟨cond, e6⟩, e7⟩ :=
    createBlockingLoop_edges_aux SE st L TopLoop Bounds _ loc st2 hl (wf.loopBlocks TopLoop)
  obtain ⟨hxs, hxc⟩ := getExitBlock_spec hOE k6
  obtain ⟨hpre, hpc⟩ := getLoopPreheader_spec hOP hOH
  obtain ⟨hOES, -⟩ := getExitingBlock_spec hOE
  have hOHS := getHeader_mem hOH
  simp only [← k3, ← k4, ← k9, hNH, hNL, hNP, ← hF] at e1 e2 e3 e4 e5 e6 e7 hLB
  -- abbreviations
  have hSlt : ∀ x ∈ (st.LI.loop TopLoop).Blocks, x < st.F.nextBlock := wf.loopBlocks TopLoop
  have hS0 : ∀ x ∈ (st.LI.loop TopLoop).Blocks, x ≠ st.F.nextBlock :=
    fun x hx => Nat.ne_of_lt (hSlt x hx)
  have hS1 : ∀ x ∈ (st.LI.loop TopLoop).Blocks, x ≠ st.F.nextBlock + 1 :=
    fun x hx => ne_of_lt_add _ _ 1 (hSlt x hx)
  have hS2 : ∀ x ∈ (st.LI.loop TopLoop).Blocks, x ≠ st.F.nextBlock + 2 :=
    fun x hx => ne_of_lt_add _ _ 2 (hSlt x hx)
  have hOPS : OP ∉ (st.LI.loop TopLoop).Blocks := by
    intro hm
    simp [LoopInfo.contains, hm] at hpc
  have hOXS : loc.parts.OuterExit ∉ (st.LI.loop TopLoop).Blocks := by
    intro hm
    simp [LoopInfo.contains, hm] at hxc
  have e6' : st'.F.successors st.F.nextBlock = [st.F.nextBlock + 2, loc.parts.OuterExit] := by
    simp [Function.successors, e6, Terminator.successors]
  have hLBb : (st'.LI.loop B).Blocks =
      [st.F.nextBlock, st.F.nextBlock + 1, st.F.nextBlock + 2] ++ (st.LI.loop TopLoop).Blocks := by
    rw [hLB]
  have hNLOE : st.F.nextBlock + 1 ∈ st'.F.successors OE := by
    rw [e4]
    exact List.mem_map.2 ⟨loc.parts.OuterExit, hxs, by simp⟩
  -- the loop is entered only at its header
  have hin : ∀ p x, x ∈ st'.F.successors p →
      x ∈ [st.F.nextBlock, st.F.nextBlock + 1, st.F.nextBlock + 2] ++ (st.LI.loop TopLoop).Blocks →
      x ≠ st.F.nextBlock →
      p ∈ [st.F.nextBlock, st.F.nextBlock + 1, st.F.nextBlock + 2] ++
        (st.LI.loop TopLoop).Blocks := by
    intro p x hx hxS hxne
    rw [mem_fresh_append] at hxS ⊢
    by_cases p0 : p = OP
    · subst p0
      rw [e1] at hx
      exact absurd (List.mem_singleton.1 hx) hxne
    by_cases p1 : p = OE
    · subst p1; exact Or.inr (Or.inr (Or.inr hOES))
    by_cases p2 : p = st.F.nextBlock
    · exact Or.inl p2
    by_cases p3 : p = st.F.nextBlock + 1
    · exact Or.inr (Or.inl p3)
    by_cases p4 : p = st.F.nextBlock + 2
    · exact Or.inr (Or.inr (Or.inl p4))
    rw [e7 p p0 p1 p2 p3 p4] at hx
    have hxlt := wf.succs p x hx
    have hxS' : x ∈ (st.LI.loop TopLoop).Blocks := by
      rcases hxS with q | q | q | q
      · exact absurd q hxne
      · exact absurd q (ne_of_lt_add _ _ 1 hxlt)
      · exact absurd q (ne_of_lt_add _ _ 2 hxlt)
      · exact q
    refine Or.inr (Or.inr (Or.inr ?_))
    by_cases hxh : x = OH
    · subst hxh
      by_cases hpS : p ∈ (st.LI.loop TopLoop).Blocks
      · exact hpS
      · exact absurd (shape.entry x p OP hOH hx (by rw [hpre]; exact List.mem_singleton_self _)
          hpS hOPS) p0
    · exact shape.inner p x hx hxS' (by rw [hOH]; intro e; exact hxh (Option.some.inj e).symm)
  have hentry : ∀ p, st.F.nextBlock ∈ st'.F.successors p →
      p ∈ [st.F.nextBlock, st.F.nextBlock + 1, st.F.nextBlock + 2] ++
        (st.LI.loop TopLoop).Blocks ∨ p = OP := by
    intro p hp
    rw [mem_fresh_append]
    by_cases p0 : p = OP
    · exact Or.inr p0
    by_cases p1 : p = OE
    · subst p1; exact Or.inl (Or.inr (Or.inr (Or.inr hOES)))
    by_cases p2 : p = st.F.nextBlock
    · exact Or.inl (Or.inl p2)
    by_cases p3 : p = st.F.nextBlock + 1
    · exact Or.inl (Or.inr (Or.inl p3))
    by_cases p4 : p = st.F.nextBlock + 2
    · exact Or.inl (Or.inr (Or.inr (Or.inl p4)))
    rw [e7 p p0 p1 p2 p3 p4] at hp
    exact absurd (wf.succs p _ hp) (Nat.lt_irrefl _)
  -- the paths of the old loop are paths of the new graph
  have hE : ∀ p m, p ∈ (st.LI.loop TopLoop).Blocks → m ∈ (st.LI.loop TopLoop).Blocks →
      m ∈ st.F.successors p → m ∈ st'.F.successors p := by
    intro p m hp hm hs
    by_cases p1 : p = OE
    · subst p1
      rw [e4]
      have hmx : m ≠ loc.parts.OuterExit := fun e => hOXS (e ▸ hm)
      exact List.mem_map.2 ⟨m, hs, by simp [hmx]⟩
    · have p0 : p ≠ OP := fun e => hOPS (e ▸ hp)
      rw [e7 p p0 p1 (hS0 p hp) (hS1 p hp) (hS2 p hp)]
      exact hs
  have pathOE : ∀ b ∈ (st.LI.loop TopLoop).Blocks,
      PathIn st'.F (st.LI.loop TopLoop).Blocks b OE :=
    fun b hb => pathIn_lift hE (shape.leave OE hOE b hb)
  have hsub : ∀ x ∈ (st.LI.loop TopLoop).Blocks,
      x ∈ [st.F.nextBlock, st.F.nextBlock + 1, st.F.nextBlock + 2] ++
        (st.LI.loop TopLoop).Blocks :=
    fun x hx => (mem_fresh_append _ _ _).2 (Or.inr (Or.inr (Or.inr hx)))
  have m0 : st.F.nextBlock ∈ [st.F.nextBlock, st.F.nextBlock + 1, st.F.nextBlock + 2] ++
      (st.LI.loop TopLoop).Blocks := (mem_fresh_append _ _ _).2 (Or.inl rfl)
  have m1 : st.F.nextBlock + 1 ∈ [st.F.nextBlock, st.F.nextBlock + 1, st.F.nextBlock + 2] ++
      (st.LI.loop TopLoop).Blocks := (mem_fresh_append _ _ _).2 (Or.inr (Or.inl rfl))
  have m2 : st.F.nextBlock + 2 ∈ [st.F.nextBlock, st.F.nextBlock + 1, st.F.nextBlock + 2] ++
      (st.LI.loop TopLoop).Blocks := (mem_fresh_append _ _ _).2 (Or.inr (Or.inr (Or.inl rfl)))
  have tail : PathIn st'.F ([st.F.nextBlock, st.F.nextBlock + 1, st.F.nextBlock + 2] ++
      (st.LI.loop TopLoop).Blocks) OE st.F.nextBlock :=
    PathIn.step _ _ _ (hsub OE hOES) hNLOE
      (PathIn.step _ _ _ m1 (by rw [e5]; exact List.mem_singleton_self _) (PathIn.here _ m0))
  have fromS : ∀ b ∈ (st.LI.loop TopLoop).Blocks,
      PathIn st'.F ([st.F.nextBlock, st.F.nextBlock + 1, st.F.nextBlock + 2] ++
        (st.LI.loop TopLoop).Blocks) b st.F.nextBlock :=
    fun b hb => pathIn_trans (pathIn_mono hsub (pathOE b hb)) tail
  have hleave : ∀ b ∈ [st.F.nextBlock, st.F.nextBlock + 1, st.F.nextBlock + 2] ++
      (st.LI.loop TopLoop).Blocks,
      PathIn st'.F ([st.F.nextBlock, st.F.nextBlock + 1, st.F.nextBlock + 2] ++
        (st.LI.loop TopLoop).Blocks) b st.F.nextBlock := by
    intro b hb
    rcases (mem_fresh_append _ _ _).1 hb with q | q | q | q
    · subst q; exact PathIn.here _ m0
    · subst q
      exact PathIn.step _ _ _ m1 (by rw [e5]; exact List.mem_singleton_self _) (PathIn.here _ m0)
    · subst q
      exact PathIn.step _ _ _ m2 (by rw [e2]; exact List.mem_singleton_self _) (fromS OH hOHS)
    · exact fromS b q
  -- the natural loop of the back edge
  have hne01 : st.F.nextBlock + 1 ≠ st.F.nextBlock := Nat.succ_ne_self _
  have hne02 : st.F.nextBlock + 2 ≠ st.F.nextBlock := by
    intro e; exact absurd e.symm (ne_add_two _)
  have tailA : ReachesAvoiding st'.F st.F.nextBlock OE (st.F.nextBlock + 1) :=
    ReachesAvoiding.step _ _ _ (hS0 OE hOES) hNLOE (ReachesAvoiding.here _ hne01)
  have avS : ∀ b ∈ (st.LI.loop TopLoop).Blocks,
      ReachesAvoiding st'.F st.F.nextBlock b (st.F.nextBlock + 1) :=
    fun b hb => reachesAvoiding_trans (pathIn_avoiding hS0 (pathOE b hb)) tailA
  have hnat : ∀ b ∈ [st.F.nextBlock, st.F.nextBlock + 1, st.F.nextBlock + 2] ++
      (st.LI.loop TopLoop).Blocks,
      InNaturalLoop st'.F (st.F.nextBlock + 1) st.F.nextBlock b := by
    intro b hb
    rcases (mem_fresh_append _ _ _).1 hb with q | q | q | q
    · exact Or.inl q
    · subst q; exact Or.inr (ReachesAvoiding.here _ hne01)
    · subst q
      exact Or.inr (ReachesAvoiding.step _ _ _ hne02
        (by rw [e2]; exact List.mem_singleton_self _) (avS OH hOHS))
    · exact Or.inr (avS b q)
  have hhead : getHeader st'.LI B = some st.F.nextBlock := by
    simp [getHeader, hLBb]
  refine ⟨hLBb, by rw [hLB], by rw [hLT], e5, ?_, ?_, ?_⟩
  · constructor
    · intro p x hx hxB hxh
      rw [hLBb] at hxB ⊢
      exact hin p x hx hxB (by rw [hhead] at hxh; intro e; exact hxh (by rw [e]))
    · intro hd p q hhd hp hq hpB hqB
      rw [hhead] at hhd
      have e := Option.some.inj hhd
      subst e
      rw [hLBb] at hpB hqB
      rcases hentry p hp with a | a
      · exact absurd a hpB
      · rcases hentry q hq with c | c
        · exact absurd c hqB
        · rw [a, c]
    · intro e he b hb
      obtain ⟨-, hes⟩ := getExitingBlock_spec he
      have hex : st.F.nextBlock ∈ getExitingBlocks st'.F st'.LI B := by
        unfold getExitingBlocks
        rw [List.mem_filter, hLBb]
        refine ⟨m0, ?_⟩
        unfold isLoopExiting
        rw [List.any_eq_true]
        refine ⟨loc.parts.OuterExit, by rw [e6']; simp, ?_⟩
        have hxn : loc.parts.OuterExit ∉ [st.F.nextBlock, st.F.nextBlock + 1,
            st.F.nextBlock + 2] ++ (st.LI.loop TopLoop).Blocks := by
          rw [mem_fresh_append]
          rintro (q | q | q | q)
          · exact Nat.ne_of_lt hOXlt q
          · exact ne_of_lt_add _ _ 1 hOXlt q
          · exact ne_of_lt_add _ _ 2 hOXlt q
          · exact hOXS q
        rw [mem_fresh_append] at hxn
        simpa [LoopInfo.contains, hLBb, not_or] using hxn
      rw [hes, List.mem_singleton] at hex
      rw [← hex]
      rw [hLBb] at hb ⊢
      exact hleave b hb
  · rw [hLBb]; exact hnat
  · rw [hLBb]; exact hin


theorem lt_add_of_lt (a b k : Nat) (h : a < b) : a < b + k := by omega

theorem self_lt_add (b k : Nat) (h : 0 < k) : b < b + k := by omega

theorem add_lt_add_fresh (b i k : Nat) (h : i < k) : b + i < b + k := by omega

theorem buildTileBound_next {st : State} {c : LoopParts} {v : NewValues} {T : LoopId}
    {B : LoopBounds} {r : TileValues × State} (h : buildTileBound st c v T B = some r) :
    r.2.F.nextInst = st.F.nextInst + 3 ∧ r.2.F.nextBlock = st.F.nextBlock := by
  unfold buildTileBound at h
  simp only [bind, Option.bind_eq_some, pure] at h
  obtain ⟨op, hop, h⟩ := h
  obtain ⟨_, _, h⟩ := h
  obtain ⟨lc, _, h⟩ := h
  obtain ⟨lp, _, h⟩ := h
  obtain ⟨_, _, h⟩ := h
  obtain ⟨old, hold, h⟩ := h
  obtain ⟨op0, hop0, h⟩ := h
  obtain ⟨P, _, h⟩ := h
  obtain ⟨tt, htt, h⟩ := h
  obtain ⟨nt, hnt, h⟩ := h
  simp only [Option.some.injEq] at h
  subst h
  exact ⟨rfl, rfl⟩

theorem createBlockingLoopLocals_next {SE : ScalarEvolution} {st st' : State} {T O : LoopId}
    {B : LoopBounds} {I : BlockingInfo} {loc : Locals}
    (h : createBlockingLoopLocals SE st T O B I = some (loc, st')) :
    st'.F.nextInst = st.F.nextInst + 6 ∧ st'.F.nextBlock = st.F.nextBlock + 3 := by
  obtain ⟨st1, r, t, hc, hn, h1, h2, h3, hv, htl, hs⟩ := createBlockingLoopLocals_inv h
  subst hs
  obtain ⟨d, t2, -, -, -, -, -, hni2, hnb2, -⟩ := rewireEdges_inv h1
  obtain ⟨-, -, -, -, -, -, hni3, hnb3, -⟩ := buildBlockingHeader_inv h2
  obtain ⟨hni4, hnb4⟩ := buildTileBound_next h3
  rw [hni4, hni3, hni2, hnb4, hnb3, hnb2]
  exact ⟨rfl, rfl⟩

theorem blockOneLevel_wellFormed {opts : Options} {SE : ScalarEvolution} {st st' : State}
    {L TopLoop B : LoopId} {BM : List (LoopId × LoopBounds)}
    (h : blockOneLevel opts SE st L TopLoop BM = some (B, st')) (wf : WellFormed st) :
    WellFormed st' := by
  obtain ⟨Bounds0, loc0, st0, hl0⟩ := blockOneLevel_inv h
  obtain ⟨-, -, hOH0, -⟩ := rewriterRequires_of_locals hl0
  have hTne : (st.LI.loop TopLoop).Blocks ≠ [] := by
    intro e
    simp [getHeader, e] at hOH0
  have hT := wf.loops TopLoop hTne
  obtain ⟨Bounds, loc, st2, hl, hB, hF, -, hLB, hLT, hLo, hnl⟩ := blockOneLevel_forest h hT
  obtain ⟨hni, hnb⟩ := createBlockingLoopLocals_next hl
  obtain ⟨t2, cnd, tt, ff, ⟨hNH, hNL, hNP⟩, -, -, -,
    ⟨hTLlt, hOElt, hOHlt, hOXlt, hOP0, hOP1, hOP2, hOPOE, hOPTL⟩, hOld, ht2, hT', hterm, hinst⟩ :=
    createBlockingLoopLocals_spec hl wf
  rw [← hF] at hni hnb hterm hinst
  simp only [hNH, hNL, hNP] at hLB
  constructor
  · intro l hlne
    rw [hnl]
    by_cases l1 : l = B
    · rw [l1, hB]; exact Nat.lt_succ_self _
    by_cases l2 : l = TopLoop
    · rw [l2]; exact Nat.lt_succ_of_lt hT
    · rw [hLo l l1 l2] at hlne
      exact Nat.lt_succ_of_lt (wf.loops l hlne)
  · intro l b hb
    rw [hnb]
    by_cases l1 : l = B
    · rw [l1, hLB] at hb
      rcases (mem_fresh_append _ _ _).1 hb with q | q | q | q
      · rw [q]; exact self_lt_add _ 3 (by decide)
      · rw [q]; exact add_lt_add_fresh _ 1 3 (by decide)
      · rw [q]; exact add_lt_add_fresh _ 2 3 (by decide)
      · exact lt_add_of_lt _ _ 3 (wf.loopBlocks TopLoop b q)
    by_cases l2 : l = TopLoop
    · rw [l2, hLT] at hb
      exact lt_add_of_lt _ _ 3 (wf.loopBlocks TopLoop b hb)
    · rw [hLo l l1 l2] at hb
      exact lt_add_of_lt _ _ 3 (wf.loopBlocks l b hb)
  · intro b s hs
    rw [hnb]
    obtain ⟨e1, e2, e3, e4, e5, ⟨cond, e6⟩, e7⟩ :=
      createBlockingLoop_edges_aux SE st L TopLoop Bounds _ loc st2 hl (wf.loopBlocks TopLoop)
    simp only [hNH, hNL, hNP, ← hF] at e1 e2 e4 e5 e6 e7
    by_cases p0 : b = loc.parts.OuterPreheader
    · rw [p0, e1] at hs
      rw [List.mem_singleton.1 hs]; exact self_lt_add _ 3 (by decide)
    by_cases p1 : b = loc.parts.OuterExiting
    · rw [p1, e4] at hs
      obtain ⟨s0, hs0, hs1⟩ := List.mem_map.1 hs
      by_cases hx : s0 = loc.parts.OuterExit
      · simp only [hx, if_true] at hs1
        rw [← hs1]; exact add_lt_add_fresh _ 1 3 (by decide)
      · simp only [hx, if_false] at hs1
        rw [← hs1]; exact lt_add_of_lt _ _ 3 (wf.succs _ _ hs0)
    by_cases p2 : b = st.F.nextBlock
    · have e6' : st'.F.successors st.F.nextBlock =
          [st.F.nextBlock + 2, loc.parts.OuterExit] := by
        simp [Function.successors, e6, Terminator.successors]
      rw [p2, e6'] at hs
      rcases List.mem_cons.1 hs with q | q
      · rw [q]; exact add_lt_add_fresh _ 2 3 (by decide)
      · rw [List.mem_singleton.1 q]; exact lt_add_of_lt _ _ 3 hOXlt
    by_cases p3 : b = st.F.nextBlock + 1
    · rw [p3, e5] at hs
      rw [List.mem_singleton.1 hs]; exact self_lt_add _ 3 (by decide)
    by_cases p4 : b = st.F.nextBlock + 2
    · rw [p4, e2] at hs
      rw [List.mem_singleton.1 hs]; exact lt_add_of_lt _ _ 3 hOHlt
    rw [e7 b p0 p1 p2 p3 p4] at hs
    exact lt_add_of_lt _ _ 3 (wf.succs _ _ hs)
  · intro b i t f hb
    rw [hni]
    rw [hterm b] at hb
    by_cases b1 : b = loc.parts.TargetLatch
    · simp only [b1, if_true, Option.some.injEq, Terminator.CondBr.injEq,
        Value.Instruction.injEq] at hb
      rw [← hb.1]; exact add_lt_add_fresh _ 5 6 (by decide)
    simp only [b1, if_false] at hb
    by_cases b2 : b = st.F.nextBlock
    · simp only [b2, if_true, Option.some.injEq, Terminator.CondBr.injEq,
        Value.Instruction.injEq] at hb
      rw [← hb.1]; exact add_lt_add_fresh _ 2 6 (by decide)
    simp only [b2, if_false] at hb
    by_cases b3 : b = st.F.nextBlock + 1
    · simp [b3] at hb
    simp only [b3, if_false] at hb
    by_cases b4 : b = loc.parts.OuterExiting
    · simp only [b4, if_true, Option.some.injEq] at hb
      obtain ⟨a0, b0, ht2', -, -⟩ := replaceSuccessorWith_condBr hb
      rw [ht2'] at ht2
      exact lt_add_of_lt _ _ 6 (wf.conds _ _ _ _ ht2)
    simp only [b4, if_false] at hb
    by_cases b5 : b = st.F.nextBlock + 2
    · simp [b5] at hb
    simp only [b5, if_false] at hb
    by_cases b6 : b = loc.parts.OuterPreheader
    · simp [b6] at hb
    simp only [b6, if_false] at hb
    exact lt_add_of_lt _ _ 6 (wf.conds _ _ _ _ hb)
  · intro x hx
    rw [hni]
    rw [hinst x] at hx
    by_cases x0 : x = loc.tile.OldLatchCompInst
    · simp [x0] at hx
    simp only [x0, if_false] at hx
    by_cases x5 : x = st.F.nextInst + 5
    · rw [x5]; exact add_lt_add_fresh _ 5 6 (by decide)
    by_cases x4 : x = st.F.nextInst + 4
    · rw [x4]; exact add_lt_add_fresh _ 4 6 (by decide)
    by_cases x3 : x = st.F.nextInst + 3
    · rw [x3]; exact add_lt_add_fresh _ 3 6 (by decide)
    by_cases x2 : x = st.F.nextInst + 2
    · rw [x2]; exact add_lt_add_fresh _ 2 6 (by decide)
    by_cases xn : x = st.F.nextInst
    · rw [xn]; exact self_lt_add _ 6 (by decide)
    by_cases x1 : x = st.F.nextInst + 1
    · rw [x1]; exact add_lt_add_fresh _ 1 6 (by decide)
    simp only [x5, x4, x3, x2, xn, x1, if_false] at hx
    apply lt_add_of_lt _ _ 6
    apply wf.insts
    intro hnone
    apply hx
    by_cases xi : x = loc.parts.TargetIv
    · simp only [xi, if_true]
      rw [xi] at hnone
      split <;> simp [hnone]
    · simp only [xi, if_false]
      split <;> simp [hnone]


theorem levelBlocks_of_step {opts : Options} {SE : ScalarEvolution} {st st' : State}
    {L TopLoop B : LoopId} {BM : List (LoopId × LoopBounds)}
    (h : blockOneLevel opts SE st L TopLoop BM = some (B, st')) (wf : WellFormed st)
    (shape : LoopShape st TopLoop) : LevelBlocks (TopLoop, B, st, st') := by
  obtain ⟨h1, h2, h3, h4, -, h6, h7⟩ := blockOneLevel_shape h wf shape
  refine ⟨h1, h3, h4, ?_, ?_⟩
  · intro b
    constructor
    · exact h6 b
    · intro hb
      rcases hb with e | hr
      · rw [e, h1]; simp
      · exact reachesAvoiding_closed (by rw [h1]; simp) h7 hr
  · intro A hA
    rw [ancestors_of_no_parent _ _ h2] at hA
    cases hA

theorem blockLevels_steps (opts : Options) (SE : ScalarEvolution)
    (BM : List (LoopId × LoopBounds)) :
    ∀ (Ls : List LoopId) (st : State) (TopLoop : LoopId),
      WellFormed st → LoopShape st TopLoop →
      (∀ st', blockLevels opts SE BM st Ls TopLoop = some st' →
        (blockLevelsSteps opts SE BM st Ls TopLoop).length = Ls.length) ∧
      ∀ s ∈ blockLevelsSteps opts SE BM st Ls TopLoop, LevelBlocks s := by
  intro Ls
  induction Ls with
  | nil => intro st TopLoop _ _; simp [blockLevelsSteps]
  | cons L rest ih =>
    intro st TopLoop wf shape
    unfold blockLevelsSteps blockLevels
    cases hb : blockOneLevel opts SE st L TopLoop BM with
    | none => simp
    | some p =>
      obtain ⟨B, st1⟩ := p
      obtain ⟨-, -, -, -, shape1, -⟩ := blockOneLevel_shape hb wf shape
      obtain ⟨il, ic⟩ := ih st1 B (blockOneLevel_wellFormed hb wf) shape1
      simp only
      refine ⟨?_, ?_⟩
      · intro st' h
        simp [il st' h]
      · intro s hs
        rcases List.mem_cons.1 hs with e | e
        · subst e
          exact levelBlocks_of_step hb wf shape
        · exact ic s e


theorem transform_true_steps {opts : Options} {SE : ScalarEvolution} {st st' : State}
    {BN : BlockingNest} (h : transform opts SE st BN = some (true, st')) :
    ∃ BM TopLoop, BN.topLoop = some TopLoop ∧
      blockLevels opts SE BM st (BN.Nest.drop opts.FirstLoopDepth).reverse TopLoop = some st' ∧
      transformSteps opts SE st BN =
        blockLevelsSteps opts SE BM st (BN.Nest.drop opts.FirstLoopDepth).reverse TopLoop := by
  unfold transform at h
  rw [Option.map_eq_some'] at h
  obtain ⟨⟨r, s⟩, ht, he⟩ := h
  simp only [Prod.mk.injEq, Option.isNone_iff_eq_none] at he
  obtain ⟨hr, hs⟩ := he
  subst hr; subst hs
  unfold transformAt at ht
  unfold transformSteps
  by_cases h1 : opts.FirstLoopDepth ≥ BN.size
  · rw [if_pos h1] at ht; cases ht
  rw [if_neg h1] at ht ⊢
  by_cases h2 : (!(BN.areAllLoopsSimplified st.F st.LI)) = true
  · rw [if_pos h2] at ht; cases ht
  rw [if_neg h2] at ht ⊢
  by_cases h3 : (!(BN.areAllLoopsRotated st.F st.LI)) = true
  · rw [if_pos h3] at ht; cases ht
  rw [if_neg h3] at ht ⊢
  cases hc : checkInnerBounds SE st (BN.Nest.drop opts.FirstLoopDepth) [] with
  | Abort => simp [hc] at ht
  | ReturnFalse why st1 => simp [hc] at ht
  | Continue BM =>
    simp only [hc] at ht ⊢
    cases htop : BN.topLoop with
    | none => simp [htop] at ht
    | some TopLoop =>
      simp only [htop] at ht ⊢
      cases hb : blockLevels opts SE BM st (BN.Nest.drop opts.FirstLoopDepth).reverse TopLoop with
      | none => simp [hb] at ht
      | some st1 =>
        simp only [hb, Option.some.injEq, Prod.mk.injEq, true_and] at ht
        subst ht
        exact ⟨BM, TopLoop, rfl, hb, rfl⟩

/-- C17. Let the state be well formed and let the block list of the top loop of
the nest fit the graph (`LoopShape`).  When `transform` returns true it has
completed one level for every loop from the first depth inward, and after each
level (`LevelBlocks`) the block list of the new loop `B` is the new header, the
new latch, the new preheader of `O` and then every block of `O`; these blocks
are exactly the natural loop of the back edge from the new latch to the new
header in the graph after the level; and every ancestor of `B` in the forest
has all the blocks of `B` (`B` has no parent when the level ends). -/
theorem transform_levels_blocks (opts : Options) (SE : ScalarEvolution) (st st' : State)
    (BN : BlockingNest) (T : LoopId)
    (h : transform opts SE st BN = some (true, st')) (wf : WellFormed st)
    (htop : BN.topLoop = some T) (shape : LoopShape st T) :
    (transformSteps opts SE st BN).length = BN.Nest.length - opts.FirstLoopDepth ∧
    ∀ s ∈ transformSteps opts SE st BN, LevelBlocks s := by
  obtain ⟨BM, TopLoop, htop', hb, hsteps⟩ := transform_true_steps h
  rw [htop] at htop'
  have e := Option.some.inj htop'
  subst e
  obtain ⟨hl, hc⟩ := blockLevels_steps opts SE BM _ st T wf shape
  rw [hsteps]
  exact ⟨by simpa using hl st' hb, hc⟩

theorem nest2_loopShape : LoopShape (nest2 shapeUp) 0 := by
  have hpred : ∀ p, (2 : BlockId) ∈ (nest2 shapeUp).F.successors p →
      p ∉ ((nest2 shapeUp).LI.loop 0).Blocks → p = 1 := by
    intro p hp hn
    match p with
    | 0 => simp [nest2, nest2F, Function.successors, Terminator.successors] at hp
    | 1 => rfl
    | 2 | 3 | 4 | 5 => simp [nest2, nest2LI] at hn
    | 6 => simp [nest2, nest2F, Function.successors, Terminator.successors] at hp
    | n + 7 => simp [nest2, nest2F, Function.successors] at hp
  constructor
  · intro p x hx hxB hxh
    match p with
    | 0 =>
      simp [nest2, nest2F, Function.successors, Terminator.successors] at hx
      subst hx
      simp [nest2, nest2LI] at hxB
    | 1 =>
      simp [nest2, nest2F, Function.successors, Terminator.successors] at hx
      subst hx
      simp [nest2, nest2LI, getHeader] at hxh
    | 2 | 3 | 4 | 5 => simp [nest2, nest2LI]
    | 6 => simp [nest2, nest2F, Function.successors, Terminator.successors] at hx
    | n + 7 => simp [nest2, nest2F, Function.successors] at hx
  · intro hd p q hhd hp hq hpB hqB
    have e : hd = 2 := by
      simp [nest2, nest2LI, getHeader] at hhd
      exact hhd.symm
    subst e
    rw [hpred p hp hpB, hpred q hq hqB]
  · intro e he b hb
    have e5 : e = 5 := by
      have h5 : getExitingBlock (nest2 shapeUp).F (nest2 shapeUp).LI 0 = some 5 := by decide
      rw [h5] at he
      exact (Option.some.inj he).symm
    subst e5
    have p5 : PathIn (nest2 shapeUp).F ((nest2 shapeUp).LI.loop 0).Blocks 5 5 :=
      PathIn.here 5 (by decide)
    have p4 : PathIn (nest2 shapeUp).F ((nest2 shapeUp).LI.loop 0).Blocks 4 5 :=
      PathIn.step 4 5 5 (by decide) (by decide) p5
    have p3 : PathIn (nest2 shapeUp).F ((nest2 shapeUp).LI.loop 0).Blocks 3 5 :=
      PathIn.step 3 4 5 (by decide) (by decide) p4
    have p2 : PathIn (nest2 shapeUp).F ((nest2 shapeUp).LI.loop 0).Blocks 2 5 :=
      PathIn.step 2 3 5 (by decide) (by decide) p3
    have hb' : b = 2 ∨ b = 3 ∨ b = 4 ∨ b = 5 := by
      simpa [nest2, nest2LI] using hb
    rcases hb' with q | q | q | q <;> subst q <;> assumption

/-- C17, on the two-level example nest with first depth 0: two levels. -/
theorem transform_levels_blocks_witness :
    ∃ st', transform Options.default simpleSE (nest2 shapeUp) { Nest := [0, 1] } = some (true, st') ∧
      (transformSteps Options.default simpleSE (nest2 shapeUp) { Nest := [0, 1] }).length =
        ({ Nest := [0, 1] } : BlockingNest).Nest.length - Options.default.FirstLoopDepth ∧
      ∀ s ∈ transformSteps Options.default simpleSE (nest2 shapeUp) { Nest := [0, 1] },
        LevelBlocks s := by
  cases hr : transform Options.default simpleSE (nest2 shapeUp) { Nest := [0, 1] } with
  | none => exact absurd (congrArg Option.isSome hr) (by decide)
  | some r =>
    have hb : r.1 = true := by
      have := congrArg (Option.map (fun p => p.1)) hr
      rw [show Option.map (fun p => p.1)
          (transform Options.default simpleSE (nest2 shapeUp) { Nest := [0, 1] }) = some true
        from by decide] at this
      simpa using this.symm
    obtain ⟨b, s⟩ := r
    simp only at hb
    subst hb
    exact ⟨s, rfl, transform_levels_blocks Options.default simpleSE (nest2 shapeUp) s
      { Nest := [0, 1] } 0 hr (nest2_wellFormed shapeUp) rfl nest2_loopShape⟩


/-- On the example nests the dominator tree that `transform` leaves has, for
every block, the immediate dominator of the tree computed from scratch on the
rewritten graph: the two-level nest with one and with two levels, and the inner
two loops of the three-level nest. -/
theorem transform_domtree_on_examples :
    (transform optionsFactor16Depth1 simpleSE (nest2 shapeUp) { Nest := [0, 1] }).map
      (fun r => (List.range r.2.F.nextBlock).all
        (fun b => r.2.DT.IDom b == (DominatorTree.recalculate r.2.F).IDom b)) = some true ∧
    (transform Options.default simpleSE (nest2 shapeUp) { Nest := [0, 1] }).map
      (fun r => (List.range r.2.F.nextBlock).all
        (fun b => r.2.DT.IDom b == (DominatorTree.recalculate r.2.F).IDom b)) = some true ∧
    (transform { Options.default with FirstLoopDepth := 1 } simpleSE nest3 { Nest := [1, 2] }).map
      (fun r => (List.range r.2.F.nextBlock).all
        (fun b => r.2.DT.IDom b == (DominatorTree.recalculate r.2.F).IDom b)) = some true := by
  decide


theorem mem_predecessors_iff {F : Function} {p b : BlockId} :
    p ∈ F.predecessors b ↔ p ∈ F.blockOrder ∧ b ∈ F.successors p := by
  unfold Function.predecessors
  simp only [List.mem_flatMap, List.mem_filterMap]
  constructor
  · rintro ⟨q, hq, s, hs, he⟩
    by_cases e : s = b
    · simp only [e, if_true, Option.some.injEq] at he
      subst he
      subst e
      exact ⟨hq, hs⟩
    · simp [e] at he
  · rintro ⟨hq, hs⟩
    exact ⟨p, hq, b, hs, by simp⟩

theorem mem_insertBefore (x y : Nat) (l : List Nat) (z : Nat) :
    z ∈ insertBefore x y l ↔ z = x ∨ z ∈ l := by
  induction l with
  | nil => simp [insertBefore]
  | cons a as ih =>
    unfold insertBefore
    by_cases h : a = y
    · simp [h]
    · simp only [h, if_false, List.mem_cons, ih]
      tauto

theorem count_insertBefore_self (x y : Nat) (l : List Nat) :
    (insertBefore x y l).count x = l.count x + 1 := by
  induction l with
  | nil => simp [insertBefore]
  | cons a as ih =>
    unfold insertBefore
    by_cases h : a = y
    · simp [h]
    · simp only [h, if_false, List.count_cons, ih]
      omega

theorem count_insertBefore_ne (x y : Nat) (l : List Nat) (z : Nat) (hz : z ≠ x) :
    (insertBefore x y l).count z = l.count z := by
  induction l with
  | nil => simp [insertBefore, List.count_cons, hz.symm]
  | cons a as ih =>
    unfold insertBefore
    by_cases h : a = y
    · simp [h, List.count_cons, hz.symm]
    · simp only [h, if_false, List.count_cons, ih]

theorem filter_flatMap_single {α : Type} [DecidableEq α] (g : α → List α) (q : α → Bool) (x : α)
    (hx : (g x).filter q = [x]) :
    ∀ l : List α, (∀ p ∈ l, p ≠ x → (g p).filter q = []) →
      (l.flatMap g).filter q = List.replicate (l.count x) x := by
  intro l
  induction l with
  | nil => intro _; simp
  | cons a as ih =>
    intro h
    rw [List.flatMap_cons, List.filter_append, ih (fun p hp => h p (List.mem_cons_of_mem _ hp))]
    by_cases e : a = x
    · subst e
      rw [hx, List.count_cons_self, List.replicate_succ]
      rfl
    · rw [h a (List.mem_cons_self _ _) e, List.count_cons_of_ne (fun h => e h.symm)]
      simp

theorem flatMap_eq_nil_of {α β : Type} (f : α → List β) :
    ∀ l : List α, (∀ a ∈ l, f a = []) → l.flatMap f = [] := by
  intro l
  induction l with
  | nil => intro _; rfl
  | cons a as ih =>
    intro h
    rw [List.flatMap_cons, h a (List.mem_cons_self _ _),
      ih (fun b hb => h b (List.mem_cons_of_mem _ hb))]
    rfl


theorem add_ne_add_fresh (b i k : Nat) (h : i ≠ k) : b + i ≠ b + k := by omega

theorem not_fresh_lt (b k : Nat) : ¬ b + k < b := by omega

theorem buildTileBound_order {st : State} {c : LoopParts} {v : NewValues} {T : LoopId}
    {B : LoopBounds} {r : TileValues × State} (h : buildTileBound st c v T B = some r) :
    r.2.F.blockOrder = st.F.blockOrder := by
  unfold buildTileBound at h
  simp only [bind, Option.bind_eq_some, pure] at h
  obtain ⟨op, hop, h⟩ := h
  obtain ⟨_, _, h⟩ := h
  obtain ⟨lc, _, h⟩ := h
  obtain ⟨lp, _, h⟩ := h
  obtain ⟨_, _, h⟩ := h
  obtain ⟨old, hold, h⟩ := h
  obtain ⟨op0, hop0, h⟩ := h
  obtain ⟨P, _, h⟩ := h
  obtain ⟨tt, htt, h⟩ := h
  obtain ⟨nt, hnt, h⟩ := h
  simp only [Option.some.injEq] at h
  subst h
  rfl

theorem createBlockingLoopLocals_order {SE : ScalarEvolution} {st st' : State} {T O : LoopId}
    {B : LoopBounds} {I : BlockingInfo} {loc : Locals}
    (h : createBlockingLoopLocals SE st T O B I = some (loc, st')) :
    st'.F.blockOrder =
      insertBefore (st.F.nextBlock + 2) st.F.nextBlock
        (insertBefore (st.F.nextBlock + 1) loc.parts.OuterExit
          (insertBefore st.F.nextBlock loc.parts.OuterHeader st.F.blockOrder)) := by
  obtain ⟨st1, r, t, hc, hn, h1, h2, h3, hv, htl, hs⟩ := createBlockingLoopLocals_inv h
  subst hs
  obtain ⟨d, t2, -, -, -, -, -, -, -, ho2, -⟩ := rewireEdges_inv h1
  obtain ⟨-, -, -, -, -, -, -, -, ho3, -⟩ := buildBlockingHeader_inv h2
  rw [buildTileBound_order h3, ho3, ho2]
  rfl

theorem createBlockingLoopLocals_order_mem {SE : ScalarEvolution} {st st' : State} {T O : LoopId}
    {B : LoopBounds} {I : BlockingInfo} {loc : Locals}
    (h : createBlockingLoopLocals SE st T O B I = some (loc, st')) (z : BlockId) :
    z ∈ st'.F.blockOrder ↔
      z = st.F.nextBlock ∨ z = st.F.nextBlock + 1 ∨ z = st.F.nextBlock + 2 ∨
        z ∈ st.F.blockOrder := by
  rw [createBlockingLoopLocals_order h, mem_insertBefore, mem_insertBefore, mem_insertBefore]
  tauto

theorem createBlockingLoopLocals_order_count {SE : ScalarEvolution} {st st' : State} {T O : LoopId}
    {B : LoopBounds} {I : BlockingInfo} {loc : Locals}
    (h : createBlockingLoopLocals SE st T O B I = some (loc, st'))
    (ord : ∀ b ∈ st.F.blockOrder, b < st.F.nextBlock) :
    st'.F.blockOrder.count (st.F.nextBlock + 1) = 1 := by
  rw [createBlockingLoopLocals_order h,
    count_insertBefore_ne _ _ _ _ (add_ne_add_fresh _ 1 2 (by decide)),
    count_insertBefore_self,
    count_insertBefore_ne _ _ _ _ (Nat.succ_ne_self _)]
  have : st.F.nextBlock + 1 ∉ st.F.blockOrder := by
    intro hm
    exact not_fresh_lt _ 1 (ord _ hm)
  rw [List.count_eq_zero_of_not_mem this]


theorem outer_lookups {F : Function} {LI : LoopInfo} {B : LoopId} {nb OH OX OP : BlockId}
    {S : List BlockId}
    (hB : (LI.loop B).Blocks = [nb, nb + 1, nb + 2] ++ S)
    (s0 : F.successors nb = [nb + 2, OX]) (s1 : F.successors (nb + 1) = [nb])
    (s2 : F.successors (nb + 2) = [OH]) (sP : F.successors OP = [nb])
    (hOH : OH ∈ S) (hOX : OX ∉ [nb, nb + 1, nb + 2] ++ S) (hOP : OP ∉ [nb, nb + 1, nb + 2] ++ S)
    (f1 : ∀ b ∈ S, ∀ s ∈ F.successors b, s ∈ [nb, nb + 1, nb + 2] ++ S)
    (f2 : ∀ p ∈ [nb, nb + 1, nb + 2] ++ S, nb ∈ F.successors p → p = nb + 1)
    (f3 : ∀ p, nb ∈ F.successors p → p ∈ [nb, nb + 1, nb + 2] ++ S ∨ p = OP)
    (f4 : ∀ p ∈ F.blockOrder, OX ∈ F.successors p → p ∈ [nb, nb + 1, nb + 2] ++ S)
    (oP : OP ∈ F.blockOrder) (c1 : F.blockOrder.count (nb + 1) = 1) :
    getHeader LI B = some nb ∧ getLoopPreheader F LI B = some OP ∧
    getLoopLatch F LI B = some (nb + 1) ∧ getExitBlock F LI B = some OX ∧
    getExitingBlock F LI B = some nb ∧ hasDedicatedExits F LI B = true ∧
    isLoopExiting F LI B (nb + 1) = false := by
  have hc : ∀ x, LI.contains B x = decide (x ∈ [nb, nb + 1, nb + 2] ++ S) := by
    intro x; unfold LoopInfo.contains; rw [hB]
  have m0 : nb ∈ [nb, nb + 1, nb + 2] ++ S := (mem_fresh_append _ _ _).2 (Or.inl rfl)
  have m1 : nb + 1 ∈ [nb, nb + 1, nb + 2] ++ S := (mem_fresh_append _ _ _).2 (Or.inr (Or.inl rfl))
  have m2 : nb + 2 ∈ [nb, nb + 1, nb + 2] ++ S :=
    (mem_fresh_append _ _ _).2 (Or.inr (Or.inr (Or.inl rfl)))
  have mS : ∀ x ∈ S, x ∈ [nb, nb + 1, nb + 2] ++ S :=
    fun x hx => (mem_fresh_append _ _ _).2 (Or.inr (Or.inr (Or.inr hx)))
  have c0 : LI.contains B nb = true := by rw [hc]; exact decide_eq_true m0
  have c1' : LI.contains B (nb + 1) = true := by rw [hc]; exact decide_eq_true m1
  have c2 : LI.contains B (nb + 2) = true := by rw [hc]; exact decide_eq_true m2
  have cS : ∀ x ∈ S, LI.contains B x = true := fun x hx => by
    rw [hc]; exact decide_eq_true (mS x hx)
  have cX : LI.contains B OX = false := by rw [hc]; exact decide_eq_false hOX
  have cP : LI.contains B OP = false := by rw [hc]; exact decide_eq_false hOP
  have hdr : getHeader LI B = some nb := by
    unfold getHeader; rw [hB]; rfl
  -- the exiting blocks
  have ex0 : isLoopExiting F LI B nb = true := by
    unfold isLoopExiting; rw [s0]; simp [c2, cX]
  have ex1 : isLoopExiting F LI B (nb + 1) = false := by
    unfold isLoopExiting; rw [s1]; simp [c0]
  have ex2 : isLoopExiting F LI B (nb + 2) = false := by
    unfold isLoopExiting; rw [s2]; simp [cS OH hOH]
  have exS : ∀ b ∈ S, isLoopExiting F LI B b = false := by
    intro b hb
    unfold isLoopExiting
    rw [List.any_eq_false]
    intro s hs
    have hcs : LI.contains B s = true := by rw [hc]; exact decide_eq_true (f1 b hb s hs)
    simp [hcs]
  have hex : getExitingBlocks F LI B = [nb] := by
    unfold getExitingBlocks
    rw [hB, List.filter_append]
    have hS : S.filter (fun b => isLoopExiting F LI B b) = [] := by
      rw [List.filter_eq_nil_iff]
      intro b hb
      simp [exS b hb]
    rw [hS]
    simp [List.filter_cons, ex0, ex1, ex2]
  have hxb : getExitBlocks F LI B = [OX] := by
    unfold getExitBlocks
    rw [hB, List.flatMap_append]
    have hS : S.flatMap (fun b => (F.successors b).filter (fun s => !(LI.contains B s))) = [] := by
      apply flatMap_eq_nil_of
      intro b hb
      rw [List.filter_eq_nil_iff]
      intro s hs
      have hcs : LI.contains B s = true := by rw [hc]; exact decide_eq_true (f1 b hb s hs)
      simp [hcs]
    rw [hS]
    simp [List.flatMap_cons, s0, s1, s2, List.filter_cons, c0, c2, cX, cS OH hOH]
  -- the latch
  have hlatchList : (F.predecessors nb).filter (fun p => LI.contains B p) = [nb + 1] := by
    unfold Function.predecessors
    rw [filter_flatMap_single _ _ (nb + 1) (by rw [s1]; simp [c1']) F.blockOrder, c1]
    · rfl
    · intro p _ hne
      rw [List.filter_eq_nil_iff]
      intro y hy
      rw [List.mem_filterMap] at hy
      obtain ⟨s, hs, he⟩ := hy
      by_cases e : s = nb
      · simp only [e, if_true, Option.some.injEq] at he
        subst he
        subst e
        intro hcp
        rw [hc] at hcp
        exact hne (f2 p (of_decide_eq_true hcp) hs)
      · simp [e] at he
  have hlatch : getLoopLatch F LI B = some (nb + 1) := by
    unfold getLoopLatch
    rw [hdr]
    simp only [hlatchList]
  -- the preheader
  have hpredList : ∀ q ∈ (F.predecessors nb).filter (fun p => !(LI.contains B p)), q = OP := by
    intro q hq
    rw [List.mem_filter] at hq
    obtain ⟨hq1, hq2⟩ := hq
    rcases f3 q (mem_predecessors hq1) with hin | hin
    · rw [hc, decide_eq_true hin] at hq2
      cases hq2
    · exact hin
  have hpredMem : OP ∈ (F.predecessors nb).filter (fun p => !(LI.contains B p)) := by
    rw [List.mem_filter]
    refine ⟨mem_predecessors_iff.2 ⟨oP, by rw [sP]; exact List.mem_singleton_self _⟩, ?_⟩
    simp [cP]
  have hpred : getLoopPredecessor F LI B = some OP := by
    unfold getLoopPredecessor
    rw [hdr]
    simp only
    cases hl : (F.predecessors nb).filter (fun p => !(LI.contains B p)) with
    | nil => rw [hl] at hpredMem; cases hpredMem
    | cons p ps =>
      rw [hl] at hpredList
      have hp := hpredList p (List.mem_cons_self _ _)
      subst hp
      have hall : ps.all (fun q => decide (q = p)) = true := by
        rw [List.all_eq_true]
        intro q hq
        exact decide_eq_true (hpredList q (List.mem_cons_of_mem _ hq))
      simp only [hall, if_true]
  have hpre : getLoopPreheader F LI B = some OP := by
    unfold getLoopPreheader
    rw [hpred]
    simp [sP]
  -- dedicated exits
  have hded : hasDedicatedExits F LI B = true := by
    unfold hasDedicatedExits
    rw [hxb]
    simp only [List.all_cons, List.all_nil, Bool.and_true]
    rw [List.all_eq_true]
    intro p hp
    obtain ⟨hp1, hp2⟩ := mem_predecessors_iff.1 hp
    rw [hc]
    exact decide_eq_true (f4 p hp1 hp2)
  refine ⟨hdr, hpre, hlatch, ?_, ?_, hded, ex1⟩
  · unfold getExitBlock; rw [hxb]
  · unfold getExitingBlock; rw [hex]


theorem getExitBlock_list {F : Function} {LI : LoopInfo} {L : LoopId} {x : BlockId}
    (hx : getExitBlock F LI L = some x) : getExitBlocks F LI L = [x] := by
  unfold getExitBlock at hx
  cases hf : getExitBlocks F LI L with
  | nil => simp [hf] at hx
  | cons q qs =>
    cases qs with
    | nil =>
      simp only [hf, Option.some.injEq] at hx
      subst hx
      rfl
    | cons r rs => simp [hf] at hx

theorem getLoopPreheader_order {F : Function} {LI : LoopInfo} {L : LoopId} {p : BlockId}
    (hp : getLoopPreheader F LI L = some p) : p ∈ F.blockOrder := by
  unfold getLoopPreheader at hp
  cases ho : getLoopPredecessor F LI L with
  | none => simp [ho] at hp
  | some Out =>
    simp only [ho] at hp
    split at hp
    · cases hp
      unfold getLoopPredecessor at ho
      cases hh : getHeader LI L with
      | none => simp [hh] at ho
      | some h =>
        simp only [hh] at ho
        cases hf : (F.predecessors h).filter (fun q => !(LI.contains L q)) with
        | nil => simp [hf] at ho
        | cons q qs =>
          simp only [hf] at ho
          split at ho
          · cases ho
            have hm : p ∈ (F.predecessors h).filter (fun q => !(LI.contains L q)) := by
              rw [hf]; exact List.mem_cons_self _ _
            exact (mem_predecessors_iff.1 (List.mem_filter.1 hm).1).1
          · cases ho
    · cases hp

theorem old_exit_edge {F : Function} {LI : LoopInfo} {L : LoopId} {e x : BlockId}
    (he : getExitingBlock F LI L = some e) (hx : getExitBlock F LI L = some x)
    (b s : BlockId) (hb : b ∈ (LI.loop L).Blocks) (hs : s ∈ F.successors b)
    (hn : s ∉ (LI.loop L).Blocks) : b = e ∧ s = x := by
  have hc : (!(LI.contains L s)) = true := by simp [LoopInfo.contains, hn]
  constructor
  · have hm : b ∈ getExitingBlocks F LI L := by
      unfold getExitingBlocks
      refine List.mem_filter.2 ⟨hb, ?_⟩
      unfold isLoopExiting
      exact List.any_eq_true.2 ⟨s, hs, hc⟩
    rw [(getExitingBlock_spec he).2] at hm
    exact List.mem_singleton.1 hm
  · have hm : s ∈ getExitBlocks F LI L := by
      unfold getExitBlocks
      exact List.mem_flatMap.2 ⟨b, hb, List.mem_filter.2 ⟨hs, hc⟩⟩
    rw [getExitBlock_list hx] at hm
    exact List.mem_singleton.1 hm


theorem blockOneLevel_outer {opts : Options} {SE : ScalarEvolution} {st st' : State}
    {L TopLoop B : LoopId} {BM : List (LoopId × LoopBounds)}
    (h : blockOneLevel opts SE st L TopLoop BM = some (B, st')) (wf : WellFormed st)
    (ord : BlockOrderFresh st) (hded : hasDedicatedExits st.F st.LI TopLoop = true) :
    NewLoopAsOuter (TopLoop, B, st, st') ∧ hasDedicatedExits st'.F st'.LI B = true ∧
    BlockOrderFresh st' := by
  obtain ⟨Bounds0, loc0, st0, hl0⟩ := blockOneLevel_inv h
  obtain ⟨stA, rA, tA, hcA, -⟩ := createBlockingLoopLocals_inv hl0
  obtain ⟨-, -, hOH, hOP, -, -, -, -, hOE, -⟩ := lookupLoopParts_inv hcA
  generalize loc0.parts.OuterHeader = OH at hOH
  generalize loc0.parts.OuterPreheader = OP at hOP
  generalize loc0.parts.OuterExiting = OE at hOE
  have hTne : (st.LI.loop TopLoop).Blocks ≠ [] := by
    intro e
    have := getHeader_mem hOH
    rw [e] at this
    cases this
  have hT := wf.loops TopLoop hTne
  obtain ⟨Bounds, loc, st2, hl, hB, hF, -, hLB, hLT, -, -⟩ := blockOneLevel_forest h hT
  obtain ⟨st1, r1, t1, hc, -⟩ := createBlockingLoopLocals_inv hl
  obtain ⟨-, -, k3, k4, -, k6, -, -, k9, -⟩ := lookupLoopParts_inv hc
  rw [hOH] at k3
  rw [hOP] at k4
  rw [hOE] at k9
  simp only [Option.some.injEq] at k3 k4 k9
  obtain ⟨t2, cnd, tt, ff, ⟨hNH, hNL, hNP⟩, -, -, -,
    ⟨hTLlt, hOElt, hOHlt, hOXlt, hOP0, hOP1, hOP2, hOPOE, -⟩, -, -, -, hterm, -⟩ :=
    createBlockingLoopLocals_spec hl wf
  obtain ⟨e1, e2, e3, e4, e5, ⟨cond, e6⟩, e7⟩ :=
    createBlockingLoop_edges_aux SE st L TopLoop Bounds _ loc st2 hl (wf.loopBlocks TopLoop)
  obtain ⟨hxs, hxc⟩ := getExitBlock_spec hOE k6
  obtain ⟨hpre, hpc⟩ := getLoopPreheader_spec hOP hOH
  obtain ⟨hOES, -⟩ := getExitingBlock_spec hOE
  have hOHS := getHeader_mem hOH
  have hord := createBlockingLoopLocals_order_mem hl
  have hcnt := createBlockingLoopLocals_order_count hl ord
  obtain ⟨-, hnext⟩ := createBlockingLoopLocals_next hl
  simp only [← k3, ← k4, ← k9, hNH, hNL, hNP, ← hF] at e1 e2 e3 e4 e5 e6 e7 hLB hord hcnt hnext hterm
  rw [← k3] at hOHlt
  rw [← k4] at hOP0 hOP1 hOP2
  have hSlt : ∀ x ∈ (st.LI.loop TopLoop).Blocks, x < st.F.nextBlock := wf.loopBlocks TopLoop
  have hS0 : ∀ x ∈ (st.LI.loop TopLoop).Blocks, x ≠ st.F.nextBlock :=
    fun x hx => Nat.ne_of_lt (hSlt x hx)
  have hS1 : ∀ x ∈ (st.LI.loop TopLoop).Blocks, x ≠ st.F.nextBlock + 1 :=
    fun x hx => ne_of_lt_add _ _ 1 (hSlt x hx)
  have hS2 : ∀ x ∈ (st.LI.loop TopLoop).Blocks, x ≠ st.F.nextBlock + 2 :=
    fun x hx => ne_of_lt_add _ _ 2 (hSlt x hx)
  have hOPS : OP ∉ (st.LI.loop TopLoop).Blocks := by
    intro hm
    simp [LoopInfo.contains, hm] at hpc
  have hOXS : loc.parts.OuterExit ∉ (st.LI.loop TopLoop).Blocks := by
    intro hm
    simp [LoopInfo.contains, hm] at hxc
  have e6' : st'.F.successors st.F.nextBlock = [st.F.nextBlock + 2, loc.parts.OuterExit] := by
    simp [Function.successors, e6, Terminator.successors]
  have hLBb : (st'.LI.loop B).Blocks =
      [st.F.nextBlock, st.F.nextBlock + 1, st.F.nextBlock + 2] ++ (st.LI.loop TopLoop).Blocks := by
    rw [hLB]
  have hsub : ∀ x ∈ (st.LI.loop TopLoop).Blocks,
      x ∈ [st.F.nextBlock, st.F.nextBlock + 1, st.F.nextBlock + 2] ++
        (st.LI.loop TopLoop).Blocks :=
    fun x hx => (mem_fresh_append _ _ _).2 (Or.inr (Or.inr (Or.inr hx)))
  have m1 : st.F.nextBlock + 1 ∈ [st.F.nextBlock, st.F.nextBlock + 1, st.F.nextBlock + 2] ++
      (st.LI.loop TopLoop).Blocks := (mem_fresh_append _ _ _).2 (Or.inr (Or.inl rfl))
  have hOXn : loc.parts.OuterExit ∉ [st.F.nextBlock, st.F.nextBlock + 1, st.F.nextBlock + 2] ++
      (st.LI.loop TopLoop).Blocks := by
    intro hm
    rcases (mem_fresh_append _ _ _).1 hm with q | q | q | q
    · exact Nat.ne_of_lt hOXlt q
    · exact ne_of_lt_add _ _ 1 hOXlt q
    · exact ne_of_lt_add _ _ 2 hOXlt q
    · exact hOXS q
  have hOPn : OP ∉ [st.F.nextBlock, st.F.nextBlock + 1, st.F.nextBlock + 2] ++
      (st.LI.loop TopLoop).Blocks := by
    intro hm
    rcases (mem_fresh_append _ _ _).1 hm with q | q | q | q
    · exact hOP0 q
    · exact hOP1 q
    · exact hOP2 q
    · exact hOPS q
  -- the edges out of the old blocks stay in the new loop
  have f1 : ∀ b ∈ (st.LI.loop TopLoop).Blocks, ∀ s ∈ st'.F.successors b,
      s ∈ [st.F.nextBlock, st.F.nextBlock + 1, st.F.nextBlock + 2] ++
        (st.LI.loop TopLoop).Blocks := by
    intro b hb s hs
    by_cases p1 : b = OE
    · subst p1
      rw [e4] at hs
      obtain ⟨s0, hs0, hes⟩ := List.mem_map.1 hs
      by_cases hx : s0 = loc.parts.OuterExit
      · rw [if_pos hx] at hes
        rw [← hes]; exact m1
      · rw [if_neg hx] at hes
        subst hes
        by_cases hin : s0 ∈ (st.LI.loop TopLoop).Blocks
        · exact hsub _ hin
        · exact absurd (old_exit_edge hOE k6 b s0 hb hs0 hin).2 hx
    · have p0 : b ≠ OP := fun e => hOPS (e ▸ hb)
      rw [e7 b p0 p1 (hS0 b hb) (hS1 b hb) (hS2 b hb)] at hs
      by_cases hin : s ∈ (st.LI.loop TopLoop).Blocks
      · exact hsub _ hin
      · exact absurd (old_exit_edge hOE k6 b s hb hs hin).1 p1
  -- the only edge to the new header from inside is that of the new latch
  have f2 : ∀ p ∈ [st.F.nextBlock, st.F.nextBlock + 1, st.F.nextBlock + 2] ++
      (st.LI.loop TopLoop).Blocks, st.F.nextBlock ∈ st'.F.successors p →
      p = st.F.nextBlock + 1 := by
    intro p hp hs
    rcases (mem_fresh_append _ _ _).1 hp with q | q | q | q
    · subst q
      rw [e6'] at hs
      simp only [List.mem_cons, List.mem_singleton, List.not_mem_nil, or_false] at hs
      rcases hs with q | q
      · exact absurd q (ne_add_two _)
      · exact absurd q.symm (Nat.ne_of_lt hOXlt)
    · exact q
    · subst q
      rw [e2] at hs
      exact absurd (List.mem_singleton.1 hs).symm (Nat.ne_of_lt hOHlt)
    · by_cases p1 : p = OE
      · subst p1
        rw [e4] at hs
        obtain ⟨s0, hs0, hes⟩ := List.mem_map.1 hs
        by_cases hx : s0 = loc.parts.OuterExit
        · rw [if_pos hx] at hes
          exact absurd hes (Nat.succ_ne_self _)
        · rw [if_neg hx] at hes
          subst hes
          exact absurd (wf.succs p _ hs0) (Nat.lt_irrefl _)
      · have p0 : p ≠ OP := fun e => hOPS (e ▸ q)
        rw [e7 p p0 p1 (hS0 p q) (hS1 p q) (hS2 p q)] at hs
        exact absurd (wf.succs p _ hs) (Nat.lt_irrefl _)
  have f3 : ∀ p, st.F.nextBlock ∈ st'.F.successors p →
      p ∈ [st.F.nextBlock, st.F.nextBlock + 1, st.F.nextBlock + 2] ++
        (st.LI.loop TopLoop).Blocks ∨ p = OP := by
    intro p hp
    rw [mem_fresh_append]
    by_cases p0 : p = OP
    · exact Or.inr p0
    by_cases p1 : p = OE
    · subst p1; exact Or.inl (Or.inr (Or.inr (Or.inr hOES)))
    by_cases p2 : p = st.F.nextBlock
    · exact Or.inl (Or.inl p2)
    by_cases p3 : p = st.F.nextBlock + 1
    · exact Or.inl (Or.inr (Or.inl p3))
    by_cases p4 : p = st.F.nextBlock + 2
    · exact Or.inl (Or.inr (Or.inr (Or.inl p4)))
    rw [e7 p p0 p1 p2 p3 p4] at hp
    exact absurd (wf.succs p _ hp) (Nat.lt_irrefl _)
  -- the exit block is entered from the new loop only
  have hdedOld : ∀ p ∈ st.F.predecessors loc.parts.OuterExit,
      p ∈ (st.LI.loop TopLoop).Blocks := by
    intro p hp
    unfold hasDedicatedExits at hded
    rw [getExitBlock_list k6] at hded
    simp only [List.all_cons, List.all_nil, Bool.and_true] at hded
    rw [List.all_eq_true] at hded
    exact contains_mem (hded p hp)
  have f4 : ∀ p ∈ st'.F.blockOrder, loc.parts.OuterExit ∈ st'.F.successors p →
      p ∈ [st.F.nextBlock, st.F.nextBlock + 1, st.F.nextBlock + 2] ++
        (st.LI.loop TopLoop).Blocks := by
    intro p hpo hp
    rw [mem_fresh_append]
    by_cases p0 : p = OP
    · subst p0
      rw [e1] at hp
      exact absurd (List.mem_singleton.1 hp) (Nat.ne_of_lt hOXlt)
    by_cases p1 : p = OE
    · subst p1; exact Or.inr (Or.inr (Or.inr hOES))
    by_cases p2 : p = st.F.nextBlock
    · exact Or.inl p2
    by_cases p3 : p = st.F.nextBlock + 1
    · exact Or.inr (Or.inl p3)
    by_cases p4 : p = st.F.nextBlock + 2
    · exact Or.inr (Or.inr (Or.inl p4))
    rw [e7 p p0 p1 p2 p3 p4] at hp
    rcases (hord p).1 hpo with q | q | q | q
    · exact absurd q p2
    · exact absurd q p3
    · exact absurd q p4
    · exact Or.inr (Or.inr (Or.inr (hdedOld p (mem_predecessors_iff.2 ⟨q, hp⟩))))
  have oP : OP ∈ st'.F.blockOrder :=
    (hord OP).2 (Or.inr (Or.inr (Or.inr (getLoopPreheader_order hOP))))
  obtain ⟨g1, g2, g3, g4, g5, g6, g7⟩ :=
    outer_lookups hLBb e6' e5 e2 e1 hOHS hOXn hOPn f1 f2 f3 f4 oP hcnt
  have hT1 : st'.F.term (st.F.nextBlock + 1) = some (.Br st.F.nextBlock) := by
    rw [hterm, if_neg (fun e => ne_of_lt_add _ _ 1 hTLlt e.symm), if_neg (Nat.succ_ne_self _),
      if_pos rfl]
  refine ⟨⟨g1, ?_, ?_, g3, hT1, ?_, ?_, g5, ?_, ?_⟩, g6, ?_⟩
  · show getLoopPreheader st'.F st'.LI B = getLoopPreheader st.F st.LI TopLoop
    rw [g2, hOP]
  · show (getLoopPreheader st'.F st'.LI B).isSome = true
    rw [g2]; rfl
  · show getExitBlock st'.F st'.LI B = getExitBlock st.F st.LI TopLoop
    rw [g4, k6]
  · show (getExitBlock st'.F st'.LI B).isSome = true
    rw [g4]; rfl
  · show isLoopSimplifyForm st'.F st'.LI B = true
    unfold isLoopSimplifyForm
    rw [g2, g3, g6]; rfl
  · show isRotatedForm st'.F st'.LI B = false
    unfold isRotatedForm
    rw [g3]
    exact g7
  · intro b hb
    rw [hnext]
    rcases (hord b).1 hb with q | q | q | q
    · rw [q]; exact self_lt_add _ 3 (by decide)
    · rw [q]; exact add_lt_add_fresh _ 1 3 (by decide)
    · rw [q]; exact add_lt_add_fresh _ 2 3 (by decide)
    · exact lt_add_of_lt _ _ 3 (ord b q)


theorem blockLevels_outer (opts : Options) (SE : ScalarEvolution)
    (BM : List (LoopId × LoopBounds)) :
    ∀ (Ls : List LoopId) (st : State) (TopLoop : LoopId) (st' : State),
      blockLevels opts SE BM st Ls TopLoop = some st' →
      WellFormed st → BlockOrderFresh st → hasDedicatedExits st.F st.LI TopLoop = true →
      (blockLevelsSteps opts SE BM st Ls TopLoop).length = Ls.length ∧
      (∀ s ∈ blockLevelsSteps opts SE BM st Ls TopLoop, NewLoopAsOuter s) ∧
      (blockLevelsCalls opts SE BM st Ls TopLoop).map (fun c => (c.2.1, c.2.2)) =
        ((TopLoop, st) :: (blockLevelsSteps opts SE BM st Ls TopLoop).map
          (fun s => (s.2.1, s.2.2.2))).dropLast ∧
      (∀ c ∈ blockLevelsCalls opts SE BM st Ls TopLoop, (c.2.1 = TopLoop ∧ c.2.2 = st) ∨
        ∃ s ∈ blockLevelsSteps opts SE BM st Ls TopLoop, c.2.1 = s.2.1 ∧ c.2.2 = s.2.2.2) ∧
      (∀ c ∈ (blockLevelsCalls opts SE BM st Ls TopLoop).tail,
        ∃ s ∈ blockLevelsSteps opts SE BM st Ls TopLoop, c.2.1 = s.2.1 ∧ c.2.2 = s.2.2.2) := by
  intro Ls
  induction Ls with
  | nil => intro st TopLoop st' _ _ _ _; simp [blockLevelsCalls, blockLevelsSteps]
  | cons L rest ih =>
    intro st TopLoop st' h wf ord hded
    unfold blockLevels at h
    unfold blockLevelsCalls blockLevelsSteps
    cases hb : blockOneLevel opts SE st L TopLoop BM with
    | none => simp [hb] at h
    | some p =>
      obtain ⟨B, st1⟩ := p
      simp only [hb] at h ⊢
      obtain ⟨hnew, hded1, ord1⟩ := blockOneLevel_outer hb wf ord hded
      obtain ⟨i0, i1, i2, i3, -⟩ := ih st1 B st' h (blockOneLevel_wellFormed hb wf) ord1 hded1
      have hsub : ∀ c ∈ blockLevelsCalls opts SE BM st1 rest B,
          ∃ s ∈ (TopLoop, B, st, st1) :: blockLevelsSteps opts SE BM st1 rest B,
            c.2.1 = s.2.1 ∧ c.2.2 = s.2.2.2 := by
        intro c hc
        rcases i3 c hc with ⟨e1, e2⟩ | ⟨s, hs, e⟩
        · exact ⟨_, List.mem_cons_self _ _, e1, e2⟩
        · exact ⟨s, List.mem_cons_of_mem _ hs, e⟩
      refine ⟨by simp [i0], ?_, ?_, ?_, ?_⟩
      · intro s hs
        rcases List.mem_cons.1 hs with e | e
        · subst e; exact hnew
        · exact i1 s e
      · rw [List.map_cons, List.map_cons, i2]
        rfl
      · intro c hc
        rcases List.mem_cons.1 hc with e | e
        · subst e; exact Or.inl ⟨rfl, rfl⟩
        · exact Or.inr (hsub c e)
      · intro c hc
        exact hsub c hc


theorem transform_true_trace {opts : Options} {SE : ScalarEvolution} {st st' : State}
    {BN : BlockingNest} (h : transform opts SE st BN = some (true, st')) :
    ∃ BM TopLoop, BN.topLoop = some TopLoop ∧
      BN.areAllLoopsSimplified st.F st.LI = true ∧ BN.areAllLoopsRotated st.F st.LI = true ∧
      blockLevels opts SE BM st (BN.Nest.drop opts.FirstLoopDepth).reverse TopLoop = some st' ∧
      transformCalls opts SE st BN =
        blockLevelsCalls opts SE BM st (BN.Nest.drop opts.FirstLoopDepth).reverse TopLoop ∧
      transformSteps opts SE st BN =
        blockLevelsSteps opts SE BM st (BN.Nest.drop opts.FirstLoopDepth).reverse TopLoop := by
  unfold transform at h
  rw [Option.map_eq_some'] at h
  obtain ⟨⟨r, s⟩, ht, he⟩ := h
  simp only [Prod.mk.injEq, Option.isNone_iff_eq_none] at he
  obtain ⟨hr, hs⟩ := he
  subst hr; subst hs
  unfold transformAt at ht
  unfold transformCalls transformSteps
  by_cases h1 : opts.FirstLoopDepth ≥ BN.size
  · rw [if_pos h1] at ht; cases ht
  rw [if_neg h1] at ht ⊢
  rw [if_neg h1]
  by_cases h2 : (!(BN.areAllLoopsSimplified st.F st.LI)) = true
  · rw [if_pos h2] at ht; cases ht
  rw [if_neg h2] at ht ⊢
  rw [if_neg h2]
  by_cases h3 : (!(BN.areAllLoopsRotated st.F st.LI)) = true
  · rw [if_pos h3] at ht; cases ht
  rw [if_neg h3] at ht ⊢
  rw [if_neg h3]
  cases hc : checkInnerBounds SE st (BN.Nest.drop opts.FirstLoopDepth) [] with
  | Abort => simp [hc] at ht
  | ReturnFalse why st1 => simp [hc] at ht
  | Continue BM =>
    simp only [hc] at ht ⊢
    cases htop : BN.topLoop with
    | none => simp [htop] at ht
    | some TopLoop =>
      simp only [htop] at ht ⊢
      cases hb : blockLevels opts SE BM st (BN.Nest.drop opts.FirstLoopDepth).reverse TopLoop with
      | none => simp [hb] at ht
      | some st1 =>
        simp only [hb, Option.some.injEq, Prod.mk.injEq, true_and] at ht
        subst ht
        exact ⟨BM, TopLoop, rfl, by simpa using h2, by simpa using h3, hb, rfl, rfl⟩

/-- C16 (amended). Let the state be well formed and let the blocks of the block
list of the function be below the next fresh identity.  When `transform`
returns true it has called `createBlockingLoop` once for every loop from the
first depth inward, and every call has completed its level.  At every call, in
the state of that call, the target `T` is in rotated and in simplified form and
the outer loop `O` has a header, a single preheader, a single latch, a single
exit block and a single exiting block, and `O` is in simplified form.  At the
first call the state is that of the start and `O` is the top loop of the nest,
which is in rotated form.  At every later call `O` is the blocking loop `B`
that the level before has made, in the state that this level has left: the
outer loops and states of the calls are, in order, the top loop in the state of
the start and then the new loop and end state of every level but the last.
After every level the new loop `B` has the new header as header and as its only
exiting block, the former preheader of `O` as preheader, the new latch as only
latch and the former exit block of `O` as only exit block; the new latch ends
with an unconditional branch to the new header; `B` is in simplified form and
is not in rotated form.  So at the second and later calls `O` is not in rotated
form. -/
theorem transform_outer_loop_of_every_call (opts : Options) (SE : ScalarEvolution)
    (st st' : State) (BN : BlockingNest) (h : transform opts SE st BN = some (true, st'))
    (wf : WellFormed st) (ord : BlockOrderFresh st) :
    (transformCalls opts SE st BN).length = BN.Nest.length - opts.FirstLoopDepth ∧
    (transformSteps opts SE st BN).length = BN.Nest.length - opts.FirstLoopDepth ∧
    (∀ c ∈ transformCalls opts SE st BN, RewriterRequires c.1 c.2.1 c.2.2) ∧
    (∀ c ∈ transformCalls opts SE st BN, isLoopSimplifyForm c.2.2.F c.2.2.LI c.2.1 = true) ∧
    (∀ c, (transformCalls opts SE st BN).head? = some c →
      c.2.2 = st ∧ BN.topLoop = some c.2.1 ∧ isRotatedForm st.F st.LI c.2.1 = true) ∧
    (∀ s ∈ transformSteps opts SE st BN, NewLoopAsOuter s) ∧
    (∃ TopLoop, BN.topLoop = some TopLoop ∧
      (transformCalls opts SE st BN).map (fun c => (c.2.1, c.2.2)) =
        ((TopLoop, st) :: (transformSteps opts SE st BN).map
          (fun s => (s.2.1, s.2.2.2))).dropLast) ∧
    (∀ c ∈ (transformCalls opts SE st BN).tail,
      isRotatedForm c.2.2.F c.2.2.LI c.2.1 = false) := by
  obtain ⟨BM, TopLoop, htop, hsimp, hrot, hb, hcalls, hsteps⟩ := transform_true_trace h
  obtain ⟨hl, hc⟩ := blockLevels_calls opts SE BM _ st TopLoop st' hb
  have hmem : TopLoop ∈ BN.Nest := by
    unfold BlockingNest.topLoop at htop
    exact List.mem_of_mem_head? htop
  unfold BlockingNest.areAllLoopsSimplified at hsimp
  unfold BlockingNest.areAllLoopsRotated at hrot
  rw [List.all_eq_true] at hsimp hrot
  have hsT := hsimp TopLoop hmem
  have hded : hasDedicatedExits st.F st.LI TopLoop = true := by
    unfold isLoopSimplifyForm at hsT
    simp only [Bool.and_eq_true] at hsT
    exact hsT.2
  obtain ⟨o0, o1, o2, o3, o4⟩ := blockLevels_outer opts SE BM _ st TopLoop st' hb wf ord hded
  rw [hcalls, hsteps]
  refine ⟨by simpa using hl, by simpa using o0, hc, ?_, ?_, o1, ⟨TopLoop, htop, o2⟩, ?_⟩
  · intro c hcm
    rcases o3 c hcm with ⟨e1, e2⟩ | ⟨s, hs, e1, e2⟩
    · rw [e1, e2]; exact hsT
    · rw [e1, e2]; exact (o1 s hs).2.2.2.2.2.2.2.2.1
  · intro c hhead
    obtain ⟨e1, e2⟩ := blockLevelsCalls_head opts SE BM st _ TopLoop c hhead
    rw [e1]
    exact ⟨e2, htop, hrot TopLoop hmem⟩
  · intro c hcm
    obtain ⟨s, hs, e1, e2⟩ := o4 c hcm
    rw [e1, e2]; exact (o1 s hs).2.2.2.2.2.2.2.2.2


/-- C16 (amended), on the two-level example nest with first depth 0: two calls
and two levels. -/
theorem transform_outer_loop_of_every_call_witness :
    ∃ st', transform Options.default simpleSE (nest2 shapeUp) { Nest := [0, 1] } = some (true, st') ∧
      WellFormed (nest2 shapeUp) ∧ BlockOrderFresh (nest2 shapeUp) ∧
      (transformCalls Options.default simpleSE (nest2 shapeUp) { Nest := [0, 1] }).length =
        ({ Nest := [0, 1] } : BlockingNest).Nest.length - Options.default.FirstLoopDepth ∧
      (transformSteps Options.default simpleSE (nest2 shapeUp) { Nest := [0, 1] }).length =
        ({ Nest := [0, 1] } : BlockingNest).Nest.length - Options.default.FirstLoopDepth ∧
      (∀ c ∈ transformCalls Options.default simpleSE (nest2 shapeUp) { Nest := [0, 1] },
        RewriterRequires c.1 c.2.1 c.2.2) ∧
      (∀ c ∈ transformCalls Options.default simpleSE (nest2 shapeUp) { Nest := [0, 1] },
        isLoopSimplifyForm c.2.2.F c.2.2.LI c.2.1 = true) ∧
      (∀ c, (transformCalls Options.default simpleSE (nest2 shapeUp) { Nest := [0, 1] }).head?
          = some c →
        c.2.2 = nest2 shapeUp ∧ ({ Nest := [0, 1] } : BlockingNest).topLoop = some c.2.1 ∧
        isRotatedForm (nest2 shapeUp).F (nest2 shapeUp).LI c.2.1 = true) ∧
      (∀ s ∈ transformSteps Options.default simpleSE (nest2 shapeUp) { Nest := [0, 1] },
        NewLoopAsOuter s) ∧
      (∃ TopLoop, ({ Nest := [0, 1] } : BlockingNest).topLoop = some TopLoop ∧
        (transformCalls Options.default simpleSE (nest2 shapeUp) { Nest := [0, 1] }).map
            (fun c => (c.2.1, c.2.2)) =
          ((TopLoop, nest2 shapeUp) ::
            (transformSteps Options.default simpleSE (nest2 shapeUp) { Nest := [0, 1] }).map
              (fun s => (s.2.1, s.2.2.2))).dropLast) ∧
      (∀ c ∈ (transformCalls Options.default simpleSE (nest2 shapeUp) { Nest := [0, 1] }).tail,
        isRotatedForm c.2.2.F c.2.2.LI c.2.1 = false) := by
  have ord : BlockOrderFresh (nest2 shapeUp) := by
    unfold BlockOrderFresh
    decide
  cases hr : transform Options.default simpleSE (nest2 shapeUp) { Nest := [0, 1] } with
  | none => exact absurd (congrArg Option.isSome hr) (by decide)
  | some r =>
    have hb : r.1 = true := by
      have := congrArg (Option.map (fun p => p.1)) hr
      rw [show Option.map (fun p => p.1)
          (transform Options.default simpleSE (nest2 shapeUp) { Nest := [0, 1] }) = some true
        from by decide] at this
      simpa using this.symm
    obtain ⟨b, s⟩ := r
    simp only at hb
    subst hb
    exact ⟨s, rfl, nest2_wellFormed shapeUp, ord,
      transform_outer_loop_of_every_call Options.default simpleSE (nest2 shapeUp) s
        { Nest := [0, 1] } hr (nest2_wellFormed shapeUp) ord⟩

end LoopBlocking
